import Mathlib

/-!
# Versioned circuit-breaker rule store (`store/boltdb/circuitbreaker.go`)

A shallow embedding of the bolt-backed circuit-breaker store: the two buckets
(`circuitbreaker_rule`, `circuitbreaker_rule_relation`), the point/scan
primitives of the bolt handler, and the store operations built on them.

Conventions of the embedding:

* an instant (`time.Time`) is a natural number on one linear timeline; every
  `time.Now()` of the source is an explicit argument of the embedded operation;
* a bucket, and every Go `map[string]interface{}` returned by the handler, is
  an association list; the order of its entries carries no meaning (Go map
  iteration is unordered), and a well-formed bucket has pairwise distinct keys;
* a store operation returns its Go `error` result (`Except Err Unit`) together
  with the store state it leaves behind, so that writes made before a failure
  stay visible;
* engine I/O and decode failures are not modelled: the handler primitives are
  total.
-/

namespace Polaris

/-! ## Data model -/

/-- An instant of `time.Time`; `0` is the zero time. -/
abbrev Time := Nat

/-- Record `model.CircuitBreaker`, with the fields used by
`convertCircuitBreakerToInfo` plus the soft-delete flag `Valid`. -/
structure CircuitBreaker where
  ID : String
  Version : String
  Name : String
  Namespace : String
  Business : String
  Department : String
  Comment : String
  Inbounds : String
  Outbounds : String
  Token : String
  Owner : String
  Revision : String
  Valid : Bool
  CreateTime : Time
  ModifyTime : Time
deriving DecidableEq, Repr

/-- Record `model.CircuitBreakerRelation`: the binding of a service to a rule version. -/
structure CircuitBreakerRelation where
  ServiceID : String
  RuleID : String
  RuleVersion : String
  Valid : Bool
  CreateTime : Time
  ModifyTime : Time
deriving DecidableEq, Repr

/-- Record `model.Service`, with the fields written by the store bootstrap. -/
structure Service where
  ID : String
  Name : String
  Namespace : String
  Token : String
  Owner : String
  Revision : String
  Valid : Bool
  CreateTime : Time
  ModifyTime : Time
deriving DecidableEq, Repr

/-- Record `model.ServiceWithCircuitBreaker`: one element of the cache feed. -/
structure ServiceWithCircuitBreaker where
  ServiceID : String
  CircuitBreaker : CircuitBreaker
  Valid : Bool
  CreateTime : Time
  ModifyTime : Time
deriving DecidableEq, Repr

/-- Record `model.CircuitBreakerInfo`: a rule with the services it is released to. -/
structure CircuitBreakerInfo where
  CircuitBreaker : CircuitBreaker
  Services : List Service
deriving DecidableEq, Repr

/-- Record `model.CircuitBreakerDetail`: one page of a listing. -/
structure CircuitBreakerDetail where
  Total : Nat
  CircuitBreakerInfos : List CircuitBreakerInfo
deriving DecidableEq, Repr

/-- Status codes of `store.StatusError` used by this file. -/
inductive StatusCode where
  | NotFoundMasterConfig
  | NotFoundCircuitBreaker
deriving DecidableEq, Repr

/-- A Go `error` value of the store: a typed `store.StatusError`, a plain
`fmt.Errorf` error, or a runtime fault (slice bounds out of range). -/
inductive Err where
  | status (code : StatusCode) (msg : String)
  | plain (msg : String)
  | fault (msg : String)
deriving DecidableEq, Repr

/-- Equality of operation results is decidable. -/
instance instDecidableEqExcept {ε α : Type} [DecidableEq ε] [DecidableEq α] :
    DecidableEq (Except ε α) := fun a b =>
  match a, b with
  | .ok x, .ok y => if h : x = y then isTrue (by rw [h]) else isFalse (fun e => h (by cases e; rfl))
  | .error x, .error y =>
    if h : x = y then isTrue (by rw [h]) else isFalse (fun e => h (by cases e; rfl))
  | .ok _, .error _ => isFalse (fun e => by cases e)
  | .error _, .ok _ => isFalse (fun e => by cases e)

/-- A dynamically typed field value (`interface{}`) of a projected record. -/
inductive FieldValue where
  | str (s : String)
  | bool (b : Bool)
  | time (t : Time)
deriving DecidableEq, Repr

/-- The projection `map[string]interface{}` handed to a scan predicate. -/
abbrev FieldMap := String → Option FieldValue

/-! ## Constants -/

def VersionForMaster : String := "master"
def CBFieldNameValid : String := "Valid"
def CBFieldNameVersion : String := "Version"
def CBFieldNameID : String := "ID"
def CBFieldNameModifyTime : String := "ModifyTime"
def CBRelationFieldServiceID : String := "ServiceID"
def CBRelationFieldRuleID : String := "RuleID"
def CBRelationFieldRuleVersion : String := "RuleVersion"
def CBRelationFieldValid : String := "Valid"
def CBRelationFieldCreateTime : String := "CreateTime"
def CBRelationFieldModifyTime : String := "ModifyTime"

/-- Builtin `math.MaxUint32`. -/
def MaxUint32 : Nat := 4294967295

/-! ## Buckets and the bolt handler -/

/-- One bucket of the engine, or one Go map returned by the handler: storage
key paired with the decoded record. -/
abbrev Bucket (α : Type) := List (String × α)

namespace Bucket

variable {α : Type}

/-- Point lookup `m[k]`: the record stored under `k`, if any. -/
def get : Bucket α → String → Option α
  | [], _ => none
  | (k', v) :: rest, k => if k' = k then some v else get rest k

/-- Physical removal of every entry stored under `k`. -/
def del (b : Bucket α) (k : String) : Bucket α :=
  b.filter (fun e => decide (e.1 ≠ k))

/-- Assignment `m[k] = v`: whatever was stored under `k` is replaced. -/
def put (b : Bucket α) (k : String) (v : α) : Bucket α :=
  (k, v) :: b.del k

/-- In-place rewrite of the record stored under `k`; nothing happens when `k` is absent. -/
def modify : Bucket α → String → (α → α) → Bucket α
  | [], _, _ => []
  | (k', v) :: rest, k, f =>
    if k' = k then (k', f v) :: modify rest k f else (k', v) :: modify rest k f

/-- Storage keys of the bucket. -/
def keys (b : Bucket α) : List String := b.map Prod.fst

/-- Well-formed bucket: storage keys are pairwise distinct. -/
def WF (b : Bucket α) : Prop := (b.map Prod.fst).Nodup

end Bucket

/-- Field accessor table of `model.CircuitBreaker`. -/
def CircuitBreaker.field (r : CircuitBreaker) (name : String) : Option FieldValue :=
  if name = "ID" then some (.str r.ID)
  else if name = "Version" then some (.str r.Version)
  else if name = "Name" then some (.str r.Name)
  else if name = "Namespace" then some (.str r.Namespace)
  else if name = "Business" then some (.str r.Business)
  else if name = "Department" then some (.str r.Department)
  else if name = "Comment" then some (.str r.Comment)
  else if name = "Inbounds" then some (.str r.Inbounds)
  else if name = "Outbounds" then some (.str r.Outbounds)
  else if name = "Token" then some (.str r.Token)
  else if name = "Owner" then some (.str r.Owner)
  else if name = "Revision" then some (.str r.Revision)
  else if name = "Valid" then some (.bool r.Valid)
  else if name = "CreateTime" then some (.time r.CreateTime)
  else if name = "ModifyTime" then some (.time r.ModifyTime)
  else none

/-- Field accessor table of `model.CircuitBreakerRelation`. -/
def CircuitBreakerRelation.field (r : CircuitBreakerRelation) (name : String) :
    Option FieldValue :=
  if name = "ServiceID" then some (.str r.ServiceID)
  else if name = "RuleID" then some (.str r.RuleID)
  else if name = "RuleVersion" then some (.str r.RuleVersion)
  else if name = "Valid" then some (.bool r.Valid)
  else if name = "CreateTime" then some (.time r.CreateTime)
  else if name = "ModifyTime" then some (.time r.ModifyTime)
  else none

/-- Patch of one named field of a rule; a name or a value type that does not
fit the record leaves it as it is. -/
def CircuitBreaker.setField (r : CircuitBreaker) (name : String) (v : FieldValue) :
    CircuitBreaker :=
  match v with
  | .str s =>
    if name = "ID" then { r with ID := s }
    else if name = "Version" then { r with Version := s }
    else if name = "Name" then { r with Name := s }
    else if name = "Namespace" then { r with Namespace := s }
    else if name = "Business" then { r with Business := s }
    else if name = "Department" then { r with Department := s }
    else if name = "Comment" then { r with Comment := s }
    else if name = "Inbounds" then { r with Inbounds := s }
    else if name = "Outbounds" then { r with Outbounds := s }
    else if name = "Token" then { r with Token := s }
    else if name = "Owner" then { r with Owner := s }
    else if name = "Revision" then { r with Revision := s }
    else r
  | .bool b => if name = "Valid" then { r with Valid := b } else r
  | .time t =>
    if name = "CreateTime" then { r with CreateTime := t }
    else if name = "ModifyTime" then { r with ModifyTime := t }
    else r

/-- Patch of one named field of a relation. -/
def CircuitBreakerRelation.setField (r : CircuitBreakerRelation) (name : String)
    (v : FieldValue) : CircuitBreakerRelation :=
  match v with
  | .str s =>
    if name = "ServiceID" then { r with ServiceID := s }
    else if name = "RuleID" then { r with RuleID := s }
    else if name = "RuleVersion" then { r with RuleVersion := s }
    else r
  | .bool b => if name = "Valid" then { r with Valid := b } else r
  | .time t =>
    if name = "CreateTime" then { r with CreateTime := t }
    else if name = "ModifyTime" then { r with ModifyTime := t }
    else r

/-- Modelled from the spec: the handler's projection of a decoded record onto
the fields of interest (handler.go is not part of the sources). Only the
requested fields that the record type has appear in the map. -/
def project {α : Type} (field : α → String → Option FieldValue) (fields : List String)
    (rec : α) : FieldMap :=
  fun name => if name ∈ fields then field rec name else none

/-- Modelled from the spec: `LoadValues(bucket, keys, template)`, the direct
multi-key fetch of the bolt handler (handler.go is not part of the sources):
the result map has one entry per requested key that is stored, absent keys
are omitted. -/
def LoadValues {α : Type} (b : Bucket α) : List String → Bucket α
  | [] => []
  | k :: ks =>
    match b.get k with
    | some v => (LoadValues b ks).put k v
    | none => LoadValues b ks

/-- Modelled from the spec: `LoadValuesByFilter(bucket, fields, template,
predicate)` of the bolt handler (handler.go is not part of the sources): every
record of the bucket is decoded and projected onto `fields`; the records whose
projection satisfies the predicate are returned in full, keyed by storage key. -/
def LoadValuesByFilter {α : Type} (field : α → String → Option FieldValue)
    (b : Bucket α) (fields : List String) (filter : FieldMap → Bool) : Bucket α :=
  b.filter (fun e => filter (project field fields e.2))

/-- Modelled from the spec: `SaveValue(bucket, key, value)`, the point write of
the bolt handler (handler.go is not part of the sources): the record under
`key` is replaced by `value`. -/
def SaveValue {α : Type} (b : Bucket α) (key : String) (value : α) : Bucket α :=
  b.put key value

/-- Modelled from the spec: `DeleteValues(bucket, keys)`, the point delete of
the bolt handler (handler.go is not part of the sources): the rows under the
given keys are physically removed; removing an absent key is not an error. -/
def DeleteValues {α : Type} (b : Bucket α) (keys : List String) : Bucket α :=
  keys.foldl Bucket.del b

/-- Modelled from the spec: `UpdateValue(bucket, key, properties)`, the patch
by field-name to new-value map of the bolt handler (handler.go is not part of
the sources): the named fields of the record under `key` are overwritten;
patching an absent key succeeds and changes nothing. -/
def UpdateValue {α : Type} (setField : α → String → FieldValue → α)
    (b : Bucket α) (key : String) (properties : List (String × FieldValue)) : Bucket α :=
  b.modify key (fun rec => properties.foldl (fun acc p => setField acc p.1 p.2) rec)

/-- The persisted state: the rule bucket, the relation bucket and the service bucket. -/
structure Store where
  rules : Bucket CircuitBreaker
  relations : Bucket CircuitBreakerRelation
  services : Bucket Service
deriving DecidableEq, Repr

/-- The store before any write. -/
def Store.empty : Store := { rules := [], relations := [], services := [] }

/-- Modelled from the spec: `Execute(writable, fn)` of the transaction handler
(handler.go is not part of the sources): `fn` runs as one atomic unit, its
writes are committed when it returns nil and rolled back otherwise. -/
def Execute (s : Store) (fn : Store → Except Err Unit × Store) : Except Err Unit × Store :=
  match fn s with
  | (.ok (), s') => (.ok (), s')
  | (.error e, _) => (.error e, s)

/-- Modelled from the spec: `store.Error(err)` (package store is not part of
the sources): the error is propagated with its kind preserved. -/
def storeError (e : Err) : Err := e

/-! ## Store operations of `circuitbreaker.go` -/

/-- Source `buildKey`: `fmt.Sprintf("%s_%s", id, version)`. -/
def buildKey (id version : String) : String := id ++ "_" ++ version

/-- Source `initCircuitBreaker`; `t1`, `t2` are the two `time.Now()` readings. -/
def initCircuitBreaker (cb : CircuitBreaker) (t1 t2 : Time) : CircuitBreaker :=
  { cb with Valid := true, CreateTime := t1, ModifyTime := t2 }

/-- Source `cleanCircuitBreaker`: physical removal of the row at (id, version). -/
def cleanCircuitBreaker (s : Store) (id version : String) : Except Err Unit × Store :=
  (.ok (), { s with rules := DeleteValues s.rules [buildKey id version] })

/-- Source `GetCircuitBreaker`. -/
def GetCircuitBreaker (s : Store) (id version : String) : Except Err (Option CircuitBreaker) :=
  let cbKey := buildKey id version
  let result := LoadValues s.rules [cbKey]
  if result.length > 1 then
    .error (.plain ("[Store][CircuitBreaker] rule(id=" ++ id ++ ", version=" ++ version ++
      ") expect get one, but actual more then one, impossible"))
  else if result.length = 0 then
    .ok none
  else
    match result.get cbKey with
    | none => .error (.fault "nil interface conversion")
    | some cbRet => if !cbRet.Valid then .ok none else .ok (some cbRet)

/-- Source `CreateCircuitBreaker`. -/
def CreateCircuitBreaker (s : Store) (cb : CircuitBreaker) (t1 t2 : Time) :
    Except Err Unit × Store :=
  let cb := initCircuitBreaker cb t1 t2
  match cleanCircuitBreaker s cb.ID cb.Version with
  | (.error e, s1) => (.error (storeError e), s1)
  | (.ok (), s1) =>
    (.ok (), { s1 with rules := SaveValue s1.rules (buildKey cb.ID cb.Version) cb })

/-- Source `tagCircuitBreaker`. -/
def tagCircuitBreaker (s : Store) (cb : CircuitBreaker) (t1 t2 : Time) :
    Except Err Unit × Store :=
  match GetCircuitBreaker s cb.ID VersionForMaster with
  | .error e => (.error (storeError e), s)
  | .ok none =>
    (.error (.status .NotFoundCircuitBreaker
      ("not exist for CircuitBreaker(id=" ++ cb.ID ++ ", version=" ++ VersionForMaster ++ ")")), s)
  | .ok (some _) =>
    let cb := initCircuitBreaker cb t1 t2
    (.ok (), { s with rules := SaveValue s.rules (buildKey cb.ID cb.Version) cb })

/-- Source `TagCircuitBreaker`. -/
def TagCircuitBreaker (s : Store) (cb : CircuitBreaker) (t1 t2 : Time) :
    Except Err Unit × Store :=
  match cleanCircuitBreaker s cb.ID cb.Version with
  | (.error e, s1) => (.error (storeError e), s1)
  | (.ok (), s1) =>
    match tagCircuitBreaker s1 cb t1 t2 with
    | (.error e, s2) => (.error (storeError e), s2)
    | (.ok (), s2) => (.ok (), s2)

/-- Source `releaseCircuitBreaker`. -/
def releaseCircuitBreaker (s : Store) (cbr : CircuitBreakerRelation) (t1 t2 : Time) :
    Except Err Unit × Store :=
  match GetCircuitBreaker s cbr.RuleID cbr.RuleVersion with
  | .error e => (.error e, s)
  | .ok none => (.error (.status .NotFoundMasterConfig "not found tag config"), s)
  | .ok (some _) =>
    let cbr := { cbr with Valid := true, CreateTime := t1, ModifyTime := t2 }
    (.ok (), { s with relations := SaveValue s.relations cbr.ServiceID cbr })

/-- Source `ReleaseCircuitBreaker`. -/
def ReleaseCircuitBreaker (s : Store) (cbr : CircuitBreakerRelation) (t1 t2 : Time) :
    Except Err Unit × Store :=
  match releaseCircuitBreaker s cbr t1 t2 with
  | (.error e, s1) => (.error (storeError e), s1)
  | (.ok (), s1) => (.ok (), s1)

/-- Source `UnbindCircuitBreaker`. -/
def UnbindCircuitBreaker (s : Store) (serviceID _ruleID _ruleVersion : String) (now : Time) :
    Except Err Unit × Store :=
  let properties : List (String × FieldValue) :=
    [(CBRelationFieldValid, .bool false), (CBRelationFieldModifyTime, .time now)]
  let relations' := UpdateValue CircuitBreakerRelation.setField s.relations serviceID properties
  (.ok (), { s with relations := relations' })

/-- Scan predicate of `DeleteTagCircuitBreaker` (the closure passed to
`loadValuesByFilter`): a valid relation of rule `id`, at any version when the
master is being deleted, at exactly `version` otherwise. -/
def deleteTagFilter (id version : String) (m : FieldMap) : Bool :=
  let valid := match m CBRelationFieldValid with
    | some (.bool b) => b
    | _ => false
  if !valid then false
  else
    let ruleId := match m CBRelationFieldRuleID with
      | some (.str x) => x
      | _ => ""
    if ruleId ≠ id then false
    else
      let saveVer := match m CBRelationFieldRuleVersion with
        | some (.str x) => x
        | _ => ""
      decide (version = VersionForMaster) || decide (saveVer = version)

/-- Source `DeleteTagCircuitBreaker`: one write transaction that scans the
relation bucket, looks the rule id up in the returned map (which is keyed by
storage key), and soft-deletes the rule row when that lookup misses. -/
def DeleteTagCircuitBreaker (s : Store) (id version : String) (now : Time) :
    Except Err Unit × Store :=
  Execute s (fun tx =>
    let fields := [CBRelationFieldValid, CBRelationFieldRuleID, CBRelationFieldRuleVersion]
    let values := LoadValuesByFilter CircuitBreakerRelation.field tx.relations fields
      (deleteTagFilter id version)
    match values.get id with
    | some _ => (.ok (), tx)
    | none =>
      let properties : List (String × FieldValue) :=
        [(CBFieldNameValid, .bool false), (CBFieldNameModifyTime, .time now)]
      let key := buildKey id version
      let rules' := UpdateValue CircuitBreaker.setField tx.rules key properties
      (.ok (), { tx with rules := rules' }))

/-- Source `DeleteMasterCircuitBreaker`. -/
def DeleteMasterCircuitBreaker (s : Store) (id : String) (now : Time) :
    Except Err Unit × Store :=
  DeleteTagCircuitBreaker s id VersionForMaster now

/-- Source `UpdateCircuitBreaker`. -/
def UpdateCircuitBreaker (s : Store) (cb : CircuitBreaker) (now : Time) :
    Except Err Unit × Store :=
  let cb := { cb with Valid := true, ModifyTime := now }
  (.ok (), { s with rules := SaveValue s.rules (buildKey cb.ID cb.Version) cb })

/-- Source `GetCircuitBreakerForCache`: the relations modified at or after `mtime`,
each joined with the rule row stored under the key of its (RuleID, RuleVersion);
`firstUpdate` is not read. -/
def GetCircuitBreakerForCache (s : Store) (mtime : Time) (_firstUpdate : Bool) :
    Except Err (List ServiceWithCircuitBreaker) :=
  let fields := [CBRelationFieldModifyTime]
  let relations := LoadValuesByFilter CircuitBreakerRelation.field s.relations fields
    (fun m =>
      let mt := match m CBRelationFieldModifyTime with
        | some (.time t) => t
        | _ => 0
      !(decide (mt < mtime)))
  let serviceToCbKey : Bucket String :=
    relations.map (fun e => (e.1, buildKey e.2.RuleID e.2.RuleVersion))
  let cbKeys := relations.map (fun e => buildKey e.2.RuleID e.2.RuleVersion)
  let cbs := LoadValues s.rules cbKeys
  .ok (serviceToCbKey.filterMap (fun e =>
    match cbs.get e.2 with
    | none => none
    | some rule =>
      match relations.get e.1 with
      | none => none
      | some relation =>
        some { ServiceID := e.1, CircuitBreaker := rule, Valid := relation.Valid,
               CreateTime := relation.CreateTime, ModifyTime := relation.ModifyTime }))

/-- Source `convertCircuitBreakerToInfo`: every field but `Valid` is copied. -/
def convertCircuitBreakerToInfo (record : CircuitBreaker) : CircuitBreakerInfo :=
  { CircuitBreaker :=
      { ID := record.ID, Version := record.Version, Name := record.Name,
        Namespace := record.Namespace, Business := record.Business,
        Department := record.Department, Comment := record.Comment,
        Inbounds := record.Inbounds, Outbounds := record.Outbounds, Token := record.Token,
        Owner := record.Owner, Revision := record.Revision, Valid := false,
        CreateTime := record.CreateTime, ModifyTime := record.ModifyTime },
    Services := [] }

/-- Scan predicate of `ListMasterCircuitBreakers` (the closure passed to
`LoadValuesByFilter`); `filters` is the Go map of requested field values. -/
def listMasterFilter (filters : List (String × String)) (m : FieldMap) : Bool :=
  let invalid := match m CBFieldNameValid with
    | some (.bool b) => !b
    | _ => false
  if invalid then false
  else
    let val := match m CBFieldNameVersion with
      | some (.str x) => x
      | _ => ""
    if val ≠ VersionForMaster then false
    else
      filters.all (fun kv =>
        match m kv.1 with
        | some qV => decide (qV = FieldValue.str kv.2)
        | none => true)

/-- Order of `sort.Slice` in the two listings: ascending ModifyTime. Go's map iteration
and `sort.Slice` leave the relative order of entries with equal ModifyTime open; the
listings below fix one such order (insertion sort over the bucket order). -/
def byModifyTime (a b : CircuitBreakerInfo) : Prop :=
  a.CircuitBreaker.ModifyTime ≤ b.CircuitBreaker.ModifyTime

instance : DecidableRel byModifyTime := fun a b =>
  inferInstanceAs (Decidable (a.CircuitBreaker.ModifyTime ≤ b.CircuitBreaker.ModifyTime))

instance : IsTotal CircuitBreakerInfo byModifyTime :=
  ⟨fun a b => Nat.le_total a.CircuitBreaker.ModifyTime b.CircuitBreaker.ModifyTime⟩

instance : IsTrans CircuitBreakerInfo byModifyTime :=
  ⟨fun _ _ _ hab hbc => Nat.le_trans hab hbc⟩

/-- Source `ListMasterCircuitBreakers`; `offset` and `limit` are `uint32`, their sum
wraps modulo 2^32, and a slice expression with low bound above the high bound is a
runtime fault. The `float64` round trip of `math.Min` is exact on these integers. -/
def ListMasterCircuitBreakers (s : Store) (filters : List (String × String))
    (offset limit : Nat) : Except Err CircuitBreakerDetail :=
  let fields := filters.map Prod.fst ++ [CBFieldNameVersion, CBFieldNameValid]
  let results := LoadValuesByFilter CircuitBreaker.field s.rules fields (listMasterFilter filters)
  let cbSlice := results.map (fun e => convertCircuitBreakerToInfo e.2)
  let cbSlice := cbSlice.insertionSort byModifyTime
  let window : Nat × Nat :=
    if offset ≥ results.length % 2 ^ 32 then (0, MaxUint32) else (offset, limit)
  let lo := window.1
  let hi := min ((window.1 + window.2) % 2 ^ 32) results.length
  if lo ≤ hi ∧ hi ≤ cbSlice.length then
    .ok { Total := results.length % 2 ^ 32,
          CircuitBreakerInfos := (cbSlice.drop lo).take (hi - lo) }
  else
    .error (.fault "slice bounds out of range")

/-- Variables captured by the first scan closure of `ListReleaseCircuitBreakers`:
`svcIds` (rule id to the service ids released to it) and the set `ruleVersions`. -/
structure ReleaseScan where
  svcIds : Bucket (List String)
  ruleVersions : List String
deriving DecidableEq, Repr

/-- Modelled from the spec: `LoadValuesByFilter` run with a predicate that writes to
captured variables (handler.go is not part of the sources): the predicate is called once
per record of the bucket, in scan order, and its writes are threaded through the scan. -/
def LoadValuesByFilterWith {α σ : Type} (field : α → String → Option FieldValue)
    (fields : List String) (filter : σ → FieldMap → Bool × σ) : Bucket α → σ → Bucket α × σ
  | [], st => ([], st)
  | e :: rest, st =>
    let r := filter st (project field fields e.2)
    let out := LoadValuesByFilterWith field fields filter rest r.2
    (if r.1 then e :: out.1 else out.1, out.2)

/-- First scan predicate of `ListReleaseCircuitBreakers`, over the relation bucket; the
second component is the state of the captured `svcIds` and `ruleVersions` after the call. -/
def releaseRelationFilter (emptyCondition : Bool) (ruleID : String) (isRuleID : Bool)
    (ruleVersion : String) (isRuleVer : Bool) (st : ReleaseScan) (m : FieldMap) :
    Bool × ReleaseScan :=
  let valid := match m CBRelationFieldValid with
    | some (.bool b) => b
    | _ => false
  if !valid then (false, st)
  else if emptyCondition then (true, st)
  else
    let ruleIDVal := match m CBRelationFieldRuleID with
      | some (.str x) => x
      | _ => ""
    if isRuleID && decide (ruleIDVal ≠ ruleID) then (false, st)
    else
      let ruleVerVal := match m CBRelationFieldRuleVersion with
        | some (.str x) => x
        | _ => ""
      if isRuleVer && decide (ruleVerVal ≠ ruleVersion) then (false, st)
      else
        let serviceID := match m CBRelationFieldServiceID with
          | some (.str x) => x
          | _ => ""
        let known := match st.svcIds.get ruleIDVal with
          | some ids => ids
          | none => []
        (true, { svcIds := st.svcIds.put ruleIDVal (known ++ [serviceID]),
                 ruleVersions := ruleVerVal :: st.ruleVersions })

/-- Second scan predicate of `ListReleaseCircuitBreakers`, over the rule bucket. -/
def releaseRuleFilter (ruleID : String) (isRuleID : Bool) (ruleVersion : String)
    (isRuleVer : Bool) (ruleVersions : List String) (m : FieldMap) : Bool :=
  let valid := match m CBFieldNameValid with
    | some (.bool b) => b
    | _ => false
  if !valid then false
  else
    let ruleIDVal := match m CBFieldNameID with
      | some (.str x) => x
      | _ => ""
    if isRuleID && decide (ruleIDVal ≠ ruleID) then false
    else
      let ruleVerVal := match m CBFieldNameVersion with
        | some (.str x) => x
        | _ => ""
      if isRuleVer && decide (ruleVersion = ruleVerVal) then true
      else if ruleVerVal ∉ ruleVersions then false
      else true

/-- First scan of `ListReleaseCircuitBreakers`: the matched relations (`retRelations`)
and the captured `svcIds` and `ruleVersions`. -/
def releaseRelations (s : Store) (filters : List (String × String)) :
    Bucket CircuitBreakerRelation × ReleaseScan :=
  let emptyCondition := decide (filters.length = 0)
  let ruleID := (Bucket.get filters "rule_id").getD ""
  let isRuleID := (Bucket.get filters "rule_id").isSome
  let ruleVersion := (Bucket.get filters "rule_version").getD ""
  let isRuleVer := (Bucket.get filters "rule_version").isSome
  LoadValuesByFilterWith CircuitBreakerRelation.field
    [CBRelationFieldValid, CBRelationFieldRuleID, CBRelationFieldRuleVersion,
      CBRelationFieldServiceID]
    (releaseRelationFilter emptyCondition ruleID isRuleID ruleVersion isRuleVer)
    s.relations { svcIds := [], ruleVersions := [] }

/-- Second scan and join of `ListReleaseCircuitBreakers`: the collected `cbSlice`, one
entry per matched rule row and per service loaded for its ID, before sorting. -/
def releaseCollected (s : Store) (filters : List (String × String)) : List CircuitBreakerInfo :=
  let ruleID := (Bucket.get filters "rule_id").getD ""
  let isRuleID := (Bucket.get filters "rule_id").isSome
  let ruleVersion := (Bucket.get filters "rule_version").getD ""
  let isRuleVer := (Bucket.get filters "rule_version").isSome
  let scan := (releaseRelations s filters).2
  let results := LoadValuesByFilter CircuitBreaker.field s.rules
    [CBFieldNameValid, CBFieldNameID, CBFieldNameVersion]
    (releaseRuleFilter ruleID isRuleID ruleVersion isRuleVer scan.ruleVersions)
  results.flatMap (fun e =>
    match scan.svcIds.get e.2.ID with
    | some svcIds =>
      (LoadValues s.services svcIds).map (fun svc =>
        { convertCircuitBreakerToInfo e.2 with Services := [svc.2] })
    | none => [])

/-- Source `ListReleaseCircuitBreakers`; `offset` and `limit` are `uint32`. -/
def ListReleaseCircuitBreakers (s : Store) (filters : List (String × String))
    (offset limit : Nat) : Except Err CircuitBreakerDetail :=
  let retRelations := (releaseRelations s filters).1
  let cbSlice := (releaseCollected s filters).insertionSort byModifyTime
  if offset ≥ cbSlice.length % 2 ^ 32 then
    .ok { Total := retRelations.length % 2 ^ 32, CircuitBreakerInfos := [] }
  else
    let hi := min ((offset + limit) % 2 ^ 32) cbSlice.length
    if offset ≤ hi ∧ hi ≤ cbSlice.length then
      .ok { Total := retRelations.length % 2 ^ 32,
            CircuitBreakerInfos := (cbSlice.drop offset).take (hi - offset) }
    else
      .error (.fault "slice bounds out of range")

/-! ## Call sequences -/

/-- One call of a writing operation of the store, with its clock readings. -/
inductive Op where
  | create (cb : CircuitBreaker) (t1 t2 : Time)
  | tag (cb : CircuitBreaker) (t1 t2 : Time)
  | update (cb : CircuitBreaker) (now : Time)
  | deleteTag (id version : String) (now : Time)
  | release (cbr : CircuitBreakerRelation) (t1 t2 : Time)
  | unbind (serviceID ruleID ruleVersion : String) (now : Time)

/-- The result and the state left by one call. -/
def Op.run (s : Store) : Op → Except Err Unit × Store
  | .create cb t1 t2 => CreateCircuitBreaker s cb t1 t2
  | .tag cb t1 t2 => TagCircuitBreaker s cb t1 t2
  | .update cb now => UpdateCircuitBreaker s cb now
  | .deleteTag id version now => DeleteTagCircuitBreaker s id version now
  | .release cbr t1 t2 => ReleaseCircuitBreaker s cbr t1 t2
  | .unbind serviceID ruleID ruleVersion now =>
    UnbindCircuitBreaker s serviceID ruleID ruleVersion now

/-- Store states reachable from the empty store by any sequence of calls, whether
the calls succeed or fail. -/
inductive Reachable : Store → Prop where
  | empty : Reachable Store.empty
  | step (s : Store) (op : Op) : Reachable s → Reachable (op.run s).2

/-- The state after a list of calls, oldest first. -/
def runAll (s : Store) (ops : List Op) : Store :=
  ops.foldl (fun acc op => (op.run acc).2) s

/-! ## Store bootstrap (`default.go`) -/

/-- Principal roles of `model.Principal`. -/
inductive PrincipalType where
  | PrincipalUser
  | PrincipalGroup
deriving DecidableEq, Repr

/-- Resource kinds of `api.ResourceType` named by the default strategy. -/
inductive ResourceType where
  | Namespaces
  | Services
  | ConfigGroups
deriving DecidableEq, Repr

/-- Record `model.Principal`. -/
structure Principal where
  StrategyID : String
  PrincipalID : String
  PrincipalRole : PrincipalType
deriving DecidableEq, Repr

/-- Record `model.StrategyResource`. -/
structure StrategyResource where
  StrategyID : String
  ResType : ResourceType
  ResID : String
deriving DecidableEq, Repr

/-- Record `model.User`, with the fields set by the `mainUser` literal. -/
structure User where
  ID : String
  Name : String
  Password : String
  Owner : String
  Source : String
  Mobile : String
  Email : String
  UserType : Nat
  Token : String
  TokenEnable : Bool
  Valid : Bool
  Comment : String
  CreateTime : Time
  ModifyTime : Time
deriving DecidableEq, Repr

/-- Record `model.StrategyDetail`, with the fields set by the `mainDefaultStrategy` literal. -/
structure StrategyDetail where
  ID : String
  Name : String
  Action : String
  Comment : String
  Principals : List Principal
  Default : Bool
  Owner : String
  Resources : List StrategyResource
  Valid : Bool
  Revision : String
  CreateTime : Time
  ModifyTime : Time
deriving DecidableEq, Repr

/-- The two auth buckets written by the bootstrap: `tblUser` and `tblStrategy`. -/
structure AuthStore where
  users : Bucket User
  strategies : Bucket StrategyDetail
deriving DecidableEq, Repr

/-- The four `time.Now()` readings taken when the package-level seed literals are built. -/
structure InitClock where
  userCreate : Time
  userModify : Time
  strategyCreate : Time
  strategyModify : Time
deriving DecidableEq, Repr

/-- Source `mainUser`: the fixed admin identity. -/
def mainUser (c : InitClock) : User :=
  { ID := "65e4789a6d5b49669adf1e9e8387549c",
    Name := "polaris",
    Password := "$2a$10$3izWuZtE5SBdAtSZci.gs.iZ2pAn9I8hEqYrC6gwJp1dyjqQnrrum",
    Owner := "",
    Source := "Polaris",
    Mobile := "",
    Email := "",
    UserType := 20,
    Token := "nu/0WRA4EqSR1FagrjRj0fZwPXuGlMpX+zCuWu4uMqy8xr1vRjisSbA25aAC3mtU8MeeRsKhQiDAynUR09I=",
    TokenEnable := true,
    Valid := true,
    Comment := "default polaris admin account",
    CreateTime := c.userCreate,
    ModifyTime := c.userModify }

/-- Source `mainDefaultStrategy`: the default all-resource policy of the admin. -/
def mainDefaultStrategy (c : InitClock) : StrategyDetail :=
  { ID := "fbca9bfa04ae4ead86e1ecf5811e32a9",
    Name := "(用户) polaris的默认策略",
    Action := "READ_WRITE",
    Comment := "default admin",
    Principals :=
      [{ StrategyID := "fbca9bfa04ae4ead86e1ecf5811e32a9",
         PrincipalID := "65e4789a6d5b49669adf1e9e8387549c",
         PrincipalRole := .PrincipalUser }],
    Default := true,
    Owner := "65e4789a6d5b49669adf1e9e8387549c",
    Resources :=
      [{ StrategyID := "fbca9bfa04ae4ead86e1ecf5811e32a9", ResType := .Namespaces, ResID := "*" },
       { StrategyID := "fbca9bfa04ae4ead86e1ecf5811e32a9", ResType := .Services, ResID := "*" },
       { StrategyID := "fbca9bfa04ae4ead86e1ecf5811e32a9", ResType := .ConfigGroups,
         ResID := "*" }],
    Valid := true,
    Revision := "fbca9bfa04ae4ead86e1ecf5811e32a9",
    CreateTime := c.strategyCreate,
    ModifyTime := c.strategyModify }

/-- Modelled from the spec: `getUser(tx, id)` of the user store (user.go is not part of
the sources): the lookup by well-known ID that decides whether the admin identity is
absent; it returns the row stored under `id`, nil when there is none. The stored form
(`converToUserStore`) is taken as the record itself. -/
def getUser (tx : AuthStore) (id : String) : Except Err (Option User) :=
  .ok (tx.users.get id)

/-- Modelled from the spec: `getStrategyDetail(tx, id)` of the strategy store
(strategy.go is not part of the sources): the lookup by well-known ID that decides
whether the default policy is absent; it returns the row stored under `id`, nil when
there is none. The stored form (`convertForStrategyStore`) is taken as the record itself. -/
def getStrategyDetail (tx : AuthStore) (id : String) : Except Err (Option StrategyDetail) :=
  .ok (tx.strategies.get id)

/-- Modelled from the spec: `Execute(writable, fn)` of the transaction handler
(handler.go is not part of the sources), over the auth buckets: the writes of `fn` are
committed when it returns nil and rolled back otherwise. -/
def ExecuteAuth (s : AuthStore) (fn : AuthStore → Except Err Unit × AuthStore) :
    Except Err Unit × AuthStore :=
  match fn s with
  | (.ok (), s') => (.ok (), s')
  | (.error e, _) => (.error e, s)

/-- Source `initAuthStoreData`: one write transaction that saves the admin user and the
default strategy, each only when its lookup returns nil. -/
def initAuthStoreData (s : AuthStore) (c : InitClock) : Except Err Unit × AuthStore :=
  ExecuteAuth s (fun tx =>
    match getUser tx (mainUser c).ID with
    | .error e => (.error e, tx)
    | .ok user =>
      let tx1 : AuthStore :=
        match user with
        | none => { tx with users := SaveValue tx.users (mainUser c).ID (mainUser c) }
        | some _ => tx
      match getStrategyDetail tx1 (mainDefaultStrategy c).ID with
      | .error e => (.error e, tx1)
      | .ok rule =>
        match rule with
        | none =>
          let strategies' :=
            SaveValue tx1.strategies (mainDefaultStrategy c).ID (mainDefaultStrategy c)
          (.ok (), { tx1 with strategies := strategies' })
        | some _ => (.ok (), tx1))

/-- An auth store that already holds rows under the two well-known IDs, with contents
other than the seed literals. -/
def seededAuthStore : AuthStore :=
  { users := [("65e4789a6d5b49669adf1e9e8387549c",
      { mainUser ⟨1, 1, 1, 1⟩ with Name := "renamed", ModifyTime := 50 })],
    strategies := [("fbca9bfa04ae4ead86e1ecf5811e32a9",
      { mainDefaultStrategy ⟨1, 1, 1, 1⟩ with Comment := "edited", ModifyTime := 60 })] }

/-! ## Sample records -/

/-- A rule with the given key, name and modify time, all other fields blank. -/
def mkRule (id version name : String) (valid : Bool) (mtime : Time) : CircuitBreaker :=
  { ID := id, Version := version, Name := name, Namespace := "", Business := "",
    Department := "", Comment := "", Inbounds := "", Outbounds := "", Token := "",
    Owner := "", Revision := "", Valid := valid, CreateTime := 0, ModifyTime := mtime }

/-- A relation binding `service` to the rule (rule, version). -/
def mkRelation (service rule version : String) (valid : Bool) (mtime : Time) :
    CircuitBreakerRelation :=
  { ServiceID := service, RuleID := rule, RuleVersion := version, Valid := valid,
    CreateTime := 0, ModifyTime := mtime }

/-- A store with the valid master rule r1, released to service s1. -/
def boundStore : Store :=
  { rules := [("r1_master", mkRule "r1" "master" "n" true 1)],
    relations := [("s1", mkRelation "s1" "r1" "master" true 2)],
    services := [] }

/-- A store with the valid master rule r1 and tag v1; service s1 is bound to the tag. -/
def tagBoundStore : Store :=
  { rules := [("r1_master", mkRule "r1" "master" "n" true 1),
              ("r1_v1", mkRule "r1" "v1" "n" true 2)],
    relations := [("s1", mkRelation "s1" "r1" "v1" true 3)],
    services := [] }

/-- A store holding the valid tag r1/v1 but no master row for r1. -/
def orphanTagStore : Store :=
  { rules := [("r1_v1", mkRule "r1" "v1" "n" true 2)], relations := [], services := [] }

/-- A store holding only the valid master rule r1. -/
def masterOnlyStore : Store :=
  { rules := [("r1_master", mkRule "r1" "master" "n" true 1)], relations := [],
    services := [] }

/-- Invariant of the rule bucket: storage keys are pairwise distinct, and every row is
stored under the key built from its own ID and Version. -/
def RuleInv (b : Bucket CircuitBreaker) : Prop :=
  b.WF ∧ ∀ e ∈ b, e.1 = buildKey e.2.ID e.2.Version

/-- Invariant of the relation bucket: storage keys are pairwise distinct, and every
relation is stored under its own ServiceID. -/
def RelationInv (b : Bucket CircuitBreakerRelation) : Prop :=
  b.WF ∧ ∀ e ∈ b, e.1 = e.2.ServiceID

/-- The cache feed in the words of the specification, for one relation row stored
under `e.1`: the row is selected when its ModifyTime is at or after the cursor and the
rule row of its (RuleID, RuleVersion) exists; the aggregate carries the service key, the
rule row, and the Valid flag and both timestamps of the relation. -/
def cacheFeedSpec (s : Store) (sinceMtime : Time) (e : String × CircuitBreakerRelation) :
    Option ServiceWithCircuitBreaker :=
  if sinceMtime ≤ e.2.ModifyTime then
    (s.rules.get (buildKey e.2.RuleID e.2.RuleVersion)).map (fun rule =>
      { ServiceID := e.1, CircuitBreaker := rule, Valid := e.2.Valid,
        CreateTime := e.2.CreateTime, ModifyTime := e.2.ModifyTime })
  else none

/-- A store with two rules and four relations: s1 modified before the cursor 5, s2
modified exactly at the cursor and soft-deleted, s3 after the cursor but bound to a rule
row that does not exist, s4 after the cursor and bound to a soft-deleted rule row. -/
def feedStore : Store :=
  { rules := [("r1_master", mkRule "r1" "master" "n" true 1),
              ("r2_v1", mkRule "r2" "v1" "m" false 2)],
    relations := [("s1", mkRelation "s1" "r1" "master" true 4),
                  ("s2", mkRelation "s2" "r1" "master" false 5),
                  ("s3", mkRelation "s3" "r9" "master" true 6),
                  ("s4", mkRelation "s4" "r2" "v1" true 7)],
    services := [] }

/-- A rule bucket with five valid master rules a, b, c, d, e whose modify times are
1, 2, 3, 4, 5, stored out of time order, next to a soft-deleted master and a tag row. -/
def pageStore : Store :=
  { rules := [("d_master", mkRule "d" "master" "nd" true 4),
              ("a_master", mkRule "a" "master" "na" true 1),
              ("x_master", mkRule "x" "master" "nx" false 9),
              ("e_master", mkRule "e" "master" "ne" true 5),
              ("a_v1", mkRule "a" "v1" "na" true 7),
              ("c_master", mkRule "c" "master" "nc" true 3),
              ("b_master", mkRule "b" "master" "nb" true 2)],
    relations := [], services := [] }

/-- A rule bucket with `n` valid master rules, the i-th having ID `i` and modify time `i`. -/
def manyMasters (n : Nat) : Store :=
  { rules := (List.range n).map (fun i =>
      (buildKey (toString i) "master", mkRule (toString i) "master" "" true i)),
    relations := [], services := [] }

/-- The row condition of the master listing as the scan evaluates it on the projected
field map: the row is valid, its Version is master, and every supplied filter (k, v) whose
key is present in the map (the `ok` of `qV, ok := m[k]`) finds the string v there; a key
absent from the map imposes nothing. -/
def masterMatch (filters : List (String × String)) (r : CircuitBreaker) : Bool :=
  r.Valid && decide (r.Version = VersionForMaster) &&
    filters.all (fun kv =>
      match r.field kv.1 with
      | some q => decide (q = FieldValue.str kv.2)
      | none => true)

/-- The row condition with the filter conjunction read strictly: every supplied filter
(k, v) requires the record to have a field k holding the string v. -/
def masterMatchStrict (filters : List (String × String)) (r : CircuitBreaker) : Bool :=
  r.Valid && decide (r.Version = VersionForMaster) &&
    filters.all (fun kv => decide (r.field kv.1 = some (FieldValue.str kv.2)))

/-- The string does not contain the key separator `_`. -/
def separatorFree (x : String) : Prop := '_' ∉ x.data

instance (x : String) : Decidable (separatorFree x) :=
  inferInstanceAs (Decidable ('_' ∉ x.data))

/-- The call writes no rule whose ID contains the key separator. -/
def Op.separatorFree : Op → Prop
  | .create cb _ _ => Polaris.separatorFree cb.ID
  | .tag cb _ _ => Polaris.separatorFree cb.ID
  | .update cb _ => Polaris.separatorFree cb.ID
  | .deleteTag _ _ _ => True
  | .release _ _ _ => True
  | .unbind _ _ _ _ => True

instance : DecidablePred Op.separatorFree := fun op =>
  match op with
  | .create cb _ _ => inferInstanceAs (Decidable (Polaris.separatorFree cb.ID))
  | .tag cb _ _ => inferInstanceAs (Decidable (Polaris.separatorFree cb.ID))
  | .update cb _ => inferInstanceAs (Decidable (Polaris.separatorFree cb.ID))
  | .deleteTag _ _ _ => isTrue trivial
  | .release _ _ _ => isTrue trivial
  | .unbind _ _ _ _ => isTrue trivial

/-- A service record with the given id and name in namespace default. -/
def mkService (id name : String) : Service :=
  { ID := id, Name := name, Namespace := "default", Token := "", Owner := "", Revision := "",
    Valid := true, CreateTime := 0, ModifyTime := 0 }

/-- A store with the valid rules r1/master and r2/master and three existing services:
s1 and s2 are released to r1/master, s3 is released to r2/master. -/
def releaseStore : Store :=
  { rules := [("r1_master", mkRule "r1" "master" "n1" true 1),
              ("r2_master", mkRule "r2" "master" "n2" true 2)],
    relations := [("s1", mkRelation "s1" "r1" "master" true 3),
                  ("s2", mkRelation "s2" "r1" "master" true 4),
                  ("s3", mkRelation "s3" "r2" "master" true 5)],
    services := [("s1", mkService "s1" "svc1"), ("s2", mkService "s2" "svc2"),
                 ("s3", mkService "s3" "svc3")] }

/-- Every service id recorded in `svcIds` under a rule id comes from a valid relation of
that rule id in the scanned bucket, and from a relation of the filtered rule id when the
rule_id filter is set. -/
def SvcIdsJustified (ruleID : String) (isRuleID : Bool) (full : Bucket CircuitBreakerRelation)
    (st : ReleaseScan) : Prop :=
  ∀ k ids, st.svcIds.get k = some ids → ∀ sid ∈ ids,
    ∃ e ∈ full, e.2.Valid = true ∧ e.2.RuleID = k ∧ e.2.ServiceID = sid ∧
      (isRuleID = true → e.2.RuleID = ruleID)

/-- A store where rule r1 has a valid master and a valid tag v1; service s1 is released
to r1/master and service s2 to r1/v1. -/
def versionStore : Store :=
  { rules := [("r1_master", mkRule "r1" "master" "n" true 1),
              ("r1_v1", mkRule "r1" "v1" "n" true 2)],
    relations := [("s1", mkRelation "s1" "r1" "master" true 3),
                  ("s2", mkRelation "s2" "r1" "v1" true 4)],
    services := [("s1", mkService "s1" "svc1"), ("s2", mkService "s2" "svc2")] }

/-- The call writes no rule and no relation whose rule ID contains the key separator. -/
def Op.keysSeparatorFree : Op → Prop
  | .create cb _ _ => Polaris.separatorFree cb.ID
  | .tag cb _ _ => Polaris.separatorFree cb.ID
  | .update cb _ => Polaris.separatorFree cb.ID
  | .deleteTag _ _ _ => True
  | .release cbr _ _ => Polaris.separatorFree cbr.RuleID
  | .unbind _ _ _ _ => True

instance : DecidablePred Op.keysSeparatorFree := fun op =>
  match op with
  | .create cb _ _ => inferInstanceAs (Decidable (Polaris.separatorFree cb.ID))
  | .tag cb _ _ => inferInstanceAs (Decidable (Polaris.separatorFree cb.ID))
  | .update cb _ => inferInstanceAs (Decidable (Polaris.separatorFree cb.ID))
  | .deleteTag _ _ _ => isTrue trivial
  | .release cbr _ _ => inferInstanceAs (Decidable (Polaris.separatorFree cbr.RuleID))
  | .unbind _ _ _ _ => isTrue trivial

/-- The field names of `model.CircuitBreaker`. -/
def ruleFieldNames : List String :=
  ["ID", "Version", "Name", "Namespace", "Business", "Department", "Comment", "Inbounds",
   "Outbounds", "Token", "Owner", "Revision", "Valid", "CreateTime", "ModifyTime"]

/-! ## Bucket lemmas -/

namespace Bucket

variable {α : Type}

theorem get_del_same (b : Bucket α) (k : String) : (b.del k).get k = none := by
  induction b with
  | nil => rfl
  | cons e rest ih =>
    obtain ⟨k', v⟩ := e
    by_cases h : k' = k
    · simpa [del, h] using ih
    · simp only [del, List.filter_cons, ne_eq, h, not_false_eq_true, decide_True, if_true, get,
        if_false]
      simpa [del] using ih

theorem get_del_ne (b : Bucket α) {k k' : String} (h : k' ≠ k) :
    (b.del k).get k' = b.get k' := by
  induction b with
  | nil => rfl
  | cons e rest ih =>
    obtain ⟨k0, v⟩ := e
    by_cases h0 : k0 = k
    · subst h0
      have hne : ¬ k0 = k' := fun e => h e.symm
      simpa [del, get, hne] using ih
    · simp only [del, List.filter_cons, ne_eq, h0, not_false_eq_true, decide_True, if_true, get]
      by_cases h1 : k0 = k'
      · simp [h1]
      · simp only [h1, if_false]
        simpa [del] using ih

theorem get_put_same (b : Bucket α) (k : String) (v : α) : (b.put k v).get k = some v := by
  simp [put, get]

theorem get_put_ne (b : Bucket α) {k k' : String} (v : α) (h : k' ≠ k) :
    (b.put k v).get k' = b.get k' := by
  have hne : ¬ k = k' := fun e => h e.symm
  simp only [put, get, hne, if_false]
  exact get_del_ne b h

theorem get_modify (b : Bucket α) (k k' : String) (f : α → α) :
    (b.modify k f).get k' = if k' = k then (b.get k').map f else b.get k' := by
  induction b with
  | nil => simp [modify, get]
  | cons e rest ih =>
    obtain ⟨k0, v⟩ := e
    by_cases h0 : k0 = k <;> by_cases h1 : k0 = k'
    · subst h0; subst h1
      simp [modify, get]
    · subst h0
      have h1' : ¬ k' = k0 := fun e => h1 e.symm
      simp only [modify, if_true, get, h1, if_false, h1']
      simpa [h1'] using ih
    · subst h1
      simp [modify, get, h0]
    · simp only [modify, h0, if_false, get, h1]
      exact ih

theorem mem_of_get {b : Bucket α} {k : String} {v : α} (h : b.get k = some v) :
    (k, v) ∈ b := by
  induction b with
  | nil => simp [get] at h
  | cons e rest ih =>
    obtain ⟨k0, v0⟩ := e
    by_cases h0 : k0 = k
    · subst h0
      simp only [get, if_true, Option.some.injEq] at h
      subst h
      exact List.mem_cons_self _ _
    · simp only [get, h0, if_false] at h
      exact List.mem_cons_of_mem _ (ih h)

theorem get_of_mem {b : Bucket α} (hwf : b.WF) {k : String} {v : α} (h : (k, v) ∈ b) :
    b.get k = some v := by
  induction b with
  | nil => simp at h
  | cons e rest ih =>
    obtain ⟨k0, v0⟩ := e
    have hnd : k0 ∉ rest.map Prod.fst ∧ (rest.map Prod.fst).Nodup := by
      simpa [WF] using hwf
    rcases List.mem_cons.mp h with heq | hmem
    · cases heq
      simp [get]
    · have hk : k0 ≠ k := by
        intro e
        subst e
        exact hnd.1 (List.mem_map_of_mem Prod.fst hmem)
      simp only [get, hk, if_false]
      exact ih hnd.2 hmem

theorem get_eq_none_of_forall {b : Bucket α} {k : String} (h : ∀ e ∈ b, e.1 ≠ k) :
    b.get k = none := by
  induction b with
  | nil => rfl
  | cons e rest ih =>
    obtain ⟨k0, v0⟩ := e
    have h0 : k0 ≠ k := h (k0, v0) (List.mem_cons_self _ _)
    simp only [get, h0, if_false]
    exact ih (fun e he => h e (List.mem_cons_of_mem _ he))

theorem WF_del {b : Bucket α} (h : b.WF) (k : String) : (b.del k).WF :=
  List.Nodup.sublist (List.Sublist.map Prod.fst (List.filter_sublist b)) h

theorem mem_del {b : Bucket α} {k : String} {e : String × α} (h : e ∈ b.del k) :
    e ∈ b ∧ e.1 ≠ k := by
  simpa [del] using h

theorem WF_put {b : Bucket α} (h : b.WF) (k : String) (v : α) : (b.put k v).WF := by
  unfold WF put
  rw [List.map_cons, List.nodup_cons]
  refine ⟨?_, WF_del h k⟩
  intro hk
  obtain ⟨e, he, hfst⟩ := List.mem_map.mp hk
  exact (mem_del he).2 hfst

theorem mem_put {b : Bucket α} {k : String} {v : α} {e : String × α} (h : e ∈ b.put k v) :
    e = (k, v) ∨ e ∈ b := by
  rcases List.mem_cons.mp h with h | h
  · exact Or.inl h
  · exact Or.inr (mem_del h).1

theorem keys_modify (b : Bucket α) (k : String) (f : α → α) :
    (b.modify k f).map Prod.fst = b.map Prod.fst := by
  induction b with
  | nil => rfl
  | cons e rest ih =>
    obtain ⟨k0, v⟩ := e
    by_cases h0 : k0 = k <;> simp [modify, h0, ih]

theorem WF_modify {b : Bucket α} (h : b.WF) (k : String) (f : α → α) : (b.modify k f).WF := by
  unfold WF
  rw [keys_modify]
  exact h

theorem mem_modify {b : Bucket α} {k : String} {f : α → α} {e : String × α}
    (h : e ∈ b.modify k f) : ∃ v, (e.1, v) ∈ b ∧ (e.2 = v ∨ e.2 = f v) := by
  induction b with
  | nil => simp [modify] at h
  | cons e0 rest ih =>
    obtain ⟨k0, v0⟩ := e0
    by_cases h0 : k0 = k
    · simp only [modify, h0, if_true, List.mem_cons] at h
      rcases h with h | h
      · subst h
        exact ⟨v0, by simp [h0], Or.inr rfl⟩
      · obtain ⟨v, hv, hor⟩ := ih h
        exact ⟨v, List.mem_cons_of_mem _ hv, hor⟩
    · simp only [modify, h0, if_false, List.mem_cons] at h
      rcases h with h | h
      · subst h
        exact ⟨v0, by simp, Or.inl rfl⟩
      · obtain ⟨v, hv, hor⟩ := ih h
        exact ⟨v, List.mem_cons_of_mem _ hv, hor⟩

theorem filter_WF {b : Bucket α} (h : b.WF) (p : String × α → Bool) : WF (b.filter p) :=
  List.Nodup.sublist (List.Sublist.map Prod.fst (List.filter_sublist b)) h

end Bucket

theorem length_le_one_of_nodup_const {β : Type} {l : List β} {c : β} (hnd : l.Nodup)
    (hc : ∀ x ∈ l, x = c) : l.length ≤ 1 := by
  match l, hnd, hc with
  | [], _, _ => simp
  | [_], _, _ => simp
  | a :: b :: rest, hnd, hc =>
    exfalso
    have ha : a = c := hc a (by simp)
    have hb : b = c := hc b (by simp)
    rw [List.nodup_cons] at hnd
    exact hnd.1 (by rw [ha, hb]; simp)

/-! ## Point lookup -/

theorem LoadValues_single {α : Type} (b : Bucket α) (k : String) :
    LoadValues b [k] = match b.get k with
      | some v => [(k, v)]
      | none => [] := by
  cases h : b.get k <;> simp [LoadValues, h, Bucket.put, Bucket.del]

/-- The row `GetCircuitBreaker` resolves to: the record under the storage key
of (id, version), provided it is not soft-deleted. -/
theorem GetCircuitBreaker_eq (s : Store) (id version : String) :
    GetCircuitBreaker s id version =
      .ok (match s.rules.get (buildKey id version) with
        | some r => if r.Valid then some r else none
        | none => none) := by
  unfold GetCircuitBreaker
  simp only [LoadValues_single]
  cases h : s.rules.get (buildKey id version) with
  | none => simp
  | some r =>
    cases hv : r.Valid <;> simp [Bucket.get, hv]

/-! ## Soft delete -/

theorem deleteTagFilter_project (id version : String) (rel : CircuitBreakerRelation) :
    deleteTagFilter id version
      (project CircuitBreakerRelation.field
        [CBRelationFieldValid, CBRelationFieldRuleID, CBRelationFieldRuleVersion] rel) =
    (rel.Valid && decide (rel.RuleID = id) &&
      (decide (version = VersionForMaster) || decide (rel.RuleVersion = version))) := by
  simp only [deleteTagFilter, project, CircuitBreakerRelation.field, CBRelationFieldValid,
    CBRelationFieldRuleID, CBRelationFieldRuleVersion]
  cases hv : rel.Valid <;> by_cases hid : rel.RuleID = id <;> simp [hv, hid]

/-- The relations that block a soft delete of (id, version), as the scan returns them. -/
theorem deleteTag_values (s : Store) (id version : String) :
    LoadValuesByFilter CircuitBreakerRelation.field s.relations
      [CBRelationFieldValid, CBRelationFieldRuleID, CBRelationFieldRuleVersion]
      (deleteTagFilter id version) =
    s.relations.filter (fun e => e.2.Valid && decide (e.2.RuleID = id) &&
      (decide (version = VersionForMaster) || decide (e.2.RuleVersion = version))) := by
  unfold LoadValuesByFilter
  congr 1
  funext e
  exact deleteTagFilter_project id version e.2

theorem DeleteTag_of_lookup_none (s : Store) (id version : String) (now : Time)
    (h : (LoadValuesByFilter CircuitBreakerRelation.field s.relations
      [CBRelationFieldValid, CBRelationFieldRuleID, CBRelationFieldRuleVersion]
      (deleteTagFilter id version)).get id = none) :
    DeleteTagCircuitBreaker s id version now =
      (.ok (), ⟨UpdateValue CircuitBreaker.setField s.rules (buildKey id version)
        [(CBFieldNameValid, .bool false), (CBFieldNameModifyTime, .time now)],
        s.relations, s.services⟩) := by
  simp only [DeleteTagCircuitBreaker, Execute, h]

theorem DeleteTag_of_lookup_some (s : Store) (id version : String) (now : Time)
    (rel : CircuitBreakerRelation)
    (h : (LoadValuesByFilter CircuitBreakerRelation.field s.relations
      [CBRelationFieldValid, CBRelationFieldRuleID, CBRelationFieldRuleVersion]
      (deleteTagFilter id version)).get id = some rel) :
    DeleteTagCircuitBreaker s id version now = (.ok (), s) := by
  simp only [DeleteTagCircuitBreaker, Execute, h]

theorem softDelete_patch (r : CircuitBreaker) (now : Time) :
    List.foldl (fun acc (p : String × FieldValue) => CircuitBreaker.setField acc p.1 p.2) r
      [(CBFieldNameValid, .bool false), (CBFieldNameModifyTime, .time now)] =
    { r with Valid := false, ModifyTime := now } := by
  simp [CircuitBreaker.setField, CBFieldNameValid, CBFieldNameModifyTime]

/-- Claim C2: when a valid rule row is stored at (id, version) and no valid relation
has RuleID = id with (version = master or RuleVersion = version),
`DeleteTagCircuitBreaker(id, version)` returns success and `GetCircuitBreaker(id, version)`
then returns (nil, nil); `DeleteMasterCircuitBreaker(id)` is the case version = master. -/
theorem deleteTag_unbound_rule_then_get_nil (s : Store) (id version : String) (now : Time)
    (row : CircuitBreaker)
    (hrow : s.rules.get (buildKey id version) = some row) (_hvalid : row.Valid = true)
    (hfree : ∀ e ∈ s.relations, ¬ (e.2.Valid = true ∧ e.2.RuleID = id ∧
      (version = VersionForMaster ∨ e.2.RuleVersion = version))) :
    (DeleteTagCircuitBreaker s id version now).1 = .ok () ∧
    (DeleteTagCircuitBreaker s id version now).2.rules.get (buildKey id version) =
      some { row with Valid := false, ModifyTime := now } ∧
    GetCircuitBreaker (DeleteTagCircuitBreaker s id version now).2 id version = .ok none ∧
    (version = VersionForMaster →
      (DeleteMasterCircuitBreaker s id now).1 = .ok () ∧
      GetCircuitBreaker (DeleteMasterCircuitBreaker s id now).2 id VersionForMaster =
        .ok none) := by
  have hnone : (LoadValuesByFilter CircuitBreakerRelation.field s.relations
      [CBRelationFieldValid, CBRelationFieldRuleID, CBRelationFieldRuleVersion]
      (deleteTagFilter id version)).get id = none := by
    rw [deleteTag_values]
    have hnil : s.relations.filter (fun e => e.2.Valid && decide (e.2.RuleID = id) &&
        (decide (version = VersionForMaster) || decide (e.2.RuleVersion = version))) = [] := by
      rw [List.filter_eq_nil_iff]
      intro e he hp
      simp only [Bool.and_eq_true, Bool.or_eq_true, decide_eq_true_eq] at hp
      exact hfree e he ⟨hp.1.1, hp.1.2, hp.2⟩
    rw [hnil]
    rfl
  have hrun := DeleteTag_of_lookup_none s id version now hnone
  have hget : (DeleteTagCircuitBreaker s id version now).2.rules.get (buildKey id version) =
      some { row with Valid := false, ModifyTime := now } := by
    rw [hrun]
    simp only [UpdateValue, Bucket.get_modify, if_true, hrow, Option.map_some', softDelete_patch]
  have hnil : GetCircuitBreaker (DeleteTagCircuitBreaker s id version now).2 id version =
      .ok none := by
    simp [GetCircuitBreaker_eq, hget]
  refine ⟨by rw [hrun], hget, hnil, ?_⟩
  intro hm
  subst hm
  exact ⟨by rw [DeleteMasterCircuitBreaker, hrun], hnil⟩

/-- Witness for C2: rule r1 has a valid master and a valid tag v1; the only valid
binding of r1 is at another tag (v2) and the binding at v1 has been unbound, so
deleting tag v1 soft-deletes it. -/
theorem deleteTag_unbound_rule_then_get_nil_witness :
    (DeleteTagCircuitBreaker
      { rules := [("r1_master", mkRule "r1" "master" "n" true 1),
                  ("r1_v1", mkRule "r1" "v1" "n" true 2)],
        relations := [("s1", mkRelation "s1" "r1" "v2" true 3),
                      ("s2", mkRelation "s2" "r1" "v1" false 4)],
        services := [] } "r1" "v1" 9).1 = .ok () ∧
    GetCircuitBreaker (DeleteTagCircuitBreaker
      { rules := [("r1_master", mkRule "r1" "master" "n" true 1),
                  ("r1_v1", mkRule "r1" "v1" "n" true 2)],
        relations := [("s1", mkRelation "s1" "r1" "v2" true 3),
                      ("s2", mkRelation "s2" "r1" "v1" false 4)],
        services := [] } "r1" "v1" 9).2 "r1" "v1" = .ok none :=
  have h := deleteTag_unbound_rule_then_get_nil
    { rules := [("r1_master", mkRule "r1" "master" "n" true 1),
                ("r1_v1", mkRule "r1" "v1" "n" true 2)],
      relations := [("s1", mkRelation "s1" "r1" "v2" true 3),
                    ("s2", mkRelation "s2" "r1" "v1" false 4)],
      services := [] } "r1" "v1" 9 (mkRule "r1" "v1" "n" true 2) (by decide) (by decide)
    (by decide)
  ⟨h.1, h.2.2.1⟩

/-- Claim C3: for every store state and every rule cb, `CreateCircuitBreaker(cb)` succeeds
and `GetCircuitBreaker(cb.ID, cb.Version)` then returns cb with Valid = true and the two
timestamps of the call, every other field being that of cb. -/
theorem create_then_get (s : Store) (cb : CircuitBreaker) (t1 t2 : Time) :
    (CreateCircuitBreaker s cb t1 t2).1 = .ok () ∧
    GetCircuitBreaker (CreateCircuitBreaker s cb t1 t2).2 cb.ID cb.Version =
      .ok (some { cb with Valid := true, CreateTime := t1, ModifyTime := t2 }) := by
  refine ⟨rfl, ?_⟩
  rw [GetCircuitBreaker_eq]
  simp [CreateCircuitBreaker, cleanCircuitBreaker, initCircuitBreaker, SaveValue,
    Bucket.get_put_same]

/-- Claim C1, evaluated on the code: rule r1/master is valid and service s1 holds a
valid binding to r1/master, yet `DeleteTagCircuitBreaker("r1", "master")` returns
success with the rule row soft-deleted, so `GetCircuitBreaker` no longer returns it. -/
theorem deleteTag_drops_rule_bound_by_other_service :
    GetCircuitBreaker boundStore "r1" "master" = .ok (some (mkRule "r1" "master" "n" true 1)) ∧
    boundStore.relations.get "s1" = some (mkRelation "s1" "r1" "master" true 2) ∧
    (DeleteTagCircuitBreaker boundStore "r1" "master" 9).1 = .ok () ∧
    (DeleteTagCircuitBreaker boundStore "r1" "master" 9).2.rules =
      [("r1_master", mkRule "r1" "master" "n" false 9)] ∧
    GetCircuitBreaker (DeleteTagCircuitBreaker boundStore "r1" "master" 9).2 "r1" "master" =
      .ok none := by
  decide

/-! ## Release -/

/-- Key-level form of the failing release: when no valid rule row is stored under the
storage key built from (cbr.RuleID, cbr.RuleVersion), `ReleaseCircuitBreaker(cbr)` fails
with a NotFound status error and leaves the store unchanged. -/
theorem release_missing_target_fails (s : Store) (cbr : CircuitBreakerRelation) (t1 t2 : Time)
    (hno : ∀ row, s.rules.get (buildKey cbr.RuleID cbr.RuleVersion) = some row →
      row.Valid = false) :
    (ReleaseCircuitBreaker s cbr t1 t2).1 =
      .error (.status .NotFoundMasterConfig "not found tag config") ∧
    (ReleaseCircuitBreaker s cbr t1 t2).2 = s ∧
    (ReleaseCircuitBreaker s cbr t1 t2).2.relations.get cbr.ServiceID =
      s.relations.get cbr.ServiceID := by
  have hget : GetCircuitBreaker s cbr.RuleID cbr.RuleVersion = .ok none := by
    rw [GetCircuitBreaker_eq]
    cases h : s.rules.get (buildKey cbr.RuleID cbr.RuleVersion) with
    | none => rfl
    | some row => simp [hno row h]
  have hrun : ReleaseCircuitBreaker s cbr t1 t2 =
      (.error (.status .NotFoundMasterConfig "not found tag config"), s) := by
    simp only [ReleaseCircuitBreaker, releaseCircuitBreaker, hget, storeError]
  rw [hrun]
  exact ⟨rfl, rfl, rfl⟩

/-- Example of the key-level form: service s1 is bound to r1/master; releasing it to the
absent rule rX/master fails and the binding to r1 stays. -/
theorem release_missing_target_fails_witness :
    (ReleaseCircuitBreaker boundStore (mkRelation "s1" "rX" "master" false 0) 7 8).1 =
      .error (.status .NotFoundMasterConfig "not found tag config") ∧
    (ReleaseCircuitBreaker boundStore (mkRelation "s1" "rX" "master" false 0) 7 8).2.relations.get
      "s1" = some (mkRelation "s1" "r1" "master" true 2) :=
  have h := release_missing_target_fails boundStore (mkRelation "s1" "rX" "master" false 0) 7 8
    (by decide)
  ⟨h.1, h.2.2⟩

/-- Claim C6: with a valid rule row at (r, v), releasing service s to (r, v) succeeds; the
relation bucket then holds exactly one row for s, with RuleID = r, RuleVersion = v and
Valid = true, the relations of all other services are the same rows in the same places,
and the rule and service buckets are unchanged. -/
theorem release_overwrites_in_place (s : Store) (cbr : CircuitBreakerRelation) (t1 t2 : Time)
    (row : CircuitBreaker)
    (hrow : s.rules.get (buildKey cbr.RuleID cbr.RuleVersion) = some row)
    (hvalid : row.Valid = true) :
    (ReleaseCircuitBreaker s cbr t1 t2).1 = .ok () ∧
    (ReleaseCircuitBreaker s cbr t1 t2).2.relations.get cbr.ServiceID =
      some { cbr with Valid := true, CreateTime := t1, ModifyTime := t2 } ∧
    (ReleaseCircuitBreaker s cbr t1 t2).2.relations.filter
        (fun e => decide (e.1 = cbr.ServiceID)) =
      [(cbr.ServiceID, { cbr with Valid := true, CreateTime := t1, ModifyTime := t2 })] ∧
    (ReleaseCircuitBreaker s cbr t1 t2).2.relations.filter
        (fun e => decide (e.1 ≠ cbr.ServiceID)) =
      s.relations.filter (fun e => decide (e.1 ≠ cbr.ServiceID)) ∧
    (∀ k, k ≠ cbr.ServiceID →
      (ReleaseCircuitBreaker s cbr t1 t2).2.relations.get k = s.relations.get k) ∧
    (ReleaseCircuitBreaker s cbr t1 t2).2.rules = s.rules ∧
    (ReleaseCircuitBreaker s cbr t1 t2).2.services = s.services := by
  have hget : GetCircuitBreaker s cbr.RuleID cbr.RuleVersion = .ok (some row) := by
    rw [GetCircuitBreaker_eq, hrow]
    simp [hvalid]
  have hrun : ReleaseCircuitBreaker s cbr t1 t2 =
      (.ok (), ⟨s.rules, SaveValue s.relations cbr.ServiceID
        { cbr with Valid := true, CreateTime := t1, ModifyTime := t2 }, s.services⟩) := by
    simp only [ReleaseCircuitBreaker, releaseCircuitBreaker, hget]
  rw [hrun]
  refine ⟨rfl, ?_, ?_, ?_, ?_, rfl, rfl⟩
  · exact Bucket.get_put_same _ _ _
  · simp [SaveValue, Bucket.put, Bucket.del, List.filter_cons, List.filter_filter]
  · simp [SaveValue, Bucket.put, Bucket.del, List.filter_cons, List.filter_filter]
  · intro k hk
    exact Bucket.get_put_ne _ _ hk

/-- Witness for C6: service s1, bound to r1/master, is released again to the valid
rule r1/master at a later time. -/
theorem release_overwrites_in_place_witness :
    (ReleaseCircuitBreaker boundStore (mkRelation "s1" "r1" "master" false 0) 7 8).1 = .ok () ∧
    (ReleaseCircuitBreaker boundStore (mkRelation "s1" "r1" "master" false 0) 7 8).2.relations =
      [("s1", { mkRelation "s1" "r1" "master" true 8 with CreateTime := 7 })] :=
  have h := release_overwrites_in_place boundStore (mkRelation "s1" "r1" "master" false 0) 7 8
    (mkRule "r1" "master" "n" true 1) (by decide) (by decide)
  ⟨h.1, by decide⟩

/-! ## Tag -/

theorem buildKey_version_inj {id v1 v2 : String} (h : buildKey id v1 = buildKey id v2) :
    v1 = v2 := by
  have hd := congrArg String.data h
  simp only [buildKey, String.data_append, List.append_assoc, List.append_cancel_left_eq] at hd
  exact String.ext hd

/-- The general success case of Tag: with a valid master and a tag version other than
master, `TagCircuitBreaker(cb)` succeeds and `GetCircuitBreaker(cb.ID, cb.Version)` returns
cb with Valid = true and the timestamps of the call. -/
theorem tag_with_master_then_get (s : Store) (cb : CircuitBreaker) (t1 t2 : Time)
    (master : CircuitBreaker)
    (hmaster : s.rules.get (buildKey cb.ID VersionForMaster) = some master)
    (hvalid : master.Valid = true) (hver : cb.Version ≠ VersionForMaster) :
    (TagCircuitBreaker s cb t1 t2).1 = .ok () ∧
    GetCircuitBreaker (TagCircuitBreaker s cb t1 t2).2 cb.ID cb.Version =
      .ok (some { cb with Valid := true, CreateTime := t1, ModifyTime := t2 }) := by
  have hkey : buildKey cb.ID VersionForMaster ≠ buildKey cb.ID cb.Version :=
    fun e => hver (buildKey_version_inj e).symm
  have hget : GetCircuitBreaker
      ⟨DeleteValues s.rules [buildKey cb.ID cb.Version], s.relations, s.services⟩
      cb.ID VersionForMaster = .ok (some master) := by
    rw [GetCircuitBreaker_eq]
    simp only [DeleteValues, List.foldl_cons, List.foldl_nil]
    rw [Bucket.get_del_ne _ hkey, hmaster]
    simp [hvalid]
  have hrun : TagCircuitBreaker s cb t1 t2 =
      (.ok (), ⟨SaveValue (DeleteValues s.rules [buildKey cb.ID cb.Version])
        (buildKey cb.ID cb.Version) (initCircuitBreaker cb t1 t2), s.relations, s.services⟩) := by
    simp only [TagCircuitBreaker, cleanCircuitBreaker, tagCircuitBreaker, hget]
    rfl
  rw [hrun]
  refine ⟨rfl, ?_⟩
  rw [GetCircuitBreaker_eq]
  simp [SaveValue, Bucket.get_put_same, initCircuitBreaker]

theorem tag_with_master_then_get_witness :
    (TagCircuitBreaker masterOnlyStore (mkRule "r1" "v1" "n" false 0) 7 8).1 = .ok () ∧
    GetCircuitBreaker (TagCircuitBreaker masterOnlyStore (mkRule "r1" "v1" "n" false 0) 7 8).2
      "r1" "v1" = .ok (some { mkRule "r1" "v1" "n" true 8 with CreateTime := 7 }) :=
  tag_with_master_then_get masterOnlyStore (mkRule "r1" "v1" "n" false 0) 7 8
    (mkRule "r1" "master" "n" true 1) (by decide) (by decide) (by decide)

/-- Claim C7, evaluated on the code: rule r1 has a valid master; `TagCircuitBreaker(cb)`
with cb.ID = r1 and cb.Version = master purges the master row, then fails NotFound, and
`GetCircuitBreaker("r1", "master")` returns (nil, nil) afterwards. -/
theorem tag_at_master_version_purges_master :
    GetCircuitBreaker masterOnlyStore "r1" "master" =
      .ok (some (mkRule "r1" "master" "n" true 1)) ∧
    (TagCircuitBreaker masterOnlyStore (mkRule "r1" "master" "n2" false 0) 7 8).1 =
      .error (.status .NotFoundCircuitBreaker
        "not exist for CircuitBreaker(id=r1, version=master)") ∧
    (TagCircuitBreaker masterOnlyStore (mkRule "r1" "master" "n2" false 0) 7 8).2.rules = [] ∧
    GetCircuitBreaker (TagCircuitBreaker masterOnlyStore (mkRule "r1" "master" "n2" false 0)
      7 8).2 "r1" "master" = .ok none := by
  decide

/-- Claim C8, evaluated on the code: rule r1 has no master row and a row at r1/v1;
`TagCircuitBreaker(cb)` with cb = r1/v1 returns the NotFound status error, and the row
that was stored at r1/v1 is gone from the rule bucket. -/
theorem tag_without_master_purges_tag_row :
    GetCircuitBreaker orphanTagStore "r1" "master" = .ok none ∧
    orphanTagStore.rules.get (buildKey "r1" "v1") = some (mkRule "r1" "v1" "n" true 2) ∧
    (TagCircuitBreaker orphanTagStore (mkRule "r1" "v1" "n2" false 0) 7 8).1 =
      .error (.status .NotFoundCircuitBreaker
        "not exist for CircuitBreaker(id=r1, version=master)") ∧
    (TagCircuitBreaker orphanTagStore (mkRule "r1" "v1" "n2" false 0) 7 8).2.rules = [] ∧
    (TagCircuitBreaker orphanTagStore (mkRule "r1" "v1" "n2" false 0) 7 8).2.rules ≠
      orphanTagStore.rules := by
  decide

/-! ## Uniqueness of valid rows -/

theorem RuleInv_del {b : Bucket CircuitBreaker} (h : RuleInv b) (k : String) :
    RuleInv (b.del k) :=
  ⟨Bucket.WF_del h.1 k, fun e he => h.2 e (Bucket.mem_del he).1⟩

theorem RuleInv_put {b : Bucket CircuitBreaker} (h : RuleInv b) (r : CircuitBreaker) :
    RuleInv (b.put (buildKey r.ID r.Version) r) := by
  refine ⟨Bucket.WF_put h.1 _ _, fun e he => ?_⟩
  rcases Bucket.mem_put he with he | he
  · subst he
    rfl
  · exact h.2 e he

theorem RuleInv_softDelete {b : Bucket CircuitBreaker} (h : RuleInv b) (k : String)
    (now : Time) :
    RuleInv (UpdateValue CircuitBreaker.setField b k
      [(CBFieldNameValid, .bool false), (CBFieldNameModifyTime, .time now)]) := by
  refine ⟨Bucket.WF_modify h.1 _ _, fun e he => ?_⟩
  obtain ⟨v, hv, hor⟩ := Bucket.mem_modify he
  have hkey := h.2 (e.1, v) hv
  rcases hor with hor | hor
  · rw [hor]
    exact hkey
  · rw [hor, softDelete_patch]
    exact hkey

theorem tag_rules_cases (s : Store) (cb : CircuitBreaker) (t1 t2 : Time) :
    (TagCircuitBreaker s cb t1 t2).2.rules = s.rules.del (buildKey cb.ID cb.Version) ∨
    (TagCircuitBreaker s cb t1 t2).2.rules =
      (s.rules.del (buildKey cb.ID cb.Version)).put (buildKey cb.ID cb.Version)
        (initCircuitBreaker cb t1 t2) := by
  simp only [TagCircuitBreaker, cleanCircuitBreaker, tagCircuitBreaker, GetCircuitBreaker_eq,
    DeleteValues, List.foldl_cons, List.foldl_nil]
  cases hg : (s.rules.del (buildKey cb.ID cb.Version)).get (buildKey cb.ID VersionForMaster) with
  | none => simp
  | some r => cases hv : r.Valid <;> simp [hv, SaveValue, initCircuitBreaker]

theorem release_rules (s : Store) (cbr : CircuitBreakerRelation) (t1 t2 : Time) :
    (ReleaseCircuitBreaker s cbr t1 t2).2.rules = s.rules := by
  simp only [ReleaseCircuitBreaker, releaseCircuitBreaker, GetCircuitBreaker_eq]
  cases hg : s.rules.get (buildKey cbr.RuleID cbr.RuleVersion) with
  | none => simp
  | some r => cases hv : r.Valid <;> simp [hv]

theorem RuleInv_step (s : Store) (op : Op) (h : RuleInv s.rules) :
    RuleInv (op.run s).2.rules := by
  cases op with
  | create cb t1 t2 =>
    exact RuleInv_put (RuleInv_del h _) (initCircuitBreaker cb t1 t2)
  | tag cb t1 t2 =>
    have hdel : RuleInv (s.rules.del (buildKey cb.ID cb.Version)) := RuleInv_del h _
    rcases tag_rules_cases s cb t1 t2 with hr | hr
    · simp only [Op.run, hr]
      exact hdel
    · simp only [Op.run, hr]
      exact RuleInv_put hdel (initCircuitBreaker cb t1 t2)
  | update cb now =>
    exact RuleInv_put h { cb with Valid := true, ModifyTime := now }
  | deleteTag id version now =>
    cases hl : (LoadValuesByFilter CircuitBreakerRelation.field s.relations
      [CBRelationFieldValid, CBRelationFieldRuleID, CBRelationFieldRuleVersion]
      (deleteTagFilter id version)).get id with
    | none =>
      simp only [Op.run, DeleteTag_of_lookup_none s id version now hl]
      exact RuleInv_softDelete h _ now
    | some rel =>
      simp only [Op.run, DeleteTag_of_lookup_some s id version now rel hl]
      exact h
  | release cbr t1 t2 =>
    simp only [Op.run, release_rules]
    exact h
  | unbind serviceID ruleID ruleVersion now =>
    exact h

theorem RuleInv_of_reachable {s : Store} (h : Reachable s) : RuleInv s.rules := by
  induction h with
  | empty => exact ⟨List.nodup_nil, fun e he => by simp [Store.empty] at he⟩
  | step s op _ ih => exact RuleInv_step s op ih

theorem valid_rows_at_most_one {b : Bucket CircuitBreaker} (h : RuleInv b)
    (id version : String) :
    (b.filter (fun e => decide (e.2.ID = id) && decide (e.2.Version = version) &&
      e.2.Valid)).length ≤ 1 := by
  have hnd : ((b.filter (fun e => decide (e.2.ID = id) && decide (e.2.Version = version) &&
      e.2.Valid)).map Prod.fst).Nodup := Bucket.filter_WF h.1 _
  have hle := length_le_one_of_nodup_const (c := buildKey id version) hnd (by
    intro k hk
    obtain ⟨e, he, hfst⟩ := List.mem_map.mp hk
    rw [List.mem_filter] at he
    obtain ⟨hmem, hp⟩ := he
    simp only [Bool.and_eq_true, decide_eq_true_eq] at hp
    rw [← hfst, h.2 e hmem, hp.1.1, hp.1.2])
  simpa using hle

/-- Claim C4: in every store state reachable from the empty store by Create, Tag,
Update, DeleteTag, Release and Unbind calls, for every pair (ID, Version) the rule bucket
holds at most one row with that ID, that Version and Valid = true. -/
theorem reachable_valid_row_unique (s : Store) (h : Reachable s) (id version : String) :
    (s.rules.filter (fun e => decide (e.2.ID = id) && decide (e.2.Version = version) &&
      e.2.Valid)).length ≤ 1 :=
  valid_rows_at_most_one (RuleInv_of_reachable h) id version

/-- Witness for C4: r1/master is created twice (the second call overwrites the first),
tagged, and the tag is updated; exactly one valid row sits at r1/master. -/
theorem reachable_valid_row_unique_witness :
    ((runAll Store.empty
        [Op.create (mkRule "r1" "master" "n" false 0) 1 1,
         Op.create (mkRule "r1" "master" "n2" false 0) 2 2,
         Op.tag (mkRule "r1" "v1" "n2" false 0) 3 3,
         Op.update (mkRule "r1" "v1" "n3" false 0) 4]).rules.filter
      (fun e => decide (e.2.ID = "r1") && decide (e.2.Version = "master") &&
        e.2.Valid)).length ≤ 1 :=
  reachable_valid_row_unique _
    (Reachable.step _ (Op.update (mkRule "r1" "v1" "n3" false 0) 4)
      (Reachable.step _ (Op.tag (mkRule "r1" "v1" "n2" false 0) 3 3)
        (Reachable.step _ (Op.create (mkRule "r1" "master" "n2" false 0) 2 2)
          (Reachable.step _ (Op.create (mkRule "r1" "master" "n" false 0) 1 1)
            Reachable.empty))))
    "r1" "master"

/-! ## Relations stay keyed by service -/

theorem tag_relations (s : Store) (cb : CircuitBreaker) (t1 t2 : Time) :
    (TagCircuitBreaker s cb t1 t2).2.relations = s.relations := by
  simp only [TagCircuitBreaker, cleanCircuitBreaker, tagCircuitBreaker, GetCircuitBreaker_eq,
    DeleteValues, List.foldl_cons, List.foldl_nil]
  cases hg : (s.rules.del (buildKey cb.ID cb.Version)).get (buildKey cb.ID VersionForMaster) with
  | none => simp
  | some r => cases hv : r.Valid <;> simp [hv]

theorem release_relations_cases (s : Store) (cbr : CircuitBreakerRelation) (t1 t2 : Time) :
    (ReleaseCircuitBreaker s cbr t1 t2).2.relations = s.relations ∨
    (ReleaseCircuitBreaker s cbr t1 t2).2.relations =
      s.relations.put cbr.ServiceID
        { cbr with Valid := true, CreateTime := t1, ModifyTime := t2 } := by
  simp only [ReleaseCircuitBreaker, releaseCircuitBreaker, GetCircuitBreaker_eq]
  cases hg : s.rules.get (buildKey cbr.RuleID cbr.RuleVersion) with
  | none => simp
  | some r => cases hv : r.Valid <;> simp [hv, SaveValue]

theorem unbind_patch (r : CircuitBreakerRelation) (now : Time) :
    List.foldl (fun acc (p : String × FieldValue) => CircuitBreakerRelation.setField acc p.1 p.2)
      r [(CBRelationFieldValid, .bool false), (CBRelationFieldModifyTime, .time now)] =
    { r with Valid := false, ModifyTime := now } := by
  simp [CircuitBreakerRelation.setField, CBRelationFieldValid, CBRelationFieldModifyTime]

theorem RelationInv_step (s : Store) (op : Op) (h : RelationInv s.relations) :
    RelationInv (op.run s).2.relations := by
  cases op with
  | create cb t1 t2 => exact h
  | tag cb t1 t2 =>
    simp only [Op.run, tag_relations]
    exact h
  | update cb now => exact h
  | deleteTag id version now =>
    cases hl : (LoadValuesByFilter CircuitBreakerRelation.field s.relations
      [CBRelationFieldValid, CBRelationFieldRuleID, CBRelationFieldRuleVersion]
      (deleteTagFilter id version)).get id with
    | none =>
      simp only [Op.run, DeleteTag_of_lookup_none s id version now hl]
      exact h
    | some rel =>
      simp only [Op.run, DeleteTag_of_lookup_some s id version now rel hl]
      exact h
  | release cbr t1 t2 =>
    rcases release_relations_cases s cbr t1 t2 with hr | hr
    · simp only [Op.run, hr]
      exact h
    · simp only [Op.run, hr]
      refine ⟨Bucket.WF_put h.1 _ _, fun e he => ?_⟩
      rcases Bucket.mem_put he with he | he
      · subst he
        rfl
      · exact h.2 e he
  | unbind serviceID ruleID ruleVersion now =>
    refine ⟨Bucket.WF_modify h.1 _ _, fun e he => ?_⟩
    obtain ⟨v, hv, hor⟩ := Bucket.mem_modify he
    have hkey := h.2 (e.1, v) hv
    rcases hor with hor | hor
    · rw [hor]
      exact hkey
    · rw [hor, unbind_patch]
      exact hkey

/-- Every reachable store keeps each relation under its own ServiceID, one per key. -/
theorem RelationInv_of_reachable {s : Store} (h : Reachable s) : RelationInv s.relations := by
  induction h with
  | empty => exact ⟨List.nodup_nil, fun e he => by simp [Store.empty] at he⟩
  | step s op _ ih => exact RelationInv_step s op ih

/-! ## Cache feed -/

theorem LoadValues_get {α : Type} (b : Bucket α) (keys : List String) (k : String) :
    (LoadValues b keys).get k = if k ∈ keys then b.get k else none := by
  induction keys with
  | nil => simp [LoadValues, Bucket.get]
  | cons k0 ks ih =>
    by_cases hk : k = k0
    · subst hk
      cases hg : b.get k with
      | none =>
        simp only [LoadValues, hg, ih, List.mem_cons, true_or, if_true]
        split <;> rfl
      | some v => simp [LoadValues, hg, Bucket.get_put_same]
    · cases hg : b.get k0 with
      | none => simp [LoadValues, hg, ih, hk]
      | some v => simp [LoadValues, hg, Bucket.get_put_ne _ _ hk, ih, hk]

theorem cacheFilter_project (mtime : Time) (rel : CircuitBreakerRelation) :
    (fun (m : FieldMap) =>
      let mt := match m CBRelationFieldModifyTime with
        | some (.time t) => t
        | _ => 0
      !(decide (mt < mtime)))
      (project CircuitBreakerRelation.field [CBRelationFieldModifyTime] rel) =
    decide (mtime ≤ rel.ModifyTime) := by
  simp only [project, CircuitBreakerRelation.field, CBRelationFieldModifyTime]
  by_cases h : mtime ≤ rel.ModifyTime
  · simp [h, Nat.not_lt.mpr h]
  · simp [h, Nat.lt_of_not_le h]

/-- The feed computed by the code is the feed of the specification, row by row. -/
theorem GetCircuitBreakerForCache_eq (s : Store) (mtime : Time) (firstUpdate : Bool)
    (hwf : s.relations.WF) :
    GetCircuitBreakerForCache s mtime firstUpdate =
      .ok (s.relations.filterMap (cacheFeedSpec s mtime)) := by
  unfold GetCircuitBreakerForCache
  simp only []
  have hfilter : LoadValuesByFilter CircuitBreakerRelation.field s.relations
      [CBRelationFieldModifyTime]
      (fun m => !(decide ((match m CBRelationFieldModifyTime with
        | some (.time t) => t
        | _ => 0) < mtime))) =
      s.relations.filter (fun e => decide (mtime ≤ e.2.ModifyTime)) := by
    unfold LoadValuesByFilter
    congr 1
    funext e
    exact cacheFilter_project mtime e.2
  rw [hfilter, List.filterMap_map]
  have hwf2 : Bucket.WF (s.relations.filter (fun e => decide (mtime ≤ e.2.ModifyTime))) :=
    Bucket.filter_WF hwf _
  congr 1
  rw [List.filterMap_filter]
  apply List.filterMap_congr
  intro e he
  by_cases hm : mtime ≤ e.2.ModifyTime
  · have hmem : e ∈ s.relations.filter (fun e => decide (mtime ≤ e.2.ModifyTime)) := by
      rw [List.mem_filter]
      exact ⟨he, by simpa using hm⟩
    have hk : buildKey e.2.RuleID e.2.RuleVersion ∈
        (s.relations.filter (fun e => decide (mtime ≤ e.2.ModifyTime))).map
          (fun e => buildKey e.2.RuleID e.2.RuleVersion) :=
      List.mem_map_of_mem (fun e => buildKey e.2.RuleID e.2.RuleVersion) hmem
    have hget : Bucket.get (s.relations.filter (fun e => decide (mtime ≤ e.2.ModifyTime))) e.1 =
        some e.2 := Bucket.get_of_mem hwf2 hmem
    simp only [hm, decide_True, if_true, Function.comp_apply, LoadValues_get, hk, hget,
      cacheFeedSpec]
    cases s.rules.get (buildKey e.2.RuleID e.2.RuleVersion) <;> rfl
  · simp [hm, cacheFeedSpec]

theorem filterMap_serviceIDs_sublist (s : Store) (mtime : Time)
    (l : Bucket CircuitBreakerRelation) :
    List.Sublist ((l.filterMap (cacheFeedSpec s mtime)).map (fun a => a.ServiceID))
      (l.map Prod.fst) := by
  induction l with
  | nil => simp
  | cons e rest ih =>
    cases hf : cacheFeedSpec s mtime e with
    | none =>
      rw [List.filterMap_cons_none hf, List.map_cons]
      exact List.Sublist.cons _ ih
    | some a =>
      rw [List.filterMap_cons_some hf, List.map_cons, List.map_cons]
      have hid : a.ServiceID = e.1 := by
        unfold cacheFeedSpec at hf
        split at hf
        · cases hg : s.rules.get (buildKey e.2.RuleID e.2.RuleVersion) with
          | none => simp [hg] at hf
          | some rule =>
            simp only [hg, Option.map_some', Option.some.injEq] at hf
            rw [← hf]
        · simp at hf
      rw [hid]
      exact List.Sublist.cons₂ _ ih

/-- Key-level form of the cache feed: for every store state whose relations are stored
under their ServiceID, `GetCircuitBreakerForCache` returns without error; an aggregate is
returned exactly when it is built from a relation row whose ModifyTime is at or after the
cursor and for which some rule row is stored under the storage key built from
(RuleID, RuleVersion); no two returned aggregates have the same ServiceID. -/
theorem cacheFeed_content (s : Store) (sinceMtime : Time) (firstUpdate : Bool)
    (hinv : RelationInv s.relations) :
    ∃ out, GetCircuitBreakerForCache s sinceMtime firstUpdate = .ok out ∧
      (∀ a, a ∈ out ↔ ∃ rel rule, (rel.ServiceID, rel) ∈ s.relations ∧
        sinceMtime ≤ rel.ModifyTime ∧
        s.rules.get (buildKey rel.RuleID rel.RuleVersion) = some rule ∧
        a = { ServiceID := rel.ServiceID, CircuitBreaker := rule, Valid := rel.Valid,
              CreateTime := rel.CreateTime, ModifyTime := rel.ModifyTime }) ∧
      (out.map (fun a => a.ServiceID)).Nodup := by
  refine ⟨s.relations.filterMap (cacheFeedSpec s sinceMtime),
    GetCircuitBreakerForCache_eq s sinceMtime firstUpdate hinv.1, ?_, ?_⟩
  · intro a
    rw [List.mem_filterMap]
    constructor
    · rintro ⟨e, he, hf⟩
      have hkey := hinv.2 e he
      unfold cacheFeedSpec at hf
      split at hf
      · rename_i hm
        cases hg : s.rules.get (buildKey e.2.RuleID e.2.RuleVersion) with
        | none => simp [hg] at hf
        | some rule =>
          simp only [hg, Option.map_some', Option.some.injEq] at hf
          refine ⟨e.2, rule, ?_, hm, hg, ?_⟩
          · rw [← hkey]
            exact he
          · rw [← hf, hkey]
      · simp at hf
    · rintro ⟨rel, rule, hmem, hm, hg, ha⟩
      refine ⟨(rel.ServiceID, rel), hmem, ?_⟩
      simp only [cacheFeedSpec, hm, if_true, hg, Option.map_some', ha]
  · exact List.Nodup.sublist (filterMap_serviceIDs_sublist s sinceMtime s.relations) hinv.1

/-- Example of the key-level form at cursor 5: s1 (modified at 4) is left out, s2
(modified exactly at 5, soft-deleted) is delivered with Valid = false, s3 (rule row
missing) is dropped, s4 is delivered with the soft-deleted rule row and Valid = true. -/
theorem cacheFeed_content_witness :
    GetCircuitBreakerForCache feedStore 5 true =
      .ok [{ ServiceID := "s2", CircuitBreaker := mkRule "r1" "master" "n" true 1,
             Valid := false, CreateTime := 0, ModifyTime := 5 },
           { ServiceID := "s4", CircuitBreaker := mkRule "r2" "v1" "m" false 2,
             Valid := true, CreateTime := 0, ModifyTime := 7 }] ∧
    ∃ out, GetCircuitBreakerForCache feedStore 5 false = .ok out ∧
      (∀ a, a ∈ out ↔ ∃ rel rule, (rel.ServiceID, rel) ∈ feedStore.relations ∧
        5 ≤ rel.ModifyTime ∧
        feedStore.rules.get (buildKey rel.RuleID rel.RuleVersion) = some rule ∧
        a = { ServiceID := rel.ServiceID, CircuitBreaker := rule, Valid := rel.Valid,
              CreateTime := rel.CreateTime, ModifyTime := rel.ModifyTime }) ∧
      (out.map (fun a => a.ServiceID)).Nodup :=
  ⟨by decide, cacheFeed_content feedStore 5 false
    (by unfold RelationInv Bucket.WF; exact ⟨by decide, by decide⟩)⟩

/-! ## Master listing -/

theorem convert_ModifyTime (r : CircuitBreaker) :
    (convertCircuitBreakerToInfo r).CircuitBreaker.ModifyTime = r.ModifyTime := rfl

/-- Sorting rows with pairwise distinct modify times yields a strictly ascending list. -/
theorem insertionSort_strict (l : List CircuitBreakerInfo)
    (hnd : (l.map (fun a => a.CircuitBreaker.ModifyTime)).Nodup) :
    (l.insertionSort byModifyTime).Pairwise
      (fun a b => a.CircuitBreaker.ModifyTime < b.CircuitBreaker.ModifyTime) := by
  have hsorted : (l.insertionSort byModifyTime).Pairwise byModifyTime :=
    List.sorted_insertionSort byModifyTime l
  have hperm : (l.insertionSort byModifyTime).Perm l := List.perm_insertionSort byModifyTime l
  have hnd2 : ((l.insertionSort byModifyTime).map
      (fun a => a.CircuitBreaker.ModifyTime)).Nodup :=
    (List.Perm.nodup_iff (List.Perm.map _ hperm)).mpr hnd
  have hne : (l.insertionSort byModifyTime).Pairwise
      (fun a b => a.CircuitBreaker.ModifyTime ≠ b.CircuitBreaker.ModifyTime) := by
    have h := hnd2
    unfold List.Nodup at h
    rw [List.pairwise_map] at h
    exact h
  exact List.Pairwise.imp₂ (fun a b hle hneq => Nat.lt_of_le_of_ne hle hneq) hsorted hne

theorem map_eq_of_inj_on {β γ : Type} (f : β → γ) :
    ∀ (l1 l2 : List β), l1.map f = l2.map f →
      (∀ x ∈ l1, ∀ y ∈ l2, f x = f y → x = y) → l1 = l2
  | [], [], _, _ => rfl
  | [], _ :: _, h, _ => by simp at h
  | _ :: _, [], h, _ => by simp at h
  | a :: l1, b :: l2, h, hinj => by
    simp only [List.map_cons, List.cons.injEq] at h
    have hab : a = b := hinj a (by simp) b (by simp) h.1
    have htl : l1 = l2 := map_eq_of_inj_on f l1 l2 h.2
      (fun x hx y hy => hinj x (List.mem_cons_of_mem _ hx) y (List.mem_cons_of_mem _ hy))
    rw [hab, htl]

/-- Two strictly ascending arrangements of the same rows are the same list. -/
theorem strictSorted_perm_unique (l1 l2 : List CircuitBreakerInfo) (hp : l1.Perm l2)
    (h1 : l1.Pairwise (fun a b => a.CircuitBreaker.ModifyTime < b.CircuitBreaker.ModifyTime))
    (h2 : l2.Pairwise (fun a b => a.CircuitBreaker.ModifyTime < b.CircuitBreaker.ModifyTime)) :
    l1 = l2 := by
  have s1 : (l1.map (fun a => a.CircuitBreaker.ModifyTime)).Pairwise (fun x y => x ≤ y) :=
    List.pairwise_map.mpr (h1.imp (fun h => Nat.le_of_lt h))
  have s2 : (l2.map (fun a => a.CircuitBreaker.ModifyTime)).Pairwise (fun x y => x ≤ y) :=
    List.pairwise_map.mpr (h2.imp (fun h => Nat.le_of_lt h))
  have hmap : l1.map (fun a => a.CircuitBreaker.ModifyTime) =
      l2.map (fun a => a.CircuitBreaker.ModifyTime) :=
    List.eq_of_perm_of_sorted (hp.map _) s1 s2
  have hnd : (l1.map (fun a => a.CircuitBreaker.ModifyTime)).Nodup :=
    List.pairwise_map.mpr (h1.imp (fun h => Nat.ne_of_lt h))
  apply map_eq_of_inj_on (fun a => a.CircuitBreaker.ModifyTime) l1 l2 hmap
  intro x hx y hy hxy
  exact List.inj_on_of_nodup_map hnd hx (hp.mem_iff.mpr hy) hxy

/-- The page computed by the code, for the arrangement produced by the sort. -/
theorem listMaster_window_exists (s : Store) (filters : List (String × String)) (offset limit : Nat)
    (hdistinct : ((LoadValuesByFilter CircuitBreaker.field s.rules
      (filters.map Prod.fst ++ [CBFieldNameVersion, CBFieldNameValid])
      (listMasterFilter filters)).map (fun e => e.2.ModifyTime)).Nodup)
    (hlen : (LoadValuesByFilter CircuitBreaker.field s.rules
      (filters.map Prod.fst ++ [CBFieldNameVersion, CBFieldNameValid])
      (listMasterFilter filters)).length < 2 ^ 32)
    (hoff : offset < (LoadValuesByFilter CircuitBreaker.field s.rules
      (filters.map Prod.fst ++ [CBFieldNameVersion, CBFieldNameValid])
      (listMasterFilter filters)).length)
    (hsum : offset + limit < 2 ^ 32) :
    ∃ sorted : List CircuitBreakerInfo,
      sorted.Perm ((LoadValuesByFilter CircuitBreaker.field s.rules
        (filters.map Prod.fst ++ [CBFieldNameVersion, CBFieldNameValid])
        (listMasterFilter filters)).map (fun e => convertCircuitBreakerToInfo e.2)) ∧
      sorted.Pairwise
        (fun a b => a.CircuitBreaker.ModifyTime < b.CircuitBreaker.ModifyTime) ∧
      ListMasterCircuitBreakers s filters offset limit =
        .ok { Total := sorted.length,
              CircuitBreakerInfos :=
                (sorted.drop offset).take (min (offset + limit) sorted.length - offset) } := by
  generalize hm : LoadValuesByFilter CircuitBreaker.field s.rules
      (filters.map Prod.fst ++ [CBFieldNameVersion, CBFieldNameValid])
      (listMasterFilter filters) = results at hdistinct hlen hoff
  refine ⟨(results.map (fun e => convertCircuitBreakerToInfo e.2)).insertionSort byModifyTime,
    List.perm_insertionSort byModifyTime _, ?_, ?_⟩
  · apply insertionSort_strict
    rw [List.map_map]
    exact hdistinct
  · have hlen2 : ((results.map (fun e => convertCircuitBreakerToInfo e.2)).insertionSort
        byModifyTime).length = results.length := by
      rw [List.length_insertionSort, List.length_map]
    have hmod : results.length % 2 ^ 32 = results.length := Nat.mod_eq_of_lt hlen
    have hsum2 : (offset + limit) % 2 ^ 32 = offset + limit := Nat.mod_eq_of_lt hsum
    have hnot : ¬ offset ≥ results.length := by omega
    unfold ListMasterCircuitBreakers
    simp only [hm, hmod, hnot, if_false, hsum2, hlen2]
    have hcond : offset ≤ min (offset + limit) results.length ∧
        min (offset + limit) results.length ≤ results.length := by
      constructor
      · exact Nat.le_min.mpr ⟨Nat.le_add_right _ _, Nat.le_of_lt hoff⟩
      · exact Nat.min_le_right _ _
    rw [if_pos hcond]

theorem listMasterFilter_nil_mkRule (id name : String) (t : Time) :
    listMasterFilter []
      (project CircuitBreaker.field
        (([] : List (String × String)).map Prod.fst ++ [CBFieldNameVersion, CBFieldNameValid])
        (mkRule id "master" name true t)) = true := by
  simp [listMasterFilter, project, CircuitBreaker.field, mkRule, CBFieldNameVersion,
    CBFieldNameValid, VersionForMaster]

theorem manyMasters_matches (n : Nat) :
    LoadValuesByFilter CircuitBreaker.field (manyMasters n).rules
      (([] : List (String × String)).map Prod.fst ++ [CBFieldNameVersion, CBFieldNameValid])
      (listMasterFilter []) = (manyMasters n).rules := by
  unfold LoadValuesByFilter
  rw [List.filter_eq_self]
  intro e he
  simp only [manyMasters, List.mem_map] at he
  obtain ⟨i, _, hi⟩ := he
  rw [← hi]
  exact listMasterFilter_nil_mkRule _ _ _

theorem manyMasters_length (n : Nat) : (manyMasters n).rules.length = n := by
  simp [manyMasters]

theorem manyMasters_distinct (n : Nat) :
    ((manyMasters n).rules.map (fun e => e.2.ModifyTime)).Nodup := by
  have h : (manyMasters n).rules.map (fun e => e.2.ModifyTime) = List.range n := by
    simp only [manyMasters, List.map_map]
    conv_rhs => rw [← List.map_id (List.range n)]
    apply List.map_congr_left
    intro i _
    rfl
  rw [h]
  exact List.nodup_range n

/-- With exactly 2^32 matching rows the 32-bit conversion of the row count is 0, so
offset 0 is treated as past the end and the window becomes (0, MaxUint32). -/
theorem listMaster_count_wraps (s : Store) (filters : List (String × String)) (limit n : Nat)
    (hn : n = 2 ^ 32)
    (hlen : (LoadValuesByFilter CircuitBreaker.field s.rules
      (filters.map Prod.fst ++ [CBFieldNameVersion, CBFieldNameValid])
      (listMasterFilter filters)).length = n) :
    ∃ d, ListMasterCircuitBreakers s filters 0 limit = .ok d ∧
      d.CircuitBreakerInfos.length = n - 1 := by
  generalize hm : LoadValuesByFilter CircuitBreaker.field s.rules
      (filters.map Prod.fst ++ [CBFieldNameVersion, CBFieldNameValid])
      (listMasterFilter filters) = results at hlen
  have hlen2 : ((results.map (fun e => convertCircuitBreakerToInfo e.2)).insertionSort
      byModifyTime).length = n := by
    rw [List.length_insertionSort, List.length_map, hlen]
  have h1 : n % 2 ^ 32 = 0 := by rw [hn]; exact Nat.mod_self _
  have h2 : (0 + MaxUint32) % 2 ^ 32 = n - 1 := by rw [hn]; decide
  have h3 : min (n - 1) n = n - 1 := Nat.min_eq_left (Nat.sub_le _ _)
  unfold ListMasterCircuitBreakers
  simp only [hm, hlen, h1, ge_iff_le, Nat.le_refl, if_true, h2, h3, hlen2, Nat.zero_le,
    Nat.sub_le, and_self, Nat.sub_zero, List.drop_zero]
  refine ⟨_, rfl, ?_⟩
  simp only [List.length_take, hlen2]
  exact h3

/-- Claim C10 as stated fails when the match count reaches 2^32: with 2^32 valid master
rules of pairwise distinct ModifyTime, offset 0 < n and limit 1 (offset + limit < 2^32),
the claim asks for one element, and the code returns 2^32 - 1 of them. -/
theorem listMaster_window_fails_at_count_wrap :
    ((LoadValuesByFilter CircuitBreaker.field (manyMasters (2 ^ 32)).rules
      (([] : List (String × String)).map Prod.fst ++ [CBFieldNameVersion, CBFieldNameValid])
      (listMasterFilter [])).map (fun e => e.2.ModifyTime)).Nodup ∧
    (LoadValuesByFilter CircuitBreaker.field (manyMasters (2 ^ 32)).rules
      (([] : List (String × String)).map Prod.fst ++ [CBFieldNameVersion, CBFieldNameValid])
      (listMasterFilter [])).length = 2 ^ 32 ∧
    ∃ d, ListMasterCircuitBreakers (manyMasters (2 ^ 32)) [] 0 1 = .ok d ∧
      d.CircuitBreakerInfos.length = 2 ^ 32 - 1 ∧
      d.CircuitBreakerInfos.length ≠ min (0 + 1) (2 ^ 32) - 0 := by
  have hlen : (LoadValuesByFilter CircuitBreaker.field (manyMasters (2 ^ 32)).rules
      (([] : List (String × String)).map Prod.fst ++ [CBFieldNameVersion, CBFieldNameValid])
      (listMasterFilter [])).length = 2 ^ 32 := by
    rw [manyMasters_matches, manyMasters_length]
  refine ⟨?_, hlen, ?_⟩
  · rw [manyMasters_matches]
    exact manyMasters_distinct _
  · obtain ⟨d, hd, hl⟩ := listMaster_count_wraps (manyMasters (2 ^ 32)) [] 1 (2 ^ 32) rfl hlen
    refine ⟨d, hd, hl, ?_⟩
    rw [hl]
    decide

/-- Claim C10: when the valid master rules matching the filters have pairwise distinct
ModifyTime, their number n is below 2^32, offset < n and offset + limit < 2^32, then for
the list `sorted` of those rules in ascending ModifyTime order,
`ListMasterCircuitBreakers(filters, offset, limit)` returns Total = n and exactly the
elements of `sorted` at positions offset .. min(offset + limit, n) - 1, in that order. -/
theorem listMaster_window (s : Store) (filters : List (String × String)) (offset limit : Nat)
    (sorted : List CircuitBreakerInfo)
    (hperm : sorted.Perm ((LoadValuesByFilter CircuitBreaker.field s.rules
      (filters.map Prod.fst ++ [CBFieldNameVersion, CBFieldNameValid])
      (listMasterFilter filters)).map (fun e => convertCircuitBreakerToInfo e.2)))
    (hsorted : sorted.Pairwise
      (fun a b => a.CircuitBreaker.ModifyTime < b.CircuitBreaker.ModifyTime))
    (hlen : sorted.length < 2 ^ 32) (hoff : offset < sorted.length)
    (hsum : offset + limit < 2 ^ 32) :
    ListMasterCircuitBreakers s filters offset limit =
      .ok { Total := sorted.length,
            CircuitBreakerInfos :=
              (sorted.drop offset).take (min (offset + limit) sorted.length - offset) } := by
  have hl : sorted.length = (LoadValuesByFilter CircuitBreaker.field s.rules
      (filters.map Prod.fst ++ [CBFieldNameVersion, CBFieldNameValid])
      (listMasterFilter filters)).length := by
    rw [hperm.length_eq, List.length_map]
  have hdistinct : ((LoadValuesByFilter CircuitBreaker.field s.rules
      (filters.map Prod.fst ++ [CBFieldNameVersion, CBFieldNameValid])
      (listMasterFilter filters)).map (fun e => e.2.ModifyTime)).Nodup := by
    have hnd : (sorted.map (fun a => a.CircuitBreaker.ModifyTime)).Nodup :=
      List.pairwise_map.mpr (hsorted.imp (fun h => Nat.ne_of_lt h))
    have h2 := (List.Perm.nodup_iff (hperm.map (fun a => a.CircuitBreaker.ModifyTime))).mp hnd
    rw [List.map_map] at h2
    exact h2
  obtain ⟨sorted2, hperm2, hsorted2, hrun⟩ :=
    listMaster_window_exists s filters offset limit hdistinct (hl ▸ hlen) (hl ▸ hoff) hsum
  have heq : sorted2 = sorted :=
    strictSorted_perm_unique sorted2 sorted (hperm2.trans hperm.symm) hsorted2 hsorted
  rw [hrun, heq]

/-- Witness for C10: five valid master rules a, b, c, d, e (modify times 1..5, stored
out of order next to a soft-deleted master and a tag row), no filter, offset 2,
limit 2: the page is exactly c, d and Total is 5. -/
theorem listMaster_window_witness :
    ListMasterCircuitBreakers pageStore [] 2 2 =
      .ok { Total := 5,
            CircuitBreakerInfos :=
              [convertCircuitBreakerToInfo (mkRule "c" "master" "nc" true 3),
               convertCircuitBreakerToInfo (mkRule "d" "master" "nd" true 4)] } :=
  listMaster_window pageStore [] 2 2
    [convertCircuitBreakerToInfo (mkRule "a" "master" "na" true 1),
     convertCircuitBreakerToInfo (mkRule "b" "master" "nb" true 2),
     convertCircuitBreakerToInfo (mkRule "c" "master" "nc" true 3),
     convertCircuitBreakerToInfo (mkRule "d" "master" "nd" true 4),
     convertCircuitBreakerToInfo (mkRule "e" "master" "ne" true 5)]
    (by decide) (by decide) (by decide) (by decide) (by decide)

/-! ## Master listing past the end -/

/-- Claim C11: when the 32-bit offset is at or past the number n of matching valid
master rules, `ListMasterCircuitBreakers(filters, offset, limit)` returns, whatever the
limit, all n matching rules in ascending ModifyTime order, with Total = n. -/
theorem listMaster_offset_past_end (s : Store) (filters : List (String × String))
    (offset limit : Nat) (hu : offset < 2 ^ 32)
    (hoff : offset ≥ (LoadValuesByFilter CircuitBreaker.field s.rules
      (filters.map Prod.fst ++ [CBFieldNameVersion, CBFieldNameValid])
      (listMasterFilter filters)).length) :
    ∃ d, ListMasterCircuitBreakers s filters offset limit = .ok d ∧
      d.Total = (LoadValuesByFilter CircuitBreaker.field s.rules
        (filters.map Prod.fst ++ [CBFieldNameVersion, CBFieldNameValid])
        (listMasterFilter filters)).length ∧
      d.CircuitBreakerInfos.Perm ((LoadValuesByFilter CircuitBreaker.field s.rules
        (filters.map Prod.fst ++ [CBFieldNameVersion, CBFieldNameValid])
        (listMasterFilter filters)).map (fun e => convertCircuitBreakerToInfo e.2)) ∧
      d.CircuitBreakerInfos.Pairwise
        (fun a b => a.CircuitBreaker.ModifyTime ≤ b.CircuitBreaker.ModifyTime) := by
  generalize hm : LoadValuesByFilter CircuitBreaker.field s.rules
      (filters.map Prod.fst ++ [CBFieldNameVersion, CBFieldNameValid])
      (listMasterFilter filters) = results at hoff
  have hlen2 : ((results.map (fun e => convertCircuitBreakerToInfo e.2)).insertionSort
      byModifyTime).length = results.length := by
    rw [List.length_insertionSort, List.length_map]
  have hlt : results.length < 2 ^ 32 := Nat.lt_of_le_of_lt hoff hu
  have hmod : results.length % 2 ^ 32 = results.length := Nat.mod_eq_of_lt hlt
  have hge : offset ≥ results.length := hoff
  have hmax : (0 + MaxUint32) % 2 ^ 32 = MaxUint32 := by decide
  have hmin : min MaxUint32 results.length = results.length := by
    apply Nat.min_eq_right
    have : (2 : Nat) ^ 32 = MaxUint32 + 1 := by decide
    omega
  unfold ListMasterCircuitBreakers
  simp only [hm, hmod, hge, if_true, hmax, hmin, hlen2, Nat.zero_le, Nat.le_refl, and_self,
    Nat.sub_zero, List.drop_zero]
  refine ⟨_, rfl, rfl, ?_, ?_⟩
  · have ht : List.take results.length
        ((results.map (fun e => convertCircuitBreakerToInfo e.2)).insertionSort byModifyTime) =
        (results.map (fun e => convertCircuitBreakerToInfo e.2)).insertionSort byModifyTime := by
      apply List.take_of_length_le
      rw [hlen2]
    simp only [ht]
    exact List.perm_insertionSort byModifyTime _
  · have ht : List.take results.length
        ((results.map (fun e => convertCircuitBreakerToInfo e.2)).insertionSort byModifyTime) =
        (results.map (fun e => convertCircuitBreakerToInfo e.2)).insertionSort byModifyTime := by
      apply List.take_of_length_le
      rw [hlen2]
    simp only [ht]
    exact List.sorted_insertionSort byModifyTime _

/-- Witness for C11: five valid master rules, offset 5 and limit 1: all five come back,
in the order a, b, c, d, e of their modify times. -/
theorem listMaster_offset_past_end_witness :
    ListMasterCircuitBreakers pageStore [] 5 1 =
      .ok { Total := 5,
            CircuitBreakerInfos :=
              [convertCircuitBreakerToInfo (mkRule "a" "master" "na" true 1),
               convertCircuitBreakerToInfo (mkRule "b" "master" "nb" true 2),
               convertCircuitBreakerToInfo (mkRule "c" "master" "nc" true 3),
               convertCircuitBreakerToInfo (mkRule "d" "master" "nd" true 4),
               convertCircuitBreakerToInfo (mkRule "e" "master" "ne" true 5)] } ∧
    ∃ d, ListMasterCircuitBreakers pageStore [] 5 1 = .ok d ∧
      d.Total = (LoadValuesByFilter CircuitBreaker.field pageStore.rules
        (([] : List (String × String)).map Prod.fst ++ [CBFieldNameVersion, CBFieldNameValid])
        (listMasterFilter [])).length ∧
      d.CircuitBreakerInfos.Perm ((LoadValuesByFilter CircuitBreaker.field pageStore.rules
        (([] : List (String × String)).map Prod.fst ++ [CBFieldNameVersion, CBFieldNameValid])
        (listMasterFilter [])).map (fun e => convertCircuitBreakerToInfo e.2)) ∧
      d.CircuitBreakerInfos.Pairwise
        (fun a b => a.CircuitBreaker.ModifyTime ≤ b.CircuitBreaker.ModifyTime) :=
  ⟨by decide, listMaster_offset_past_end pageStore [] 5 1 (by decide) (by decide)⟩

/-! ## Point lookup as data -/

/-- Claim C17: `GetCircuitBreaker(id, version)` never returns an error: the single-key
load yields at most one row, so the "more than one" branch is not taken; the result is
(nil, nil) when no row is stored under the key of (id, version) or the stored row has
Valid = false, and (row, nil) when the stored row is valid. -/
theorem getCircuitBreaker_not_found_is_data (s : Store) (id version : String) :
    (LoadValues s.rules [buildKey id version]).length ≤ 1 ∧
    (s.rules.get (buildKey id version) = none → GetCircuitBreaker s id version = .ok none) ∧
    (∀ row, s.rules.get (buildKey id version) = some row → row.Valid = false →
      GetCircuitBreaker s id version = .ok none) ∧
    (∀ row, s.rules.get (buildKey id version) = some row → row.Valid = true →
      GetCircuitBreaker s id version = .ok (some row)) ∧
    (∀ e, GetCircuitBreaker s id version ≠ .error e) := by
  refine ⟨?_, ?_, ?_, ?_, ?_⟩
  · rw [LoadValues_single]
    cases s.rules.get (buildKey id version) <;> simp
  · intro h
    rw [GetCircuitBreaker_eq, h]
  · intro row h hv
    rw [GetCircuitBreaker_eq, h]
    simp [hv]
  · intro row h hv
    rw [GetCircuitBreaker_eq, h]
    simp [hv]
  · intro e
    rw [GetCircuitBreaker_eq]
    intro h
    cases h

/-- Witness for C17: in the feed store, r1/master is valid, r2/v1 is soft-deleted and
r9/master is absent. -/
theorem getCircuitBreaker_not_found_is_data_witness :
    GetCircuitBreaker feedStore "r1" "master" = .ok (some (mkRule "r1" "master" "n" true 1)) ∧
    GetCircuitBreaker feedStore "r2" "v1" = .ok none ∧
    GetCircuitBreaker feedStore "r9" "master" = .ok none :=
  ⟨(getCircuitBreaker_not_found_is_data feedStore "r1" "master").2.2.2.1 _ (by decide)
      (by decide),
    (getCircuitBreaker_not_found_is_data feedStore "r2" "v1").2.2.1 _
      (show feedStore.rules.get (buildKey "r2" "v1") = some (mkRule "r2" "v1" "m" false 2) by
        decide) (by decide),
    (getCircuitBreaker_not_found_is_data feedStore "r9" "master").2.1 (by decide)⟩

/-! ## Unbind -/

theorem Bucket.modify_filter_ne {α : Type} (b : Bucket α) (k : String) (f : α → α) :
    (b.modify k f).filter (fun e => decide (e.1 ≠ k)) =
      b.filter (fun e => decide (e.1 ≠ k)) := by
  induction b with
  | nil => rfl
  | cons e rest ih =>
    obtain ⟨k0, v⟩ := e
    by_cases h0 : k0 = k
    · simp only [Bucket.modify, h0, if_true, List.filter_cons, ne_eq, not_true_eq_false,
        decide_False, Bool.false_eq_true, if_false]
      exact ih
    · simp only [Bucket.modify, h0, if_false, List.filter_cons, ne_eq, not_false_eq_true,
        decide_True, if_true, List.cons.injEq, true_and]
      exact ih

/-- Claim C20: when a relation row is stored for serviceID, then for any ruleID and
ruleVersion arguments `UnbindCircuitBreaker(serviceID, ruleID, ruleVersion)` succeeds;
the relation keeps its RuleID and RuleVersion (and ServiceID, CreateTime) with
Valid = false and the ModifyTime of the call; the relations of all other services and
the rule and service buckets are unchanged. -/
theorem unbind_soft_deletes_relation_only (s : Store)
    (serviceID ruleID ruleVersion : String) (now : Time) (rel : CircuitBreakerRelation)
    (hrel : s.relations.get serviceID = some rel) :
    (UnbindCircuitBreaker s serviceID ruleID ruleVersion now).1 = .ok () ∧
    (UnbindCircuitBreaker s serviceID ruleID ruleVersion now).2.relations.get serviceID =
      some { rel with Valid := false, ModifyTime := now } ∧
    (∀ k, k ≠ serviceID →
      (UnbindCircuitBreaker s serviceID ruleID ruleVersion now).2.relations.get k =
        s.relations.get k) ∧
    (UnbindCircuitBreaker s serviceID ruleID ruleVersion now).2.relations.filter
        (fun e => decide (e.1 ≠ serviceID)) =
      s.relations.filter (fun e => decide (e.1 ≠ serviceID)) ∧
    (UnbindCircuitBreaker s serviceID ruleID ruleVersion now).2.rules = s.rules ∧
    (UnbindCircuitBreaker s serviceID ruleID ruleVersion now).2.services = s.services := by
  refine ⟨rfl, ?_, ?_, ?_, rfl, rfl⟩
  · simp only [UnbindCircuitBreaker, UpdateValue, Bucket.get_modify, if_true, hrel,
      Option.map_some', unbind_patch]
  · intro k hk
    simp only [UnbindCircuitBreaker, UpdateValue, Bucket.get_modify, hk, if_false]
  · simp only [UnbindCircuitBreaker, UpdateValue]
    exact Bucket.modify_filter_ne _ _ _

/-- Witness for C20: service s1 is bound to r1/master; it is unbound with arguments
naming another rule, and the stored binding keeps r1/master. -/
theorem unbind_soft_deletes_relation_only_witness :
    (UnbindCircuitBreaker boundStore "s1" "rX" "v9" 9).2.relations =
      [("s1", mkRelation "s1" "r1" "master" false 9)] ∧
    (UnbindCircuitBreaker boundStore "s1" "rX" "v9" 9).2.relations.get "s1" =
      some { mkRelation "s1" "r1" "master" true 2 with Valid := false, ModifyTime := 9 } :=
  ⟨by decide,
    (unbind_soft_deletes_relation_only boundStore "s1" "rX" "v9" 9
      (mkRelation "s1" "r1" "master" true 2) (by decide)).2.1⟩

/-! ## Repeated soft delete -/

theorem Bucket.modify_modify {α : Type} (b : Bucket α) (k : String) (f g : α → α) :
    (b.modify k f).modify k g = b.modify k (fun v => g (f v)) := by
  induction b with
  | nil => rfl
  | cons e rest ih =>
    obtain ⟨k0, v⟩ := e
    by_cases h0 : k0 = k <;> simp [Bucket.modify, h0, ih]

theorem Bucket.modify_congr {α : Type} (b : Bucket α) (k : String) (f g : α → α)
    (h : ∀ v, f v = g v) : b.modify k f = b.modify k g := by
  have : f = g := funext h
  rw [this]

theorem Bucket.map_modify_eq {α β : Type} (b : Bucket α) (k : String) (f g : α → α)
    (erase : String × α → β) (h : ∀ k0 v, erase (k0, f v) = erase (k0, g v)) :
    (b.modify k f).map erase = (b.modify k g).map erase := by
  induction b with
  | nil => rfl
  | cons e rest ih =>
    obtain ⟨k0, v⟩ := e
    by_cases h0 : k0 = k <;> simp [Bucket.modify, h0, ih, h]

theorem Bucket.modify_of_get_none {α : Type} (b : Bucket α) (k : String) (f : α → α)
    (h : b.get k = none) : b.modify k f = b := by
  induction b with
  | nil => rfl
  | cons e rest ih =>
    obtain ⟨k0, v⟩ := e
    by_cases h0 : k0 = k
    · simp [Bucket.get, h0] at h
    · simp only [Bucket.get, h0, if_false] at h
      simp only [Bucket.modify, h0, if_false, ih h]

/-- A second soft delete of an already patched row changes its ModifyTime only. -/
theorem softDelete_twice_rules (b : Bucket CircuitBreaker) (k : String) (t1 t2 : Time) :
    UpdateValue CircuitBreaker.setField
        (UpdateValue CircuitBreaker.setField b k
          [(CBFieldNameValid, .bool false), (CBFieldNameModifyTime, .time t1)]) k
        [(CBFieldNameValid, .bool false), (CBFieldNameModifyTime, .time t2)] =
      Bucket.modify
        (UpdateValue CircuitBreaker.setField b k
          [(CBFieldNameValid, .bool false), (CBFieldNameModifyTime, .time t1)]) k
        (fun r => { r with ModifyTime := t2 }) := by
  simp only [UpdateValue, Bucket.modify_modify]
  apply Bucket.modify_congr
  intro v
  simp only [softDelete_patch]

/-- Claim C16, amended: `DeleteTagCircuitBreaker(id, version)` called twice in a row
returns success both times. The second call leaves the relation and service buckets of
the first call as they are, and the rule bucket either as it is or with one change: the
ModifyTime of the row stored under the key of (id, version) is set to the time of the
second call, every other row and every other field being the same. The two states are
equal when no row is stored under that key, when the delete is blocked by a binding found
under the rule id, and when both calls read the same clock. -/
theorem deleteTag_twice (s : Store) (id version : String) (t1 t2 : Time) :
    (DeleteTagCircuitBreaker s id version t1).1 = .ok () ∧
    (DeleteTagCircuitBreaker (DeleteTagCircuitBreaker s id version t1).2 id version t2).1 =
      .ok () ∧
    (DeleteTagCircuitBreaker (DeleteTagCircuitBreaker s id version t1).2 id version t2).2.relations =
      (DeleteTagCircuitBreaker s id version t1).2.relations ∧
    (DeleteTagCircuitBreaker (DeleteTagCircuitBreaker s id version t1).2 id version t2).2.services =
      (DeleteTagCircuitBreaker s id version t1).2.services ∧
    ((DeleteTagCircuitBreaker (DeleteTagCircuitBreaker s id version t1).2 id version t2).2.rules =
        (DeleteTagCircuitBreaker s id version t1).2.rules ∨
      (DeleteTagCircuitBreaker (DeleteTagCircuitBreaker s id version t1).2 id version t2).2.rules =
        Bucket.modify (DeleteTagCircuitBreaker s id version t1).2.rules (buildKey id version)
          (fun r => { r with ModifyTime := t2 })) ∧
    (∀ k, k ≠ buildKey id version →
      (DeleteTagCircuitBreaker (DeleteTagCircuitBreaker s id version t1).2 id version
          t2).2.rules.get k =
        (DeleteTagCircuitBreaker s id version t1).2.rules.get k) ∧
    (DeleteTagCircuitBreaker (DeleteTagCircuitBreaker s id version t1).2 id version
        t2).2.rules.filter (fun e => decide (e.1 ≠ buildKey id version)) =
      (DeleteTagCircuitBreaker s id version t1).2.rules.filter
        (fun e => decide (e.1 ≠ buildKey id version)) ∧
    (s.rules.get (buildKey id version) = none →
      (DeleteTagCircuitBreaker (DeleteTagCircuitBreaker s id version t1).2 id version t2).2 =
        (DeleteTagCircuitBreaker s id version t1).2) ∧
    (∀ rel, Bucket.get (s.relations.filter (fun e => e.2.Valid && decide (e.2.RuleID = id) &&
        (decide (version = VersionForMaster) || decide (e.2.RuleVersion = version)))) id =
        some rel →
      (DeleteTagCircuitBreaker s id version t1).2 = s ∧
      (DeleteTagCircuitBreaker (DeleteTagCircuitBreaker s id version t1).2 id version t2).2 =
        (DeleteTagCircuitBreaker s id version t1).2) ∧
    (t2 = t1 →
      (DeleteTagCircuitBreaker (DeleteTagCircuitBreaker s id version t1).2 id version t2).2 =
        (DeleteTagCircuitBreaker s id version t1).2) := by
  cases hl : (LoadValuesByFilter CircuitBreakerRelation.field s.relations
      [CBRelationFieldValid, CBRelationFieldRuleID, CBRelationFieldRuleVersion]
      (deleteTagFilter id version)).get id with
  | some rel =>
    have h1 := DeleteTag_of_lookup_some s id version t1 rel hl
    have h2 : DeleteTagCircuitBreaker (DeleteTagCircuitBreaker s id version t1).2 id version t2 =
        (.ok (), s) := by
      rw [h1]
      exact DeleteTag_of_lookup_some s id version t2 rel hl
    rw [h2, h1]
    exact ⟨rfl, rfl, rfl, rfl, Or.inl rfl, fun _ _ => rfl, rfl, fun _ => rfl,
      fun _ _ => ⟨rfl, rfl⟩, fun _ => rfl⟩
  | none =>
    have h1 := DeleteTag_of_lookup_none s id version t1 hl
    have h2 : DeleteTagCircuitBreaker (DeleteTagCircuitBreaker s id version t1).2 id version t2 =
        (.ok (), ⟨Bucket.modify
          (UpdateValue CircuitBreaker.setField s.rules (buildKey id version)
            [(CBFieldNameValid, .bool false), (CBFieldNameModifyTime, .time t1)])
          (buildKey id version) (fun r => { r with ModifyTime := t2 }),
          s.relations, s.services⟩) := by
      rw [h1]
      have h3 := DeleteTag_of_lookup_none
        ⟨UpdateValue CircuitBreaker.setField s.rules (buildKey id version)
          [(CBFieldNameValid, .bool false), (CBFieldNameModifyTime, .time t1)],
          s.relations, s.services⟩ id version t2 hl
      rw [h3, softDelete_twice_rules]
    rw [h2, h1]
    refine ⟨rfl, rfl, rfl, rfl, Or.inr rfl, ?_, ?_, ?_, ?_, ?_⟩
    · intro k hk
      simp only [Bucket.get_modify, hk, if_false]
    · exact Bucket.modify_filter_ne _ _ _
    · intro hnone
      have hget : Bucket.get (UpdateValue CircuitBreaker.setField s.rules (buildKey id version)
          [(CBFieldNameValid, .bool false), (CBFieldNameModifyTime, .time t1)])
          (buildKey id version) = none := by
        simp only [UpdateValue, Bucket.get_modify, if_true, hnone, Option.map_none']
      simp only [Bucket.modify_of_get_none _ _ _ hget]
    · intro rel hrel
      rw [← deleteTag_values, hl] at hrel
      cases hrel
    · intro ht
      subst ht
      have hsame : Bucket.modify
          (UpdateValue CircuitBreaker.setField s.rules (buildKey id version)
            [(CBFieldNameValid, .bool false), (CBFieldNameModifyTime, .time t2)])
          (buildKey id version) (fun r => { r with ModifyTime := t2 }) =
          UpdateValue CircuitBreaker.setField s.rules (buildKey id version)
            [(CBFieldNameValid, .bool false), (CBFieldNameModifyTime, .time t2)] := by
        simp only [UpdateValue, Bucket.modify_modify]
        apply Bucket.modify_congr
        intro v
        simp only [softDelete_patch]
      simp only [hsame]

/-- Claim C16 as stated fails: the master r1 is soft-deleted at time 5 and again at
time 9; both calls succeed, and the second call rewrites the ModifyTime of the already
soft-deleted row, so the two states differ. -/
theorem deleteTag_second_call_changes_state :
    (DeleteTagCircuitBreaker masterOnlyStore "r1" "master" 5).1 = .ok () ∧
    (DeleteTagCircuitBreaker (DeleteTagCircuitBreaker masterOnlyStore "r1" "master" 5).2
      "r1" "master" 9).1 = .ok () ∧
    (DeleteTagCircuitBreaker masterOnlyStore "r1" "master" 5).2.rules =
      [("r1_master", mkRule "r1" "master" "n" false 5)] ∧
    (DeleteTagCircuitBreaker (DeleteTagCircuitBreaker masterOnlyStore "r1" "master" 5).2
      "r1" "master" 9).2.rules = [("r1_master", mkRule "r1" "master" "n" false 9)] ∧
    (DeleteTagCircuitBreaker (DeleteTagCircuitBreaker masterOnlyStore "r1" "master" 5).2
      "r1" "master" 9).2 ≠ (DeleteTagCircuitBreaker masterOnlyStore "r1" "master" 5).2 := by
  decide

/-! ## Masters and tags -/

/-- Claim C19 as stated fails: after Create(r1/master), Tag(r1/v1) and
DeleteMaster(r1), with no binding anywhere, the tag r1/v1 is still valid while no valid
row is left at r1/master. -/
theorem valid_tag_survives_master_delete :
    GetCircuitBreaker (runAll Store.empty
      [Op.create (mkRule "r1" "master" "n" false 0) 1 1,
       Op.tag (mkRule "r1" "v1" "n" false 0) 2 2,
       Op.deleteTag "r1" "master" 3]) "r1" "v1" =
      .ok (some { mkRule "r1" "v1" "n" true 2 with CreateTime := 2 }) ∧
    GetCircuitBreaker (runAll Store.empty
      [Op.create (mkRule "r1" "master" "n" false 0) 1 1,
       Op.tag (mkRule "r1" "v1" "n" false 0) 2 2,
       Op.deleteTag "r1" "master" 3]) "r1" "master" = .ok none ∧
    ((runAll Store.empty
      [Op.create (mkRule "r1" "master" "n" false 0) 1 1,
       Op.tag (mkRule "r1" "v1" "n" false 0) 2 2,
       Op.deleteTag "r1" "master" 3]).rules.filter
      (fun e => decide (e.2.ID = "r1") && decide (e.2.Version = VersionForMaster) &&
        e.2.Valid)).length = 0 := by
  decide

/-- Claim C19, amended: in every store state reachable from the empty store by Create,
Tag, Update, DeleteTag, Release and Unbind calls, every rule ID has at most one valid
row at (ID, master). -/
theorem reachable_at_most_one_valid_master (s : Store) (h : Reachable s) (id : String) :
    (s.rules.filter (fun e => decide (e.2.ID = id) && decide (e.2.Version = VersionForMaster) &&
      e.2.Valid)).length ≤ 1 :=
  valid_rows_at_most_one (RuleInv_of_reachable h) id VersionForMaster

/-- Witness for C19: after Create(r1/master), Tag(r1/v1) and Update(r1/master) there
is one valid master row for r1. -/
theorem reachable_at_most_one_valid_master_witness :
    ((runAll Store.empty
        [Op.create (mkRule "r1" "master" "n" false 0) 1 1,
         Op.tag (mkRule "r1" "v1" "n" false 0) 2 2,
         Op.update (mkRule "r1" "master" "n2" false 0) 3]).rules.filter
      (fun e => decide (e.2.ID = "r1") && decide (e.2.Version = VersionForMaster) &&
        e.2.Valid)).length ≤ 1 :=
  reachable_at_most_one_valid_master _
    (Reachable.step _ (Op.update (mkRule "r1" "master" "n2" false 0) 3)
      (Reachable.step _ (Op.tag (mkRule "r1" "v1" "n" false 0) 2 2)
        (Reachable.step _ (Op.create (mkRule "r1" "master" "n" false 0) 1 1)
          Reachable.empty)))
    "r1"

/-! ## Master listing: filter, total and entries -/

theorem all_congr_mem {β : Type} (l : List β) (f g : β → Bool)
    (h : ∀ x ∈ l, f x = g x) : l.all f = l.all g := by
  induction l with
  | nil => rfl
  | cons a rest ih =>
    simp only [List.all_cons]
    rw [h a (List.mem_cons_self _ _), ih (fun x hx => h x (List.mem_cons_of_mem _ hx))]

/-- The scan predicate of the master listing, on the projection the handler builds, is
the row condition `masterMatch`. -/
theorem listMasterFilter_project (filters : List (String × String)) (r : CircuitBreaker) :
    listMasterFilter filters
      (project CircuitBreaker.field
        (filters.map Prod.fst ++ [CBFieldNameVersion, CBFieldNameValid]) r) =
    masterMatch filters r := by
  have hvalid : project CircuitBreaker.field
      (filters.map Prod.fst ++ [CBFieldNameVersion, CBFieldNameValid]) r CBFieldNameValid =
      some (.bool r.Valid) := by
    simp [project, CircuitBreaker.field, CBFieldNameValid, CBFieldNameVersion]
  have hversion : project CircuitBreaker.field
      (filters.map Prod.fst ++ [CBFieldNameVersion, CBFieldNameValid]) r CBFieldNameVersion =
      some (.str r.Version) := by
    simp [project, CircuitBreaker.field, CBFieldNameValid, CBFieldNameVersion]
  have hall : filters.all (fun kv =>
      match project CircuitBreaker.field
        (filters.map Prod.fst ++ [CBFieldNameVersion, CBFieldNameValid]) r kv.1 with
      | some qV => decide (qV = FieldValue.str kv.2)
      | none => true) =
      filters.all (fun kv =>
        match r.field kv.1 with
        | some q => decide (q = FieldValue.str kv.2)
        | none => true) := by
    apply all_congr_mem
    intro kv hkv
    have hmem : kv.1 ∈ filters.map Prod.fst ++ [CBFieldNameVersion, CBFieldNameValid] :=
      List.mem_append_left _ (List.mem_map_of_mem Prod.fst hkv)
    simp only [project, hmem, if_true]
  unfold listMasterFilter masterMatch
  simp only [hvalid, hversion, hall]
  cases hv : r.Valid <;> by_cases hm : r.Version = VersionForMaster <;> simp [hv, hm]

theorem listMaster_matches (s : Store) (filters : List (String × String)) :
    LoadValuesByFilter CircuitBreaker.field s.rules
      (filters.map Prod.fst ++ [CBFieldNameVersion, CBFieldNameValid])
      (listMasterFilter filters) = s.rules.filter (fun e => masterMatch filters e.2) := by
  unfold LoadValuesByFilter
  congr 1
  funext e
  exact listMasterFilter_project filters e.2

/-- Whatever page is returned, its Total is the 32-bit conversion of the match count
and its entries are copies of matching rows. -/
theorem listMaster_page (s : Store) (filters : List (String × String)) (offset limit : Nat)
    (d : CircuitBreakerDetail) (h : ListMasterCircuitBreakers s filters offset limit = .ok d) :
    d.Total = (s.rules.filter (fun e => masterMatch filters e.2)).length % 2 ^ 32 ∧
    ∀ info ∈ d.CircuitBreakerInfos,
      ∃ e ∈ s.rules, masterMatch filters e.2 = true ∧ info = convertCircuitBreakerToInfo e.2 := by
  unfold ListMasterCircuitBreakers at h
  simp only [listMaster_matches] at h
  generalize (if offset ≥ (s.rules.filter (fun e => masterMatch filters e.2)).length % 2 ^ 32
    then (0, MaxUint32) else (offset, limit)) = window at h
  split at h
  · simp only [Except.ok.injEq] at h
    subst h
    refine ⟨rfl, ?_⟩
    intro info hinfo
    have h1 := List.mem_of_mem_drop (List.mem_of_mem_take hinfo)
    have h2 := (List.perm_insertionSort byModifyTime _).mem_iff.mp h1
    obtain ⟨e, he, heq⟩ := List.mem_map.mp h2
    rw [List.mem_filter] at he
    exact ⟨e, he.1, he.2, heq.symm⟩
  · cases h

/-- The master listing returns a page whenever offset + limit does not wrap. -/
theorem listMaster_returns (s : Store) (filters : List (String × String)) (offset limit : Nat)
    (hsum : offset + limit < 2 ^ 32) :
    ∃ d, ListMasterCircuitBreakers s filters offset limit = .ok d := by
  generalize hm : LoadValuesByFilter CircuitBreaker.field s.rules
      (filters.map Prod.fst ++ [CBFieldNameVersion, CBFieldNameValid])
      (listMasterFilter filters) = results
  have hlen2 : ((results.map (fun e => convertCircuitBreakerToInfo e.2)).insertionSort
      byModifyTime).length = results.length := by
    rw [List.length_insertionSort, List.length_map]
  unfold ListMasterCircuitBreakers
  simp only [hm, hlen2]
  by_cases hge : offset ≥ results.length % 2 ^ 32
  · rw [if_pos hge]
    rw [if_pos ⟨Nat.zero_le _, Nat.min_le_right _ _⟩]
    exact ⟨_, rfl⟩
  · rw [if_neg hge]
    have hlt : offset < results.length :=
      Nat.lt_of_lt_of_le (Nat.lt_of_not_le hge) (Nat.mod_le _ _)
    have hcond : offset ≤ min ((offset + limit) % 2 ^ 32) results.length ∧
        min ((offset + limit) % 2 ^ 32) results.length ≤ results.length := by
      rw [Nat.mod_eq_of_lt hsum]
      exact ⟨Nat.le_min.mpr ⟨Nat.le_add_right _ _, Nat.le_of_lt hlt⟩, Nat.min_le_right _ _⟩
    rw [if_pos hcond]
    exact ⟨_, rfl⟩

theorem manyMasters_strict (n : Nat) :
    ((manyMasters n).rules.filter (fun e => masterMatchStrict [] e.2)).length = n := by
  have hall : (manyMasters n).rules.filter (fun e => masterMatchStrict [] e.2) =
      (manyMasters n).rules := by
    rw [List.filter_eq_self]
    intro e he
    simp only [manyMasters, List.mem_map] at he
    obtain ⟨i, _, hi⟩ := he
    rw [← hi]
    simp [masterMatchStrict, mkRule, VersionForMaster]
  rw [hall, manyMasters_length]

theorem field_of_ruleFieldName (r : CircuitBreaker) (name : String)
    (h : name ∈ ruleFieldNames) : ∃ q, r.field name = some q := by
  simp only [ruleFieldNames, List.mem_cons, List.mem_singleton, List.not_mem_nil,
    or_false] at h
  rcases h with h | h | h | h | h | h | h | h | h | h | h | h | h | h | h <;>
    subst h <;> simp [CircuitBreaker.field]

/-- On filter maps whose keys all name fields of the rule record, the row condition of
the scan is the strict conjunction. -/
theorem masterMatch_eq_strict (filters : List (String × String)) (r : CircuitBreaker)
    (hkeys : ∀ kv ∈ filters, kv.1 ∈ ruleFieldNames) :
    masterMatch filters r = masterMatchStrict filters r := by
  unfold masterMatch masterMatchStrict
  congr 1
  apply all_congr_mem
  intro kv hkv
  obtain ⟨q, hq⟩ := field_of_ruleFieldName r kv.1 (hkeys kv hkv)
  simp [hq]

/-- Claim C15, amended: for every filter map whose keys name fields of the rule record,
when fewer than 2^32 rule rows match and offset + limit does not wrap,
`ListMasterCircuitBreakers` returns a page whose Total is the number of rule rows with
Valid = true, Version = master and, for every supplied filter (k, v), field k holding the
string v, whatever offset and limit are; every returned entry is the copy of such a row,
so soft-deleted rows, tag rows and rows failing any supplied filter never appear. -/
theorem listMaster_total_exact_conjunction (s : Store) (filters : List (String × String))
    (offset limit : Nat) (hkeys : ∀ kv ∈ filters, kv.1 ∈ ruleFieldNames)
    (hn : (s.rules.filter (fun e => masterMatchStrict filters e.2)).length < 2 ^ 32)
    (hsum : offset + limit < 2 ^ 32) :
    ∃ d, ListMasterCircuitBreakers s filters offset limit = .ok d ∧
      d.Total = (s.rules.filter (fun e => masterMatchStrict filters e.2)).length ∧
      ∀ info ∈ d.CircuitBreakerInfos,
        ∃ e ∈ s.rules, e.2.Valid = true ∧ e.2.Version = VersionForMaster ∧
          (∀ kv ∈ filters, e.2.field kv.1 = some (FieldValue.str kv.2)) ∧
          info = convertCircuitBreakerToInfo e.2 := by
  have hsame : s.rules.filter (fun e => masterMatch filters e.2) =
      s.rules.filter (fun e => masterMatchStrict filters e.2) := by
    apply List.filter_congr
    intro e _
    exact masterMatch_eq_strict filters e.2 hkeys
  obtain ⟨d, hd⟩ := listMaster_returns s filters offset limit hsum
  obtain ⟨htotal, hentries⟩ := listMaster_page s filters offset limit d hd
  refine ⟨d, hd, ?_, ?_⟩
  · rw [htotal, hsame, Nat.mod_eq_of_lt hn]
  · intro info hinfo
    obtain ⟨e, he, hmatch, heq⟩ := hentries info hinfo
    rw [masterMatch_eq_strict filters e.2 hkeys] at hmatch
    simp only [masterMatchStrict, Bool.and_eq_true, decide_eq_true_eq, List.all_eq_true]
      at hmatch
    exact ⟨e, he, hmatch.1.1, hmatch.1.2, hmatch.2, heq⟩

/-- Witness for C15: the filter Name = nc over the page store selects the one valid
master named nc; the soft-deleted master, the tag row and the other masters stay out. -/
theorem listMaster_total_exact_conjunction_witness :
    ListMasterCircuitBreakers pageStore [("Name", "nc")] 0 10 =
      .ok { Total := 1,
            CircuitBreakerInfos :=
              [convertCircuitBreakerToInfo (mkRule "c" "master" "nc" true 3)] } ∧
    ∃ d, ListMasterCircuitBreakers pageStore [("Name", "nc")] 0 10 = .ok d ∧
      d.Total =
        (pageStore.rules.filter (fun e => masterMatchStrict [("Name", "nc")] e.2)).length ∧
      ∀ info ∈ d.CircuitBreakerInfos,
        ∃ e ∈ pageStore.rules, e.2.Valid = true ∧ e.2.Version = VersionForMaster ∧
          (∀ kv ∈ [("Name", "nc")], e.2.field kv.1 = some (FieldValue.str kv.2)) ∧
          info = convertCircuitBreakerToInfo e.2 :=
  ⟨by decide,
    listMaster_total_exact_conjunction pageStore [("Name", "nc")] 0 10 (by decide)
      (by decide) (by decide)⟩

/-- Claim C15 as stated fails in two places. With offset 3 and limit 4294967295 the sum
wraps and the listing over five matching rows ends in the slice-bounds fault, so no Total
is returned. With 2^32 matching rows the returned Total is the 32-bit conversion of the
count, 0. -/
theorem listMaster_total_fails_on_wrap :
    ((pageStore.rules.filter (fun e => masterMatchStrict [] e.2)).length = 5 ∧
      ListMasterCircuitBreakers pageStore [] 3 4294967295 =
        .error (.fault "slice bounds out of range")) ∧
    (((manyMasters (2 ^ 32)).rules.filter (fun e => masterMatchStrict [] e.2)).length =
        2 ^ 32 ∧
      ∃ d, ListMasterCircuitBreakers (manyMasters (2 ^ 32)) [] 0 1 = .ok d ∧ d.Total = 0) := by
  refine ⟨by decide, manyMasters_strict _, ?_⟩
  obtain ⟨d, hd⟩ := listMaster_returns (manyMasters (2 ^ 32)) [] 0 1 (by decide)
  refine ⟨d, hd, ?_⟩
  have ht := (listMaster_page (manyMasters (2 ^ 32)) [] 0 1 d hd).1
  rw [← listMaster_matches, manyMasters_matches, manyMasters_length] at ht
  rw [ht]
  exact Nat.mod_self _

/-! ## Storage key and composite key -/

theorem append_separator_inj (c : Char) :
    ∀ (l1 l2 r1 r2 : List Char), c ∉ l1 → c ∉ l2 → l1 ++ c :: r1 = l2 ++ c :: r2 →
      l1 = l2 ∧ r1 = r2
  | [], [], _, _, _, _, h => by
    simp only [List.nil_append, List.cons.injEq, true_and] at h
    exact ⟨rfl, h⟩
  | [], b :: l2, _, _, _, h2, h => by
    simp only [List.nil_append, List.cons_append, List.cons.injEq] at h
    exact absurd (by rw [h.1]; exact List.mem_cons_self _ _) h2
  | a :: l1, [], _, _, h1, _, h => by
    simp only [List.nil_append, List.cons_append, List.cons.injEq] at h
    exact absurd (by rw [← h.1]; exact List.mem_cons_self _ _) h1
  | a :: l1, b :: l2, r1, r2, h1, h2, h => by
    simp only [List.cons_append, List.cons.injEq] at h
    have ih := append_separator_inj c l1 l2 r1 r2
      (fun hm => h1 (List.mem_cons_of_mem _ hm)) (fun hm => h2 (List.mem_cons_of_mem _ hm)) h.2
    exact ⟨by rw [h.1, ih.1], ih.2⟩

/-- On IDs without the separator the storage key determines ID and Version. -/
theorem buildKey_inj {id1 id2 v1 v2 : String} (h1 : separatorFree id1)
    (h2 : separatorFree id2) (h : buildKey id1 v1 = buildKey id2 v2) : id1 = id2 ∧ v1 = v2 := by
  have hd := congrArg String.data h
  simp only [buildKey, String.data_append, List.append_assoc] at hd
  have := append_separator_inj '_' id1.data id2.data v1.data v2.data h1 h2 hd
  exact ⟨String.ext this.1, String.ext this.2⟩

/-- Invariant of the rule bucket under separator-free writes: no stored ID contains `_`. -/
theorem cleanIDs_step (s : Store) (op : Op) (hop : op.separatorFree)
    (h : ∀ e ∈ s.rules, separatorFree e.2.ID) :
    ∀ e ∈ (op.run s).2.rules, separatorFree e.2.ID := by
  cases op with
  | create cb t1 t2 =>
    intro e he
    rcases Bucket.mem_put he with he | he
    · subst he
      exact hop
    · simp only [cleanCircuitBreaker, DeleteValues, List.foldl_cons, List.foldl_nil] at he
      exact h e (Bucket.mem_del he).1
  | tag cb t1 t2 =>
    intro e he
    rcases tag_rules_cases s cb t1 t2 with hr | hr
    · simp only [Op.run, hr] at he
      exact h e (Bucket.mem_del he).1
    · simp only [Op.run, hr] at he
      rcases Bucket.mem_put he with he | he
      · subst he
        exact hop
      · exact h e (Bucket.mem_del he).1
  | update cb now =>
    intro e he
    rcases Bucket.mem_put he with he | he
    · subst he
      exact hop
    · exact h e he
  | deleteTag id version now =>
    intro e he
    cases hl : (LoadValuesByFilter CircuitBreakerRelation.field s.relations
      [CBRelationFieldValid, CBRelationFieldRuleID, CBRelationFieldRuleVersion]
      (deleteTagFilter id version)).get id with
    | none =>
      simp only [Op.run, DeleteTag_of_lookup_none s id version now hl, UpdateValue] at he
      obtain ⟨v, hv, hor⟩ := Bucket.mem_modify he
      have hclean := h (e.1, v) hv
      rcases hor with hor | hor
      · rw [hor]
        exact hclean
      · rw [hor, softDelete_patch]
        exact hclean
    | some rel =>
      simp only [Op.run, DeleteTag_of_lookup_some s id version now rel hl] at he
      exact h e he
  | release cbr t1 t2 =>
    intro e he
    simp only [Op.run, release_rules] at he
    exact h e he
  | unbind serviceID ruleID ruleVersion now =>
    exact h

theorem runAll_invariants (ops : List Op) (hops : ∀ op ∈ ops, op.separatorFree) :
    ∀ (s : Store), RuleInv s.rules → (∀ e ∈ s.rules, separatorFree e.2.ID) →
      RuleInv (runAll s ops).rules ∧ ∀ e ∈ (runAll s ops).rules, separatorFree e.2.ID := by
  induction ops with
  | nil => intro s h1 h2; exact ⟨h1, h2⟩
  | cons op rest ih =>
    intro s h1 h2
    have hop : op.separatorFree := hops op (List.mem_cons_self _ _)
    exact ih (fun o ho => hops o (List.mem_cons_of_mem _ ho)) (op.run s).2
      (RuleInv_step s op h1) (cleanIDs_step s op hop h2)

/-- Claim C18, amended: in every store state reached from the empty store by calls that
write only rules whose ID does not contain the separator `_`, whenever
`GetCircuitBreaker(id, version)` with a separator-free id returns a record r, then
r.ID = id and r.Version = version. -/
theorem get_returns_requested_key (ops : List Op) (hops : ∀ op ∈ ops, op.separatorFree)
    (id version : String) (hid : separatorFree id) (r : CircuitBreaker)
    (hget : GetCircuitBreaker (runAll Store.empty ops) id version = .ok (some r)) :
    r.ID = id ∧ r.Version = version := by
  obtain ⟨hinv, hclean⟩ := runAll_invariants ops hops Store.empty
    ⟨List.nodup_nil, fun e he => by simp [Store.empty] at he⟩
    (fun e he => by simp [Store.empty] at he)
  rw [GetCircuitBreaker_eq] at hget
  cases hg : (runAll Store.empty ops).rules.get (buildKey id version) with
  | none => simp [hg] at hget
  | some row =>
    simp only [hg] at hget
    have hrow : row = r := by
      cases hv : row.Valid
      · simp [hv] at hget
      · simpa [hv] using hget
    subst hrow
    have hmem := Bucket.mem_of_get hg
    have hkey : buildKey id version = buildKey row.ID row.Version := hinv.2 _ hmem
    have := buildKey_inj hid (hclean _ hmem) hkey
    exact ⟨this.1.symm, this.2.symm⟩

/-- Witness for C18: r1/master is created and tagged as v_1 (the version holds a
separator, the ID does not); the lookup of r1/v_1 returns the row with that ID and
Version. -/
theorem get_returns_requested_key_witness :
    GetCircuitBreaker (runAll Store.empty
      [Op.create (mkRule "r1" "master" "n" false 0) 1 1,
       Op.tag (mkRule "r1" "v_1" "n" false 0) 2 2]) "r1" "v_1" =
      .ok (some { mkRule "r1" "v_1" "n" true 2 with CreateTime := 2 }) ∧
    ({ mkRule "r1" "v_1" "n" true 2 with CreateTime := 2 } : CircuitBreaker).ID = "r1" ∧
    ({ mkRule "r1" "v_1" "n" true 2 with CreateTime := 2 } : CircuitBreaker).Version = "v_1" :=
  ⟨by decide,
    get_returns_requested_key
      [Op.create (mkRule "r1" "master" "n" false 0) 1 1,
       Op.tag (mkRule "r1" "v_1" "n" false 0) 2 2]
      (by decide) "r1" "v_1" (by decide)
      { mkRule "r1" "v_1" "n" true 2 with CreateTime := 2 } (by decide)⟩

/-- Claim C18 as stated fails: after Create of the rule with ID a_b and Version c, the
lookup of (a, b_c) returns that rule, whose ID is not a; and a later Create of the rule
(a, b_c) overwrites the row of (a_b, c). -/
theorem get_returns_row_of_other_key :
    GetCircuitBreaker (runAll Store.empty [Op.create (mkRule "a_b" "c" "n" false 0) 1 1])
      "a" "b_c" = .ok (some { mkRule "a_b" "c" "n" true 1 with CreateTime := 1 }) ∧
    ({ mkRule "a_b" "c" "n" true 1 with CreateTime := 1 } : CircuitBreaker).ID ≠ "a" ∧
    GetCircuitBreaker (runAll Store.empty
      [Op.create (mkRule "a_b" "c" "n" false 0) 1 1,
       Op.create (mkRule "a" "b_c" "m" false 0) 2 2]) "a_b" "c" =
      .ok (some { mkRule "a" "b_c" "m" true 2 with CreateTime := 2 }) := by
  decide

/-! ## Release listing -/

/-- Every entry of a returned release page is one of the collected entries. -/
theorem listRelease_entries_collected (s : Store) (filters : List (String × String))
    (offset limit : Nat) (d : CircuitBreakerDetail)
    (h : ListReleaseCircuitBreakers s filters offset limit = .ok d) :
    d.Total = (releaseRelations s filters).1.length % 2 ^ 32 ∧
    ∀ info ∈ d.CircuitBreakerInfos, info ∈ releaseCollected s filters := by
  unfold ListReleaseCircuitBreakers at h
  simp only [] at h
  split at h
  · simp only [Except.ok.injEq] at h
    subst h
    exact ⟨rfl, fun info hinfo => by simp at hinfo⟩
  · split at h
    · simp only [Except.ok.injEq] at h
      subst h
      refine ⟨rfl, fun info hinfo => ?_⟩
      have h1 := List.mem_of_mem_drop (List.mem_of_mem_take hinfo)
      exact (List.perm_insertionSort byModifyTime _).mem_iff.mp h1
    · cases h

/-- The release listing returns a page whenever offset + limit does not wrap. -/
theorem listRelease_returns (s : Store) (filters : List (String × String)) (offset limit : Nat)
    (hsum : offset + limit < 2 ^ 32) :
    ∃ d, ListReleaseCircuitBreakers s filters offset limit = .ok d := by
  unfold ListReleaseCircuitBreakers
  simp only []
  generalize (releaseCollected s filters).insertionSort byModifyTime = cbSlice
  by_cases hge : offset ≥ cbSlice.length % 2 ^ 32
  · rw [if_pos hge]
    exact ⟨_, rfl⟩
  · rw [if_neg hge]
    have hlt : offset < cbSlice.length :=
      Nat.lt_of_lt_of_le (Nat.lt_of_not_le hge) (Nat.mod_le _ _)
    have hcond : offset ≤ min ((offset + limit) % 2 ^ 32) cbSlice.length ∧
        min ((offset + limit) % 2 ^ 32) cbSlice.length ≤ cbSlice.length := by
      rw [Nat.mod_eq_of_lt hsum]
      exact ⟨Nat.le_min.mpr ⟨Nat.le_add_right _ _, Nat.le_of_lt hlt⟩, Nat.min_le_right _ _⟩
    rw [if_pos hcond]
    exact ⟨_, rfl⟩

/-- Claim C12, amended: when the 32-bit offset is at or past the number of collected
release entries, `ListReleaseCircuitBreakers(filters, offset, limit)` returns an empty
page, with Total the number of matched relations; unlike the master listing it does not
return the collected set. -/
theorem listRelease_offset_past_end (s : Store) (filters : List (String × String))
    (offset limit : Nat) (hu : offset < 2 ^ 32)
    (hoff : offset ≥ (releaseCollected s filters).length) :
    ListReleaseCircuitBreakers s filters offset limit =
      .ok { Total := (releaseRelations s filters).1.length % 2 ^ 32,
            CircuitBreakerInfos := [] } := by
  unfold ListReleaseCircuitBreakers
  simp only []
  have hlen : ((releaseCollected s filters).insertionSort byModifyTime).length =
      (releaseCollected s filters).length := List.length_insertionSort _ _
  have hmod : (releaseCollected s filters).length % 2 ^ 32 = (releaseCollected s filters).length :=
    Nat.mod_eq_of_lt (Nat.lt_of_le_of_lt hoff hu)
  have hge : offset ≥ ((releaseCollected s filters).insertionSort byModifyTime).length % 2 ^ 32 := by
    rw [hlen, hmod]
    exact hoff
  rw [if_pos hge]

/-- Witness for C12: two entries are collected for rule r1; offset 2 yields an empty
page with Total 2. -/
theorem listRelease_offset_past_end_witness :
    ListReleaseCircuitBreakers releaseStore [("rule_id", "r1")] 2 10 =
      .ok { Total := 2, CircuitBreakerInfos := [] } :=
  listRelease_offset_past_end releaseStore [("rule_id", "r1")] 2 10 (by decide) (by decide)

/-- Claim C12 as stated fails: two release entries are collected for rule r1 (offset 0
returns both), and with offset 2, at the number of collected entries, the page is empty
instead of holding the two entries. -/
theorem listRelease_past_end_is_empty_page :
    (releaseCollected releaseStore [("rule_id", "r1")]).length = 2 ∧
    ListReleaseCircuitBreakers releaseStore [("rule_id", "r1")] 0 10 =
      .ok { Total := 2,
            CircuitBreakerInfos :=
              [{ convertCircuitBreakerToInfo (mkRule "r1" "master" "n1" true 1) with
                   Services := [mkService "s1" "svc1"] },
               { convertCircuitBreakerToInfo (mkRule "r1" "master" "n1" true 1) with
                   Services := [mkService "s2" "svc2"] }] } ∧
    ListReleaseCircuitBreakers releaseStore [("rule_id", "r1")] 2 10 =
      .ok { Total := 2, CircuitBreakerInfos := [] } := by
  decide

/-- Claim C14, evaluated on the code: three valid relations point at valid rule rows
and existing services, and `ListReleaseCircuitBreakers({}, 0, 10)` returns Total 3 with
an empty list; with a filter map that constrains nothing (a key other than rule_id and
rule_version) the same three releases are listed. -/
theorem listRelease_no_filter_lists_nothing :
    (releaseStore.relations.filter (fun e => e.2.Valid)).length = 3 ∧
    GetCircuitBreaker releaseStore "r1" "master" = .ok (some (mkRule "r1" "master" "n1" true 1)) ∧
    GetCircuitBreaker releaseStore "r2" "master" = .ok (some (mkRule "r2" "master" "n2" true 2)) ∧
    releaseStore.services.get "s1" = some (mkService "s1" "svc1") ∧
    ListReleaseCircuitBreakers releaseStore [] 0 10 =
      .ok { Total := 3, CircuitBreakerInfos := [] } ∧
    ListReleaseCircuitBreakers releaseStore [("other", "x")] 0 10 =
      .ok { Total := 3,
            CircuitBreakerInfos :=
              [{ convertCircuitBreakerToInfo (mkRule "r1" "master" "n1" true 1) with
                   Services := [mkService "s1" "svc1"] },
               { convertCircuitBreakerToInfo (mkRule "r1" "master" "n1" true 1) with
                   Services := [mkService "s2" "svc2"] },
               { convertCircuitBreakerToInfo (mkRule "r2" "master" "n2" true 2) with
                   Services := [mkService "s3" "svc3"] }] } := by
  decide

/-! ## Release listing under a rule_id filter -/

theorem LoadValues_mem {α : Type} (b : Bucket α) (keys : List String) (k : String) (v : α)
    (h : (k, v) ∈ LoadValues b keys) : k ∈ keys ∧ b.get k = some v := by
  induction keys with
  | nil => simp [LoadValues] at h
  | cons k0 ks ih =>
    cases hg : b.get k0 with
    | none =>
      simp only [LoadValues, hg] at h
      exact ⟨List.mem_cons_of_mem _ (ih h).1, (ih h).2⟩
    | some v0 =>
      simp only [LoadValues, hg] at h
      rcases Bucket.mem_put h with h | h
      · cases h
        exact ⟨List.mem_cons_self _ _, hg⟩
      · exact ⟨List.mem_cons_of_mem _ (ih h).1, (ih h).2⟩

/-- The first scan predicate on the projection of a relation, in terms of its fields. -/
theorem releaseRelationFilter_project (emptyCondition : Bool) (ruleID : String)
    (isRuleID : Bool) (ruleVersion : String) (isRuleVer : Bool) (st : ReleaseScan)
    (rel : CircuitBreakerRelation) :
    releaseRelationFilter emptyCondition ruleID isRuleID ruleVersion isRuleVer st
      (project CircuitBreakerRelation.field
        [CBRelationFieldValid, CBRelationFieldRuleID, CBRelationFieldRuleVersion,
          CBRelationFieldServiceID] rel) =
    if !rel.Valid then (false, st)
    else if emptyCondition then (true, st)
    else if isRuleID && decide (rel.RuleID ≠ ruleID) then (false, st)
    else if isRuleVer && decide (rel.RuleVersion ≠ ruleVersion) then (false, st)
    else
      (true, { svcIds := st.svcIds.put rel.RuleID
                 ((match st.svcIds.get rel.RuleID with
                   | some ids => ids
                   | none => []) ++ [rel.ServiceID]),
               ruleVersions := rel.RuleVersion :: st.ruleVersions }) := by
  simp [releaseRelationFilter, project, CircuitBreakerRelation.field, CBRelationFieldValid,
    CBRelationFieldRuleID, CBRelationFieldRuleVersion, CBRelationFieldServiceID]

theorem releaseScan_justified (emptyCondition : Bool) (ruleID : String) (isRuleID : Bool)
    (ruleVersion : String) (isRuleVer : Bool) (full : Bucket CircuitBreakerRelation) :
    ∀ (rest : Bucket CircuitBreakerRelation) (st : ReleaseScan),
      (∀ e ∈ rest, e ∈ full) → SvcIdsJustified ruleID isRuleID full st →
      SvcIdsJustified ruleID isRuleID full
        (LoadValuesByFilterWith CircuitBreakerRelation.field
          [CBRelationFieldValid, CBRelationFieldRuleID, CBRelationFieldRuleVersion,
            CBRelationFieldServiceID]
          (releaseRelationFilter emptyCondition ruleID isRuleID ruleVersion isRuleVer)
          rest st).2 := by
  intro rest
  induction rest with
  | nil => intro st _ hst; exact hst
  | cons e rest ih =>
    intro st hsub hst
    simp only [LoadValuesByFilterWith]
    apply ih _ (fun x hx => hsub x (List.mem_cons_of_mem _ hx))
    rw [releaseRelationFilter_project]
    by_cases hv : e.2.Valid = true
    · have h1 : ¬ ((!e.2.Valid) = true) := by simp [hv]
      rw [if_neg h1]
      by_cases hec : emptyCondition = true
      · rw [if_pos hec]
        exact hst
      · rw [if_neg hec]
        by_cases hid : (isRuleID && decide (e.2.RuleID ≠ ruleID)) = true
        · rw [if_pos hid]
          exact hst
        · rw [if_neg hid]
          by_cases hver : (isRuleVer && decide (e.2.RuleVersion ≠ ruleVersion)) = true
          · rw [if_pos hver]
            exact hst
          · rw [if_neg hver]
            have hrid : isRuleID = true → e.2.RuleID = ruleID := by
              intro hi
              simp only [hi, Bool.true_and, decide_eq_true_eq, ne_eq, not_not] at hid
              exact hid
            intro k ids hget sid hsid
            simp only [] at hget
            by_cases hk : k = e.2.RuleID
            · subst hk
              simp only [Bucket.get_put_same, Option.some.injEq] at hget
              subst hget
              rcases List.mem_append.mp hsid with hold | hnew
              · cases hg : st.svcIds.get e.2.RuleID with
                | none => simp [hg] at hold
                | some known =>
                  simp only [hg] at hold
                  exact hst _ known hg sid hold
              · simp only [List.mem_singleton] at hnew
                exact ⟨e, hsub e (List.mem_cons_self _ _), hv, rfl, hnew.symm, hrid⟩
            · rw [Bucket.get_put_ne _ _ hk] at hget
              exact hst k ids hget sid hsid
    · have h1 : (!e.2.Valid) = true := by simpa using hv
      rw [if_pos h1]
      exact hst

/-- The second scan predicate accepts only valid rules, of the filtered ID when the
rule_id filter is set. -/
theorem releaseRuleFilter_project (ruleID : String) (isRuleID : Bool) (ruleVersion : String)
    (isRuleVer : Bool) (ruleVersions : List String) (r : CircuitBreaker)
    (h : releaseRuleFilter ruleID isRuleID ruleVersion isRuleVer ruleVersions
      (project CircuitBreaker.field [CBFieldNameValid, CBFieldNameID, CBFieldNameVersion] r) =
      true) :
    r.Valid = true ∧ (isRuleID = true → r.ID = ruleID) := by
  simp only [releaseRuleFilter, project, CircuitBreaker.field, CBFieldNameValid, CBFieldNameID,
    CBFieldNameVersion] at h
  cases hv : r.Valid
  · simp [hv] at h
  · refine ⟨rfl, ?_⟩
    intro hi
    by_cases hid : r.ID = ruleID
    · exact hid
    · simp [hv, hi, hid] at h

/-- Where a collected release entry comes from: a valid rule row that passed the second
scan, and a service loaded under a service id recorded for that rule's ID. -/
theorem releaseCollected_mem (s : Store) (filters : List (String × String))
    (info : CircuitBreakerInfo) (h : info ∈ releaseCollected s filters) :
    ∃ e ∈ s.rules, e.2.Valid = true ∧
      ((Bucket.get filters "rule_id").isSome = true →
        e.2.ID = (Bucket.get filters "rule_id").getD "") ∧
      ∃ ids sid svc, (releaseRelations s filters).2.svcIds.get e.2.ID = some ids ∧ sid ∈ ids ∧
        s.services.get sid = some svc ∧
        info = { convertCircuitBreakerToInfo e.2 with Services := [svc] } := by
  unfold releaseCollected at h
  simp only [List.mem_flatMap] at h
  obtain ⟨e, he, hinfo⟩ := h
  unfold LoadValuesByFilter at he
  rw [List.mem_filter] at he
  obtain ⟨hmem, hpred⟩ := he
  have hrule := releaseRuleFilter_project _ _ _ _ _ e.2 hpred
  refine ⟨e, hmem, hrule.1, hrule.2, ?_⟩
  cases hg : (releaseRelations s filters).2.svcIds.get e.2.ID with
  | none => simp [hg] at hinfo
  | some ids =>
    simp only [hg, List.mem_map] at hinfo
    obtain ⟨svc, hsvc, heq⟩ := hinfo
    have hl := LoadValues_mem s.services ids svc.1 svc.2 hsvc
    exact ⟨ids, svc.1, svc.2, rfl, hl.1, hl.2, heq.symm⟩

/-- Claim C13: every entry returned by `ListReleaseCircuitBreakers({rule_id: r}, offset,
limit)` has a rule with ID = r, and its single service is the one stored under the
ServiceID of a valid relation whose RuleID = r; relations of other rules contribute no
entry. -/
theorem listRelease_rule_id_filter (s : Store) (r : String) (offset limit : Nat)
    (d : CircuitBreakerDetail)
    (h : ListReleaseCircuitBreakers s [("rule_id", r)] offset limit = .ok d) :
    ∀ info ∈ d.CircuitBreakerInfos,
      info.CircuitBreaker.ID = r ∧
      ∃ rel svc, (∃ k, (k, rel) ∈ s.relations) ∧ rel.Valid = true ∧ rel.RuleID = r ∧
        s.services.get rel.ServiceID = some svc ∧ info.Services = [svc] := by
  intro info hinfo
  have hcol := (listRelease_entries_collected s _ offset limit d h).2 info hinfo
  obtain ⟨e, _, _, hid, ids, sid, svc, hget, hsid, hsvc, heq⟩ :=
    releaseCollected_mem s _ info hcol
  have hfilter : Bucket.get [("rule_id", r)] "rule_id" = some r := by simp [Bucket.get]
  have heid : e.2.ID = r := by
    have := hid (by rw [hfilter]; rfl)
    rw [hfilter] at this
    exact this
  have hjust : SvcIdsJustified r true s.relations (releaseRelations s [("rule_id", r)]).2 := by
    have hempty : SvcIdsJustified r true s.relations { svcIds := [], ruleVersions := [] } := by
      intro k ids hk
      simp [Bucket.get] at hk
    have := releaseScan_justified (decide (([("rule_id", r)] : List (String × String)).length = 0))
      r true ((Bucket.get [("rule_id", r)] "rule_version").getD "")
      (Bucket.get [("rule_id", r)] "rule_version").isSome s.relations s.relations _
      (fun e he => he) hempty
    simpa [releaseRelations, hfilter] using this
  obtain ⟨rel, hrel, hvalid, hrid, hsidEq, _⟩ := hjust e.2.ID ids hget sid hsid
  refine ⟨?_, rel.2, svc, ⟨rel.1, hrel⟩, hvalid, ?_, ?_, ?_⟩
  · rw [heq]
    exact heid
  · rw [hrid, heid]
  · rw [hsidEq]
    exact hsvc
  · rw [heq]

/-- Witness for C13: with rule_id = r1 the two releases of r1 are listed, each with
its own service, and the release of r2 to s3 is not. -/
theorem listRelease_rule_id_filter_witness :
    ListReleaseCircuitBreakers releaseStore [("rule_id", "r1")] 0 10 =
      .ok { Total := 2,
            CircuitBreakerInfos :=
              [{ convertCircuitBreakerToInfo (mkRule "r1" "master" "n1" true 1) with
                   Services := [mkService "s1" "svc1"] },
               { convertCircuitBreakerToInfo (mkRule "r1" "master" "n1" true 1) with
                   Services := [mkService "s2" "svc2"] }] } ∧
    (∃ rel svc, (∃ k, (k, rel) ∈ releaseStore.relations) ∧ rel.Valid = true ∧
      rel.RuleID = "r1" ∧ releaseStore.services.get rel.ServiceID = some svc ∧
      [mkService "s1" "svc1"] = [svc]) ∧
    (∃ rel svc, (∃ k, (k, rel) ∈ releaseStore.relations) ∧ rel.Valid = true ∧
      rel.RuleID = "r1" ∧ releaseStore.services.get rel.ServiceID = some svc ∧
      [mkService "s2" "svc2"] = [svc]) :=
  have h := listRelease_rule_id_filter releaseStore "r1" 0 10
    { Total := 2,
      CircuitBreakerInfos :=
        [{ convertCircuitBreakerToInfo (mkRule "r1" "master" "n1" true 1) with
             Services := [mkService "s1" "svc1"] },
         { convertCircuitBreakerToInfo (mkRule "r1" "master" "n1" true 1) with
             Services := [mkService "s2" "svc2"] }] }
    (by decide)
  ⟨by decide,
    (h { convertCircuitBreakerToInfo (mkRule "r1" "master" "n1" true 1) with
           Services := [mkService "s1" "svc1"] } (by simp)).2,
    (h { convertCircuitBreakerToInfo (mkRule "r1" "master" "n1" true 1) with
           Services := [mkService "s2" "svc2"] } (by simp)).2⟩

/-! ## Update -/

/-- Key-level form of the upsert: for every store state and every rule cb,
`UpdateCircuitBreaker(cb)` succeeds; `GetCircuitBreaker(cb.ID, cb.Version)` then returns
cb with Valid = true and the ModifyTime of the call; rule rows under every other storage
key, all relations and all services are unchanged. -/
theorem update_is_unconditional_upsert (s : Store) (cb : CircuitBreaker) (now : Time) :
    (UpdateCircuitBreaker s cb now).1 = .ok () ∧
    GetCircuitBreaker (UpdateCircuitBreaker s cb now).2 cb.ID cb.Version =
      .ok (some { cb with Valid := true, ModifyTime := now }) ∧
    (∀ k, k ≠ buildKey cb.ID cb.Version →
      (UpdateCircuitBreaker s cb now).2.rules.get k = s.rules.get k) ∧
    (UpdateCircuitBreaker s cb now).2.rules.filter
        (fun e => decide (e.1 ≠ buildKey cb.ID cb.Version)) =
      s.rules.filter (fun e => decide (e.1 ≠ buildKey cb.ID cb.Version)) ∧
    (UpdateCircuitBreaker s cb now).2.relations = s.relations ∧
    (UpdateCircuitBreaker s cb now).2.services = s.services := by
  refine ⟨rfl, ?_, ?_, ?_, rfl, rfl⟩
  · rw [GetCircuitBreaker_eq]
    simp [UpdateCircuitBreaker, SaveValue, Bucket.get_put_same]
  · intro k hk
    exact Bucket.get_put_ne _ _ hk
  · simp [UpdateCircuitBreaker, SaveValue, Bucket.put, Bucket.del, List.filter_cons,
      List.filter_filter]

/-! ## Window bounds -/

/-- Claim C22, evaluated on the code: offset 1 and limit 4294967295 are 32-bit values
whose sum wraps to 0. The master listing over five matching rules and the release
listing over two collected entries both evaluate the slice expression with low bound 1
above high bound 0 and end in the slice-bounds fault instead of returning a page. -/
theorem list_window_faults_when_sum_wraps :
    (1 < 2 ^ 32 ∧ 4294967295 < 2 ^ 32 ∧ (1 + 4294967295) % 2 ^ 32 = 0) ∧
    (LoadValuesByFilter CircuitBreaker.field pageStore.rules
      (([] : List (String × String)).map Prod.fst ++ [CBFieldNameVersion, CBFieldNameValid])
      (listMasterFilter [])).length = 5 ∧
    ListMasterCircuitBreakers pageStore [] 1 4294967295 =
      .error (.fault "slice bounds out of range") ∧
    (releaseCollected releaseStore [("rule_id", "r1")]).length = 2 ∧
    ListReleaseCircuitBreakers releaseStore [("rule_id", "r1")] 1 4294967295 =
      .error (.fault "slice bounds out of range") := by
  decide

/-! ## Release entries and bound versions -/

/-- Claim C23, evaluated on the code: service s1 is released to r1/master only and
service s2 to r1/v1 only, yet `ListReleaseCircuitBreakers({rule_id: r1}, 0, 10)` returns
four entries, among them r1/master with s2 and r1/v1 with s1, for which no relation
exists. -/
theorem listRelease_pairs_service_with_other_version :
    versionStore.relations =
      [("s1", mkRelation "s1" "r1" "master" true 3), ("s2", mkRelation "s2" "r1" "v1" true 4)] ∧
    ListReleaseCircuitBreakers versionStore [("rule_id", "r1")] 0 10 =
      .ok { Total := 2,
            CircuitBreakerInfos :=
              [{ convertCircuitBreakerToInfo (mkRule "r1" "master" "n" true 1) with
                   Services := [mkService "s1" "svc1"] },
               { convertCircuitBreakerToInfo (mkRule "r1" "master" "n" true 1) with
                   Services := [mkService "s2" "svc2"] },
               { convertCircuitBreakerToInfo (mkRule "r1" "v1" "n" true 2) with
                   Services := [mkService "s1" "svc1"] },
               { convertCircuitBreakerToInfo (mkRule "r1" "v1" "n" true 2) with
                   Services := [mkService "s2" "svc2"] }] } ∧
    (versionStore.relations.filter (fun e => e.2.Valid && decide (e.2.ServiceID = "s2") &&
      decide (e.2.RuleID = "r1") && decide (e.2.RuleVersion = "master"))).length = 0 ∧
    (versionStore.relations.filter (fun e => e.2.Valid && decide (e.2.ServiceID = "s1") &&
      decide (e.2.RuleID = "r1") && decide (e.2.RuleVersion = "v1"))).length = 0 := by
  decide

/-! ## Bootstrap of the admin identity -/

/-- The state left by one bootstrap run, bucket by bucket. -/
theorem initAuthStoreData_eq (s : AuthStore) (c : InitClock) :
    initAuthStoreData s c =
      (.ok (),
        ⟨match s.users.get "65e4789a6d5b49669adf1e9e8387549c" with
          | some _ => s.users
          | none => s.users.put "65e4789a6d5b49669adf1e9e8387549c" (mainUser c),
         match s.strategies.get "fbca9bfa04ae4ead86e1ecf5811e32a9" with
          | some _ => s.strategies
          | none => s.strategies.put "fbca9bfa04ae4ead86e1ecf5811e32a9"
              (mainDefaultStrategy c)⟩) := by
  cases hu : s.users.get "65e4789a6d5b49669adf1e9e8387549c" <;>
    cases hp : s.strategies.get "fbca9bfa04ae4ead86e1ecf5811e32a9" <;>
    simp [initAuthStoreData, ExecuteAuth, getUser, getStrategyDetail, SaveValue, mainUser,
      mainDefaultStrategy, hu, hp]

/-- Claim C21: for every state of the auth buckets, `initAuthStoreData` returns no error;
it writes the fixed admin user only when no row is stored under its well-known ID, and
the fixed default strategy only when no row is stored under its well-known ID, leaving
existing rows as they are; on a store that holds both rows it changes nothing; and a
second run, also one with seed literals built at another time, leaves the state of the
first run unchanged. -/
theorem initAuthStoreData_idempotent (s : AuthStore) (c c' : InitClock) :
    (initAuthStoreData s c).1 = .ok () ∧
    (initAuthStoreData s c).2.users =
      (match s.users.get (mainUser c).ID with
        | some _ => s.users
        | none => s.users.put (mainUser c).ID (mainUser c)) ∧
    (initAuthStoreData s c).2.strategies =
      (match s.strategies.get (mainDefaultStrategy c).ID with
        | some _ => s.strategies
        | none => s.strategies.put (mainDefaultStrategy c).ID (mainDefaultStrategy c)) ∧
    (∀ u p, s.users.get (mainUser c).ID = some u →
      s.strategies.get (mainDefaultStrategy c).ID = some p →
      initAuthStoreData s c = (.ok (), s)) ∧
    initAuthStoreData (initAuthStoreData s c).2 c' = (.ok (), (initAuthStoreData s c).2) := by
  refine ⟨?_, ?_, ?_, ?_, ?_⟩
  · rw [initAuthStoreData_eq]
  · rw [initAuthStoreData_eq]
    rfl
  · rw [initAuthStoreData_eq]
    rfl
  · intro u p hu hp
    have hu' : s.users.get "65e4789a6d5b49669adf1e9e8387549c" = some u := hu
    have hp' : s.strategies.get "fbca9bfa04ae4ead86e1ecf5811e32a9" = some p := hp
    rw [initAuthStoreData_eq, hu', hp']
  · rw [initAuthStoreData_eq s c, initAuthStoreData_eq _ c']
    cases hu : s.users.get "65e4789a6d5b49669adf1e9e8387549c" <;>
      cases hp : s.strategies.get "fbca9bfa04ae4ead86e1ecf5811e32a9" <;>
      simp [hu, hp, Bucket.get_put_same]

/-- Witness for C21: the empty auth store is seeded by the first run; a second run with
other seed times leaves it as it is; a store that already holds edited rows under the two
IDs is left untouched. -/
theorem initAuthStoreData_idempotent_witness :
    (initAuthStoreData ⟨[], []⟩ ⟨1, 2, 3, 4⟩).2 =
      ⟨[("65e4789a6d5b49669adf1e9e8387549c", mainUser ⟨1, 2, 3, 4⟩)],
       [("fbca9bfa04ae4ead86e1ecf5811e32a9", mainDefaultStrategy ⟨1, 2, 3, 4⟩)]⟩ ∧
    initAuthStoreData (initAuthStoreData ⟨[], []⟩ ⟨1, 2, 3, 4⟩).2 ⟨5, 6, 7, 8⟩ =
      (.ok (), (initAuthStoreData ⟨[], []⟩ ⟨1, 2, 3, 4⟩).2) ∧
    initAuthStoreData seededAuthStore ⟨5, 6, 7, 8⟩ = (.ok (), seededAuthStore) :=
  ⟨by decide,
    (initAuthStoreData_idempotent ⟨[], []⟩ ⟨1, 2, 3, 4⟩ ⟨5, 6, 7, 8⟩).2.2.2.2,
    (initAuthStoreData_idempotent seededAuthStore ⟨5, 6, 7, 8⟩ ⟨5, 6, 7, 8⟩).2.2.2.1
      { mainUser ⟨1, 1, 1, 1⟩ with Name := "renamed", ModifyTime := 50 }
      { mainDefaultStrategy ⟨1, 1, 1, 1⟩ with Comment := "edited", ModifyTime := 60 }
      (by decide) (by decide)⟩

/-! ## Rows by ID and Version on separator-free stores -/

/-- On a rule bucket whose rows sit under their own key and whose IDs hold no separator,
the row under the key of (id, version) is the row with that ID and Version. -/
theorem get_iff_fields {b : Bucket CircuitBreaker} (hinv : RuleInv b)
    (hclean : ∀ e ∈ b, separatorFree e.2.ID) {id version : String} (hid : separatorFree id)
    (r : CircuitBreaker) :
    b.get (buildKey id version) = some r ↔
      (∃ k, (k, r) ∈ b) ∧ r.ID = id ∧ r.Version = version := by
  constructor
  · intro hg
    have hmem := Bucket.mem_of_get hg
    have hkey : buildKey id version = buildKey r.ID r.Version := hinv.2 _ hmem
    have hinj := buildKey_inj hid (hclean _ hmem) hkey
    exact ⟨⟨_, hmem⟩, hinj.1.symm, hinj.2.symm⟩
  · rintro ⟨⟨k, hmem⟩, hrid, hrv⟩
    have hkey : k = buildKey r.ID r.Version := hinv.2 _ hmem
    rw [← hrid, ← hrv, ← hkey]
    exact Bucket.get_of_mem hinv.1 hmem

/-- Claim C5, amended: in every store state reached from the empty store by calls that
write only rules whose ID does not contain the separator `_`, and for every relation cbr
whose RuleID does not contain it, when no valid rule row with ID = cbr.RuleID and
Version = cbr.RuleVersion exists (absent or soft-deleted), `ReleaseCircuitBreaker(cbr)`
fails with the NotFound status error and leaves the store unchanged, in particular the
relation stored for cbr.ServiceID. -/
theorem release_without_valid_target_fails (ops : List Op)
    (hops : ∀ op ∈ ops, op.separatorFree) (cbr : CircuitBreakerRelation)
    (hclean : separatorFree cbr.RuleID) (t1 t2 : Time)
    (hno : ∀ e ∈ (runAll Store.empty ops).rules,
      e.2.ID = cbr.RuleID → e.2.Version = cbr.RuleVersion → e.2.Valid = false) :
    (ReleaseCircuitBreaker (runAll Store.empty ops) cbr t1 t2).1 =
      .error (.status .NotFoundMasterConfig "not found tag config") ∧
    (ReleaseCircuitBreaker (runAll Store.empty ops) cbr t1 t2).2 = runAll Store.empty ops ∧
    (ReleaseCircuitBreaker (runAll Store.empty ops) cbr t1 t2).2.relations.get cbr.ServiceID =
      (runAll Store.empty ops).relations.get cbr.ServiceID := by
  obtain ⟨hinv, hids⟩ := runAll_invariants ops hops Store.empty
    ⟨List.nodup_nil, fun e he => by simp [Store.empty] at he⟩
    (fun e he => by simp [Store.empty] at he)
  apply release_missing_target_fails
  intro row hrow
  obtain ⟨⟨k, hmem⟩, hrid, hrv⟩ := (get_iff_fields hinv hids hclean row).mp hrow
  exact hno (k, row) hmem hrid hrv

/-- Witness for C5: after Create(r1/master) and Release(s1 to r1/master), releasing s1
to the absent rule rX/master fails and the binding to r1/master stays. -/
theorem release_without_valid_target_fails_witness :
    (ReleaseCircuitBreaker (runAll Store.empty
        [Op.create (mkRule "r1" "master" "n" false 0) 1 1,
         Op.release (mkRelation "s1" "r1" "master" false 0) 2 2])
      (mkRelation "s1" "rX" "master" false 0) 7 8).1 =
      .error (.status .NotFoundMasterConfig "not found tag config") ∧
    (ReleaseCircuitBreaker (runAll Store.empty
        [Op.create (mkRule "r1" "master" "n" false 0) 1 1,
         Op.release (mkRelation "s1" "r1" "master" false 0) 2 2])
      (mkRelation "s1" "rX" "master" false 0) 7 8).2.relations.get "s1" =
      some { mkRelation "s1" "r1" "master" true 2 with CreateTime := 2 } :=
  have h := release_without_valid_target_fails
    [Op.create (mkRule "r1" "master" "n" false 0) 1 1,
     Op.release (mkRelation "s1" "r1" "master" false 0) 2 2]
    (by decide) (mkRelation "s1" "rX" "master" false 0) (by decide) 7 8 (by decide)
  ⟨h.1, h.2.2.trans (by decide)⟩

/-- Claim C5 as stated fails: after Create of the rule with ID a_b and Version c no rule
row has ID a and Version b_c, yet `ReleaseCircuitBreaker` of service s1 to (a, b_c)
succeeds and writes the relation, because both pairs share the storage key a_b_c. -/
theorem release_succeeds_on_shared_key :
    ((runAll Store.empty [Op.create (mkRule "a_b" "c" "n" false 0) 1 1]).rules.filter
      (fun e => decide (e.2.ID = "a") && decide (e.2.Version = "b_c"))).length = 0 ∧
    (ReleaseCircuitBreaker (runAll Store.empty [Op.create (mkRule "a_b" "c" "n" false 0) 1 1])
      (mkRelation "s1" "a" "b_c" false 0) 7 8).1 = .ok () ∧
    (ReleaseCircuitBreaker (runAll Store.empty [Op.create (mkRule "a_b" "c" "n" false 0) 1 1])
      (mkRelation "s1" "a" "b_c" false 0) 7 8).2.relations =
      [("s1", { mkRelation "s1" "a" "b_c" true 8 with CreateTime := 7 })] := by
  decide

/-- Claim C24, amended: in every store state reached from the empty store by calls that
write only rules whose ID does not contain the separator `_`, and for every rule cb whose
ID does not contain it, `UpdateCircuitBreaker(cb)` succeeds, whatever is stored at
(cb.ID, cb.Version) and whether or not a master exists; `GetCircuitBreaker(cb.ID,
cb.Version)` then returns cb with Valid = true and the ModifyTime of the call; the rule
rows with another (ID, Version), all relations and all services are unchanged. -/
theorem update_upsert_keeps_other_rules (ops : List Op)
    (hops : ∀ op ∈ ops, op.separatorFree) (cb : CircuitBreaker)
    (hclean : separatorFree cb.ID) (now : Time) :
    (UpdateCircuitBreaker (runAll Store.empty ops) cb now).1 = .ok () ∧
    GetCircuitBreaker (UpdateCircuitBreaker (runAll Store.empty ops) cb now).2 cb.ID
        cb.Version = .ok (some { cb with Valid := true, ModifyTime := now }) ∧
    (UpdateCircuitBreaker (runAll Store.empty ops) cb now).2.rules.filter
        (fun e => !(decide (e.2.ID = cb.ID) && decide (e.2.Version = cb.Version))) =
      (runAll Store.empty ops).rules.filter
        (fun e => !(decide (e.2.ID = cb.ID) && decide (e.2.Version = cb.Version))) ∧
    (UpdateCircuitBreaker (runAll Store.empty ops) cb now).2.relations =
      (runAll Store.empty ops).relations ∧
    (UpdateCircuitBreaker (runAll Store.empty ops) cb now).2.services =
      (runAll Store.empty ops).services := by
  obtain ⟨hinv, hids⟩ := runAll_invariants ops hops Store.empty
    ⟨List.nodup_nil, fun e he => by simp [Store.empty] at he⟩
    (fun e he => by simp [Store.empty] at he)
  have hinv2 : RuleInv (UpdateCircuitBreaker (runAll Store.empty ops) cb now).2.rules :=
    RuleInv_step (runAll Store.empty ops) (Op.update cb now) hinv
  have hids2 : ∀ e ∈ (UpdateCircuitBreaker (runAll Store.empty ops) cb now).2.rules,
      separatorFree e.2.ID :=
    cleanIDs_step (runAll Store.empty ops) (Op.update cb now) hclean hids
  have hkeyform : ∀ (b : Bucket CircuitBreaker), RuleInv b → (∀ e ∈ b, separatorFree e.2.ID) →
      b.filter (fun e => !(decide (e.2.ID = cb.ID) && decide (e.2.Version = cb.Version))) =
        b.filter (fun e => decide (e.1 ≠ buildKey cb.ID cb.Version)) := by
    intro b hb hc
    apply List.filter_congr
    intro e he
    have hkey : e.1 = buildKey e.2.ID e.2.Version := hb.2 e he
    by_cases hpair : e.2.ID = cb.ID ∧ e.2.Version = cb.Version
    · have : e.1 = buildKey cb.ID cb.Version := by rw [hkey, hpair.1, hpair.2]
      simp [hpair.1, hpair.2, this]
    · have hne : e.1 ≠ buildKey cb.ID cb.Version := by
        intro heq
        rw [hkey] at heq
        have := buildKey_inj (hc e he) hclean heq
        exact hpair this
      have hb2 : (decide (e.2.ID = cb.ID) && decide (e.2.Version = cb.Version)) = false := by
        simpa using fun h1 => fun h2 => hpair ⟨h1, h2⟩
      simp [hb2, hne]
  have hold := update_is_unconditional_upsert (runAll Store.empty ops) cb now
  refine ⟨hold.1, hold.2.1, ?_, hold.2.2.2.2.1, hold.2.2.2.2.2⟩
  rw [hkeyform _ hinv2 hids2, hkeyform _ hinv hids]
  exact hold.2.2.2.1

/-- Witness for C24: r1/master and r1/v1 exist; Update of r1/v1 returns the new record
and the master row is the same row as before. -/
theorem update_upsert_keeps_other_rules_witness :
    GetCircuitBreaker (UpdateCircuitBreaker (runAll Store.empty
        [Op.create (mkRule "r1" "master" "n" false 0) 1 1,
         Op.tag (mkRule "r1" "v1" "n" false 0) 2 2])
      (mkRule "r1" "v1" "n2" false 0) 9).2 "r1" "v1" =
      .ok (some (mkRule "r1" "v1" "n2" true 9)) ∧
    (UpdateCircuitBreaker (runAll Store.empty
        [Op.create (mkRule "r1" "master" "n" false 0) 1 1,
         Op.tag (mkRule "r1" "v1" "n" false 0) 2 2])
      (mkRule "r1" "v1" "n2" false 0) 9).2.rules.filter
        (fun e => !(decide (e.2.ID = "r1") && decide (e.2.Version = "v1"))) =
      [("r1_master", { mkRule "r1" "master" "n" true 1 with CreateTime := 1 })] :=
  have h := update_upsert_keeps_other_rules
    [Op.create (mkRule "r1" "master" "n" false 0) 1 1,
     Op.tag (mkRule "r1" "v1" "n" false 0) 2 2]
    (by decide) (mkRule "r1" "v1" "n2" false 0) (by decide) 9
  ⟨h.2.1, h.2.2.1.trans (by decide)⟩

/-- Claim C24 as stated fails: the store holds the rule with ID a_b and Version c;
`UpdateCircuitBreaker` of the rule with ID a and Version b_c, another (ID, Version),
replaces that row, because both pairs share the storage key a_b_c. -/
theorem update_overwrites_rule_of_shared_key :
    (runAll Store.empty [Op.create (mkRule "a_b" "c" "n" false 0) 1 1]).rules =
      [("a_b_c", { mkRule "a_b" "c" "n" true 1 with CreateTime := 1 })] ∧
    (UpdateCircuitBreaker (runAll Store.empty [Op.create (mkRule "a_b" "c" "n" false 0) 1 1])
      (mkRule "a" "b_c" "m" false 0) 5).1 = .ok () ∧
    (UpdateCircuitBreaker (runAll Store.empty [Op.create (mkRule "a_b" "c" "n" false 0) 1 1])
      (mkRule "a" "b_c" "m" false 0) 5).2.rules = [("a_b_c", mkRule "a" "b_c" "m" true 5)] ∧
    ((UpdateCircuitBreaker (runAll Store.empty [Op.create (mkRule "a_b" "c" "n" false 0) 1 1])
      (mkRule "a" "b_c" "m" false 0) 5).2.rules.filter
      (fun e => decide (e.2.ID = "a_b") && decide (e.2.Version = "c"))).length = 0 := by
  decide

/-! ## Cache feed on separator-free stores -/

theorem separatorFree_of_keys {op : Op} (h : op.keysSeparatorFree) : op.separatorFree := by
  cases op <;> first | exact h | exact trivial

/-- Under separator-free releases no stored relation names a rule ID with a separator. -/
theorem cleanRelationIDs_step (s : Store) (op : Op) (hop : op.keysSeparatorFree)
    (h : ∀ e ∈ s.relations, separatorFree e.2.RuleID) :
    ∀ e ∈ (op.run s).2.relations, separatorFree e.2.RuleID := by
  cases op with
  | create cb t1 t2 => exact h
  | tag cb t1 t2 =>
    intro e he
    simp only [Op.run, tag_relations] at he
    exact h e he
  | update cb now => exact h
  | deleteTag id version now =>
    intro e he
    cases hl : (LoadValuesByFilter CircuitBreakerRelation.field s.relations
      [CBRelationFieldValid, CBRelationFieldRuleID, CBRelationFieldRuleVersion]
      (deleteTagFilter id version)).get id with
    | none =>
      simp only [Op.run, DeleteTag_of_lookup_none s id version now hl] at he
      exact h e he
    | some rel =>
      simp only [Op.run, DeleteTag_of_lookup_some s id version now rel hl] at he
      exact h e he
  | release cbr t1 t2 =>
    intro e he
    rcases release_relations_cases s cbr t1 t2 with hr | hr
    · simp only [Op.run, hr] at he
      exact h e he
    · simp only [Op.run, hr] at he
      rcases Bucket.mem_put he with he | he
      · subst he
        exact hop
      · exact h e he
  | unbind serviceID ruleID ruleVersion now =>
    intro e he
    simp only [Op.run, UnbindCircuitBreaker, UpdateValue] at he
    obtain ⟨v, hv, hor⟩ := Bucket.mem_modify he
    have hclean := h (e.1, v) hv
    rcases hor with hor | hor
    · rw [hor]
      exact hclean
    · rw [hor, unbind_patch]
      exact hclean

theorem runAll_feed_invariants (ops : List Op) (hops : ∀ op ∈ ops, op.keysSeparatorFree) :
    ∀ (s : Store), RuleInv s.rules → (∀ e ∈ s.rules, separatorFree e.2.ID) →
      RelationInv s.relations → (∀ e ∈ s.relations, separatorFree e.2.RuleID) →
      RuleInv (runAll s ops).rules ∧ (∀ e ∈ (runAll s ops).rules, separatorFree e.2.ID) ∧
      RelationInv (runAll s ops).relations ∧
      ∀ e ∈ (runAll s ops).relations, separatorFree e.2.RuleID := by
  induction ops with
  | nil => intro s h1 h2 h3 h4; exact ⟨h1, h2, h3, h4⟩
  | cons op rest ih =>
    intro s h1 h2 h3 h4
    have hop : op.keysSeparatorFree := hops op (List.mem_cons_self _ _)
    exact ih (fun o ho => hops o (List.mem_cons_of_mem _ ho)) (op.run s).2
      (RuleInv_step s op h1) (cleanIDs_step s op (separatorFree_of_keys hop) h2)
      (RelationInv_step s op h3) (cleanRelationIDs_step s op hop h4)

/-- Claim C9, amended: in every store state reached from the empty store by calls whose
rule IDs, of the rules written and of the relations released, do not contain the
separator `_`, for every cursor and either value of firstUpdate,
`GetCircuitBreakerForCache` returns without error; an aggregate is returned exactly when
it is built from a relation row, valid or soft-deleted, whose ModifyTime is at or after
the cursor (equality included) and whose bound rule row, the row with ID = RuleID and
Version = RuleVersion, exists; it carries the relation's ServiceID, that rule row, and
the relation's Valid flag, CreateTime and ModifyTime; relations without such a row are
dropped, and no two returned aggregates have the same ServiceID. -/
theorem cacheFeed_delivers_bound_rules (ops : List Op)
    (hops : ∀ op ∈ ops, op.keysSeparatorFree) (sinceMtime : Time) (firstUpdate : Bool) :
    ∃ out, GetCircuitBreakerForCache (runAll Store.empty ops) sinceMtime firstUpdate = .ok out ∧
      (∀ a, a ∈ out ↔ ∃ rel rule, (rel.ServiceID, rel) ∈ (runAll Store.empty ops).relations ∧
        sinceMtime ≤ rel.ModifyTime ∧
        (∃ k, (k, rule) ∈ (runAll Store.empty ops).rules) ∧
        rule.ID = rel.RuleID ∧ rule.Version = rel.RuleVersion ∧
        a = { ServiceID := rel.ServiceID, CircuitBreaker := rule, Valid := rel.Valid,
              CreateTime := rel.CreateTime, ModifyTime := rel.ModifyTime }) ∧
      (out.map (fun a => a.ServiceID)).Nodup := by
  obtain ⟨hinv, hids, hrel, hrids⟩ := runAll_feed_invariants ops hops Store.empty
    ⟨List.nodup_nil, fun e he => by simp [Store.empty] at he⟩
    (fun e he => by simp [Store.empty] at he)
    ⟨List.nodup_nil, fun e he => by simp [Store.empty] at he⟩
    (fun e he => by simp [Store.empty] at he)
  obtain ⟨out, hout, hmem, hnd⟩ :=
    cacheFeed_content (runAll Store.empty ops) sinceMtime firstUpdate hrel
  refine ⟨out, hout, ?_, hnd⟩
  intro a
  rw [hmem a]
  constructor
  · rintro ⟨rel, rule, hr, hm, hg, ha⟩
    have hc := hrids _ hr
    obtain ⟨hex, hid, hv⟩ := (get_iff_fields hinv hids hc rule).mp hg
    exact ⟨rel, rule, hr, hm, hex, hid, hv, ha⟩
  · rintro ⟨rel, rule, hr, hm, hex, hid, hv, ha⟩
    have hc := hrids _ hr
    exact ⟨rel, rule, hr, hm, (get_iff_fields hinv hids hc rule).mpr ⟨hex, hid, hv⟩, ha⟩

/-- Witness for C9: r1/master is created and released to s1 at time 3 and to s2 at time
5, then s2 is unbound at time 6 and the master is updated; at cursor 5 the feed holds s2
only, soft-deleted, with the current master row. -/
theorem cacheFeed_delivers_bound_rules_witness :
    GetCircuitBreakerForCache (runAll Store.empty
      [Op.create (mkRule "r1" "master" "n" false 0) 1 1,
       Op.release (mkRelation "s1" "r1" "master" false 0) 3 3,
       Op.release (mkRelation "s2" "r1" "master" false 0) 5 5,
       Op.unbind "s2" "r1" "master" 6,
       Op.update (mkRule "r1" "master" "n2" false 0) 7]) 5 false =
      .ok [{ ServiceID := "s2", CircuitBreaker := mkRule "r1" "master" "n2" true 7,
             Valid := false, CreateTime := 5, ModifyTime := 6 }] ∧
    ∃ out, GetCircuitBreakerForCache (runAll Store.empty
      [Op.create (mkRule "r1" "master" "n" false 0) 1 1,
       Op.release (mkRelation "s1" "r1" "master" false 0) 3 3,
       Op.release (mkRelation "s2" "r1" "master" false 0) 5 5,
       Op.unbind "s2" "r1" "master" 6,
       Op.update (mkRule "r1" "master" "n2" false 0) 7]) 5 false = .ok out ∧
      (out.map (fun a => a.ServiceID)).Nodup :=
  have h := cacheFeed_delivers_bound_rules
    [Op.create (mkRule "r1" "master" "n" false 0) 1 1,
     Op.release (mkRelation "s1" "r1" "master" false 0) 3 3,
     Op.release (mkRelation "s2" "r1" "master" false 0) 5 5,
     Op.unbind "s2" "r1" "master" 6,
     Op.update (mkRule "r1" "master" "n2" false 0) 7]
    (by decide) 5 false
  ⟨by decide, h.elim (fun out ho => ⟨out, ho.1, ho.2.2⟩)⟩

/-- Claim C9 as stated fails: after Create of the rule with ID a_b and Version c and
Release of service s1 to (a, b_c), no rule row has ID a and Version b_c, yet the feed
delivers an aggregate for s1, carrying the row of the rule (a_b, c), because both pairs
share the storage key a_b_c. -/
theorem cacheFeed_delivers_row_of_shared_key :
    ((runAll Store.empty
      [Op.create (mkRule "a_b" "c" "n" false 0) 1 1,
       Op.release (mkRelation "s1" "a" "b_c" false 0) 2 2]).rules.filter
      (fun e => decide (e.2.ID = "a") && decide (e.2.Version = "b_c"))).length = 0 ∧
    (runAll Store.empty
      [Op.create (mkRule "a_b" "c" "n" false 0) 1 1,
       Op.release (mkRelation "s1" "a" "b_c" false 0) 2 2]).relations =
      [("s1", { mkRelation "s1" "a" "b_c" true 2 with CreateTime := 2 })] ∧
    GetCircuitBreakerForCache (runAll Store.empty
      [Op.create (mkRule "a_b" "c" "n" false 0) 1 1,
       Op.release (mkRelation "s1" "a" "b_c" false 0) 2 2]) 0 false =
      .ok [{ ServiceID := "s1",
             CircuitBreaker := { mkRule "a_b" "c" "n" true 1 with CreateTime := 1 },
             Valid := true, CreateTime := 2, ModifyTime := 2 }] := by
  decide

end Polaris
